import Mathlib

/-!
Minishell, the command-execution core.

A shallow embedding of `src/minishell.c`.  C strings are lists of characters
(the bytes before the terminating NUL), an argument vector `char **args` is the
list of its slots up to and including the `NULL` end marker, and every process
carries its own descriptor table, working directory and a trace of the system
calls and reports it made.  `fork` copies the process state, so a child's
mutations never reach the parent.
-/

namespace Minishell

/-! ## Tokenizer -/

/-- The constant `MAX_ARGS` of the source. -/
def MAX_ARGS : Nat := 64

/-- The delimiter set `DELIM`: space, tab, carriage return, newline. -/
def DELIM : List Char := [Char.ofNat 32, Char.ofNat 9, Char.ofNat 13, Char.ofNat 10]

/-- Membership of a character in `DELIM`. -/
def is_delim (c : Char) : Bool := DELIM.contains c

/-- The libc function `strtok` on the not yet consumed part of the line: skip
leading delimiters; at the end of the string return `NULL`; otherwise return
the run up to the next delimiter and the saved position right after that
delimiter (which `strtok` overwrites with NUL). -/
def strtok (s : List Char) : Option (List Char) × List Char :=
  match s.dropWhile is_delim with
  | [] => (none, [])
  | c :: cs =>
    (some ((c :: cs).takeWhile (fun x => !is_delim x)),
     ((c :: cs).dropWhile (fun x => !is_delim x)).drop 1)

/-- The `while (token != NULL && pos < MAX_ARGS - 1)` loop of `parse_line`; the
first argument is `MAX_ARGS - 1 - pos`, the number of slots still free. -/
def parse_line_loop : Nat → Option (List Char) → List Char → List String
  | 0, _, _ => []
  | _ + 1, none, _ => []
  | n + 1, some token, save =>
    String.mk token :: parse_line_loop n (strtok save).1 (strtok save).2

/-- The tokens `args[0..pos-1]` stored by `parse_line`. -/
def parse_line_tokens (line : String) : List String :=
  parse_line_loop (MAX_ARGS - 1) (strtok line.data).1 (strtok line.data).2

/-- An argument vector in memory: the slots of a `char **`, `none` being `NULL`. -/
abbrev Argv := List (Option String)

/-- The array written by storing the tokens and then `args[pos] = NULL`. -/
def argv_of (tokens : List String) : Argv := tokens.map some ++ [none]

/-- The function `parse_line`: the returned count and the filled array. -/
def parse_line (line : String) : Nat × Argv :=
  ((parse_line_tokens line).length, argv_of (parse_line_tokens line))

/-- The logical content of a `NULL`-terminated vector: the slots before the
first `NULL`. -/
def cvec : Argv → List String
  | [] => []
  | none :: _ => []
  | some s :: rest => s :: cvec rest

/-- The words of a line as the specification describes them: the maximal runs
of characters other than space, tab, carriage return and newline, in order. -/
def spec_words (line : String) : List String :=
  ((line.data.splitOnP is_delim).filter (fun w => !w.isEmpty)).map String.mk

/-! ## Operating-system model -/

/-- What an open descriptor refers to. -/
inductive FileRef
  /-- An open file description the interpreter already had (terminal, ...). -/
  | inherited (n : Nat)
  /-- The read end of the pipe created for the current line. -/
  | pipe_read
  /-- The write end of the pipe created for the current line. -/
  | pipe_write
  /-- A file opened with `O_RDONLY`. -/
  | file_rdonly (path : String)
  /-- A file opened with `O_WRONLY | O_CREAT | O_TRUNC`, mode 0644. -/
  | file_wronly (path : String)
  deriving DecidableEq, Repr

/-- A descriptor table: slot `fd` holds what descriptor `fd` refers to, `none`
when it is closed. Descriptors past the end of the list are closed. -/
abbrev FdTable := List (Option FileRef)

/-- The open file description behind a descriptor, `none` when closed. -/
def fd_get (t : FdTable) (fd : Nat) : Option FileRef := (t.get? fd).join

/-- Overwrite one slot of the table, growing the table when needed. -/
def fd_set (t : FdTable) (fd : Nat) (v : Option FileRef) : FdTable :=
  if fd < t.length then t.set fd v
  else t ++ List.replicate (fd - t.length) none ++ [v]

/-- The lowest closed descriptor, the one `open` and `pipe` hand out. -/
def fd_lowest_free (t : FdTable) : Nat := t.findIdx Option.isNone

/-- The constant `STDIN_FILENO`. -/
def STDIN_FILENO : Nat := 0

/-- The constant `STDOUT_FILENO`. -/
def STDOUT_FILENO : Nat := 1

/-- The constant `EXIT_FAILURE`. -/
def EXIT_FAILURE : Nat := 1

/-- The messages the program writes to the error stream. -/
inductive Report
  /-- The message of line 50, `cd` without argument. -/
  | cd_expected_argument
  /-- The call `perror("cd")`. -/
  | perror_cd
  /-- The message of line 156, no file after the input operator. -/
  | expected_file_after_in
  /-- The call `perror("open input")`. -/
  | perror_open_input
  /-- The message of line 171, no file after the output operator. -/
  | expected_file_after_out
  /-- The call `perror("open output")`. -/
  | perror_open_output
  /-- The call `perror("execvp")`. -/
  | perror_execvp
  /-- The call `perror("fork")`. -/
  | perror_fork
  /-- The call `perror("pipe")`. -/
  | perror_pipe
  deriving DecidableEq, Repr

/-- What a process does that is visible outside of it, in program order. -/
inductive Event
  | report (r : Report)
  /-- A call of `open`; `fd` is the returned descriptor, `-1` on failure. -/
  | sys_open (path : String) (fd : Int)
  /-- A call of `dup2`; `src` is what `oldfd` referred to, `none` when closed. -/
  | sys_dup2 (oldfd newfd : Nat) (src : Option FileRef)
  /-- A call of `close`; `was` is what `fd` referred to, `none` when closed. -/
  | sys_close (fd : Nat) (was : Option FileRef)
  | sys_chdir (path : String) (ok : Bool)
  /-- A call of `pipe`; `none` when it failed. -/
  | sys_pipe (fds : Option (Nat × Nat))
  | sys_fork (pid : Int)
  | sys_waitpid (pid : Int)
  /-- A call of `exec_builtin` with the given vector. -/
  | call_exec_builtin (args : List String)
  | sys_execvp (file : String) (args : List String) (ok : Bool)
  deriving DecidableEq, Repr

/-- The environment of the interpreter: the answers of the operating system. -/
structure World where
  /-- Whether `open(path, O_RDONLY)` succeeds. -/
  can_read : String → Bool
  /-- Whether `open(path, O_WRONLY | O_CREAT | O_TRUNC, 0644)` succeeds. -/
  can_write : String → Bool
  /-- The call `chdir(path)` from a working directory: the new working
  directory, `none` when the call fails. -/
  chdir : String → String → Option String
  /-- Whether `execvp` finds and starts the program. -/
  can_exec : String → Bool
  /-- Whether `pipe` succeeds. -/
  pipe_ok : Bool
  /-- Whether the k-th `fork` of an invocation succeeds (k = 0, 1). -/
  fork_ok : Nat → Bool

/-- The state of one process. -/
structure Proc where
  fds : FdTable
  cwd : String
  trace : List Event
  deriving DecidableEq, Repr

/-- Append an event to the trace of a process. -/
def Proc.emit (p : Proc) (e : Event) : Proc := { p with trace := p.trace ++ [e] }

/-- The call `open(path, O_RDONLY)`. -/
def sys_open_rdonly (w : World) (p : Proc) (path : String) : Proc × Int :=
  if w.can_read path then
    let fd := fd_lowest_free p.fds
    (({ p with fds := fd_set p.fds fd (some (FileRef.file_rdonly path)) } : Proc).emit
      (Event.sys_open path fd), fd)
  else (p.emit (Event.sys_open path (-1)), -1)

/-- The call `open(path, O_WRONLY | O_CREAT | O_TRUNC, 0644)`. -/
def sys_open_wronly (w : World) (p : Proc) (path : String) : Proc × Int :=
  if w.can_write path then
    let fd := fd_lowest_free p.fds
    (({ p with fds := fd_set p.fds fd (some (FileRef.file_wronly path)) } : Proc).emit
      (Event.sys_open path fd), fd)
  else (p.emit (Event.sys_open path (-1)), -1)

/-- The call `dup2(oldfd, newfd)`: a closed `oldfd` is an error that changes
nothing. -/
def sys_dup2 (p : Proc) (oldfd newfd : Nat) : Proc :=
  match fd_get p.fds oldfd with
  | none => p.emit (Event.sys_dup2 oldfd newfd none)
  | some r =>
    ({ p with fds := fd_set p.fds newfd (some r) } : Proc).emit
      (Event.sys_dup2 oldfd newfd (some r))

/-- The call `close(fd)`: a closed `fd` is an error that changes nothing. -/
def sys_close (p : Proc) (fd : Nat) : Proc :=
  match fd_get p.fds fd with
  | none => p.emit (Event.sys_close fd none)
  | some r =>
    ({ p with fds := fd_set p.fds fd none } : Proc).emit (Event.sys_close fd (some r))

/-! ## Builtins -/

/-- The slot `args[i]`; a slot that was never written reads as `NULL`. -/
def arg_at (args : Argv) (i : Nat) : Option String := (args.get? i).join

/-- The function `is_builtin`; `none` is the call of `strcmp` on a `NULL`
first slot, which has no defined result. -/
def is_builtin (args : Argv) : Option Int :=
  match arg_at args 0 with
  | none => none
  | some a0 =>
    if a0 = "cd" then some 1
    else if a0 = "exit" then some 1
    else some 0

/-- How a function call inside a process ends. -/
inductive Flow where
  /-- The call returned this value. -/
  | ret (v : Int) (p : Proc)
  /-- The call ended the process through `exit(status)`. -/
  | exit (status : Nat) (p : Proc)
  /-- The call dereferenced a `NULL` pointer. -/
  | fault (p : Proc)
  deriving DecidableEq, Repr

/-- The function `exec_builtin`. -/
def exec_builtin (w : World) (p : Proc) (args : Argv) : Flow :=
  match arg_at args 0 with
  | none => Flow.fault p
  | some a0 =>
    if a0 = "cd" then
      match arg_at args 1 with
      | none => Flow.ret 1 (p.emit (Event.report Report.cd_expected_argument))
      | some path =>
        match w.chdir p.cwd path with
        | some dir =>
          Flow.ret 1 (({ p with cwd := dir } : Proc).emit (Event.sys_chdir path true))
        | none =>
          Flow.ret 1 ((p.emit (Event.sys_chdir path false)).emit (Event.report Report.perror_cd))
    else if a0 = "exit" then Flow.exit 0 p
    else Flow.ret 0 p

/-! ## Pipe detection and redirection -/

/-- The loop of `find_pipe`, started at index `i`. -/
def find_pipe_loop : Argv → Nat → Int
  | some a :: rest, i => if a = "|" then (i : Int) else find_pipe_loop rest (i + 1)
  | _, _ => -1

/-- The function `find_pipe`. -/
def find_pipe (args : Argv) : Int := find_pipe_loop args 0

/-- The scanning loop of `handle_redirection`, started at index `i` with the
current values of `in_redirect` and `out_redirect`. -/
def scan_redirect : Argv → Nat → Int × Int → Int × Int
  | some a :: rest, i, (in_redirect, out_redirect) =>
    if a = "<" then scan_redirect rest (i + 1) ((i : Int), out_redirect)
    else if a = ">" then scan_redirect rest (i + 1) (in_redirect, (i : Int))
    else scan_redirect rest (i + 1) (in_redirect, out_redirect)
  | _, _, r => r

/-- Lines 169 to 182 of `handle_redirection`: the output operator. -/
def redirect_output (w : World) (p : Proc) (args : Argv) (out_redirect : Int) : Proc × Argv :=
  if out_redirect ≠ -1 then
    match arg_at args (out_redirect.toNat + 1) with
    | none => (p.emit (Event.report Report.expected_file_after_out), args)
    | some path =>
      let r := sys_open_wronly w p path
      if r.2 < 0 then (r.1.emit (Event.report Report.perror_open_output), args)
      else
        (sys_close (sys_dup2 r.1 r.2.toNat STDOUT_FILENO) r.2.toNat,
         args.set out_redirect.toNat none)
  else (p, args)

/-- The function `handle_redirection`: the process and the vector it leaves. -/
def handle_redirection (w : World) (p : Proc) (args : Argv) : Proc × Argv :=
  let ix := scan_redirect args 0 (-1, -1)
  if ix.1 ≠ -1 then
    match arg_at args (ix.1.toNat + 1) with
    | none => (p.emit (Event.report Report.expected_file_after_in), args)
    | some path =>
      let r := sys_open_rdonly w p path
      if r.2 < 0 then (r.1.emit (Event.report Report.perror_open_input), args)
      else
        redirect_output w (sys_close (sys_dup2 r.1 r.2.toNat STDIN_FILENO) r.2.toNat)
          (args.set ix.1.toNat none) ix.2
  else redirect_output w p args ix.2

/-! ## Process supervision -/

/-- How a child process created for a stage ends up. -/
inductive Child where
  /-- The call `execvp(file, argv)` replaced the image; `p` is the process
  state the program starts with. -/
  | running (file : String) (argv : List String) (p : Proc)
  /-- The child called `exit(status)`. -/
  | exited (status : Nat) (p : Proc)
  /-- The child dereferenced a `NULL` pointer. -/
  | crashed (p : Proc)
  deriving DecidableEq, Repr

/-- The call `execvp(args[0], args)` followed by lines 197 and 198
(`perror("execvp"); exit(EXIT_FAILURE);`) for the case that it returns. -/
def sys_execvp (w : World) (p : Proc) (args : Argv) : Child :=
  match arg_at args 0 with
  | none => Child.crashed p
  | some file =>
    if w.can_exec file then
      Child.running file (cvec args) (p.emit (Event.sys_execvp file (cvec args) true))
    else
      Child.exited EXIT_FAILURE
        ((p.emit (Event.sys_execvp file (cvec args) false)).emit
          (Event.report Report.perror_execvp))

/-- Lines 193 to 198 (and again 221 to 226, 236 to 241): run the builtin or the
program on the vector `handle_redirection` left, and after a builtin that
returned fall through to `perror("execvp"); exit(EXIT_FAILURE);`. -/
def run_command (w : World) (p : Proc) (args : Argv) : Child :=
  match is_builtin args with
  | none => Child.crashed p
  | some b =>
    if b ≠ 0 then
      match exec_builtin w (p.emit (Event.call_exec_builtin (cvec args))) args with
      | Flow.ret _ q => Child.exited EXIT_FAILURE (q.emit (Event.report Report.perror_execvp))
      | Flow.exit status q => Child.exited status q
      | Flow.fault q => Child.crashed q
    else sys_execvp w p args

/-- The statement sequence every child of `exec_with_redirection_and_pipe`
ends with (lines 192 to 198, 220 to 226 and 235 to 241): strip and apply the
redirections, then run the command on what is left of the vector. -/
def run_stage (w : World) (p : Proc) (args : Argv) : Child :=
  run_command w (handle_redirection w p args).1 (handle_redirection w p args).2

/-- The process a successful `fork` creates: a copy of the parent, with a
trace of its own. -/
def fork_child (p : Proc) : Proc := { p with trace := [] }

/-- The vector of the left stage, line 219: `args[pipe_idx] = NULL`. -/
def left_cmd (args : Argv) (pipe_idx : Nat) : Argv := args.set pipe_idx none

/-- The vector of the right stage, line 234: `&args[pipe_idx + 1]`. -/
def right_cmd (args : Argv) (pipe_idx : Nat) : Argv := args.drop (pipe_idx + 1)

/-- The pipe wiring of the left child, lines 216 to 218. -/
def left_wiring (p : Proc) (fd0 fd1 : Nat) : Proc :=
  sys_close (sys_dup2 (sys_close (fork_child p) fd0) fd1 STDOUT_FILENO) fd1

/-- The pipe wiring of the right child, lines 231 to 233. -/
def right_wiring (p : Proc) (fd0 fd1 : Nat) : Proc :=
  sys_close (sys_dup2 (sys_close (fork_child p) fd1) fd0 STDIN_FILENO) fd0

/-- The left child of a pipeline, lines 216 to 226. -/
def left_child (w : World) (p : Proc) (fd0 fd1 : Nat) (args : Argv) (pipe_idx : Nat) : Child :=
  run_stage w (left_wiring p fd0 fd1) (left_cmd args pipe_idx)

/-- The right child of a pipeline, lines 231 to 241. -/
def right_child (w : World) (p : Proc) (fd0 fd1 : Nat) (args : Argv) (pipe_idx : Nat) : Child :=
  run_stage w (right_wiring p fd0 fd1) (right_cmd args pipe_idx)

/-- The identifier `fork` returns in the parent for the k-th child of an
invocation, `-1` when the call fails. -/
def fork_result (w : World) (k : Nat) : Int := if w.fork_ok k then (k : Int) + 1 else -1

/-- The call `pipe(fd)` when it succeeds: the two lowest closed descriptors
become the read end and the write end. -/
def sys_pipe (p : Proc) : Proc × Nat × Nat :=
  let fd0 := fd_lowest_free p.fds
  let t := fd_set p.fds fd0 (some FileRef.pipe_read)
  let fd1 := fd_lowest_free t
  (({ p with fds := fd_set t fd1 (some FileRef.pipe_write) } : Proc).emit
    (Event.sys_pipe (some (fd0, fd1))), fd0, fd1)

/-- The function `exec_with_redirection_and_pipe`: the parent when the call
returns, and the children it created with their process identifiers. -/
def exec_with_redirection_and_pipe (w : World) (p : Proc) (args : Argv) :
    Proc × List (Int × Child) :=
  let pipe_idx := find_pipe args
  if pipe_idx = -1 then
    let pid := fork_result w 0
    if pid < 0 then
      ((p.emit (Event.sys_fork pid)).emit (Event.report Report.perror_fork), [])
    else
      (((p.emit (Event.sys_fork pid)).emit (Event.sys_waitpid pid)),
       [(pid, run_stage w (fork_child p) args)])
  else
    if w.pipe_ok = false then
      ((p.emit (Event.sys_pipe none)).emit (Event.report Report.perror_pipe), [])
    else
      let r := sys_pipe p
      let fd0 := r.2.1
      let fd1 := r.2.2
      let pid1 := fork_result w 0
      let kids1 : List (Int × Child) :=
        if pid1 < 0 then [] else [(pid1, left_child w r.1 fd0 fd1 args pipe_idx.toNat)]
      let pid2 := fork_result w 1
      let kids2 : List (Int × Child) :=
        if pid2 < 0 then [] else [(pid2, right_child w r.1 fd0 fd1 args pipe_idx.toNat)]
      let q := (r.1.emit (Event.sys_fork pid1)).emit (Event.sys_fork pid2)
      let q := sys_close (sys_close q fd0) fd1
      (((q.emit (Event.sys_waitpid pid1)).emit (Event.sys_waitpid pid2)), kids1 ++ kids2)

/-- One pass through the body of the loop of `main`. -/
inductive Step where
  /-- The loop goes on to the next prompt. -/
  | next (p : Proc) (children : List (Int × Child))
  /-- The loop is left and `main` returns 0. -/
  | leave (p : Proc)
  deriving DecidableEq, Repr

/-- The body of the loop of `main` on what `read_line` returned, `none` when
the input has ended. -/
def main_iteration (w : World) (p : Proc) (input : Option String) : Step :=
  match input with
  | none => Step.leave p
  | some raw =>
    let line := String.mk (raw.data.takeWhile (fun c => c != Char.ofNat 10))
    if line.length = 0 then Step.next p []
    else
      let args := (parse_line line).2
      match arg_at args 0 with
      | none => Step.next p []
      | some a0 =>
        if a0 = "exit" then Step.leave p
        else
          let r := exec_with_redirection_and_pipe w p args
          Step.next r.1 r.2

/-- The sequence open, `dup2` onto a standard descriptor, close of lines 159 to
165 and 174 to 180, for an `open` that succeeded with the lowest free
descriptor. -/
def open_dup_close (p : Proc) (ref : FileRef) (path : String) (target : Nat) : Proc :=
  sys_close
    (sys_dup2
      (({ p with fds := fd_set p.fds (fd_lowest_free p.fds) (some ref) } : Proc).emit
        (Event.sys_open path (fd_lowest_free p.fds)))
      (fd_lowest_free p.fds) target)
    (fd_lowest_free p.fds)

/-- The process state a child ends up with (for a started program: the state
it starts with). -/
def Child.proc : Child → Proc
  | Child.running _ _ p => p
  | Child.exited _ p => p
  | Child.crashed p => p

/-- An event that runs a command: a call of `exec_builtin` or of `execvp`. -/
def Event.is_command : Event → Bool
  | Event.call_exec_builtin _ => true
  | Event.sys_execvp _ _ _ => true
  | _ => false

/-- A descriptor operation on a descriptor that is open (every other event
counts as well-formed). -/
def Event.valid : Event → Bool
  | Event.sys_dup2 _ _ src => src.isSome
  | Event.sys_close _ was => was.isSome
  | _ => true

/-- An event that closes an end of the pipe of the current line. -/
def Event.closes_pipe : Event → Bool
  | Event.sys_close _ (some FileRef.pipe_read) => true
  | Event.sys_close _ (some FileRef.pipe_write) => true
  | _ => false

/-- An event that neither operates on a closed descriptor nor closes an end
of the pipe. -/
def Event.quiet (e : Event) : Bool := e.valid && !e.closes_pipe

/-- Whether a stage that began in state `q` and ended as `c` ran a command:
an `exec_builtin` or `execvp` call is among the events it added. -/
def ran_command (q : Proc) (c : Child) : Bool :=
  (c.proc.trace.drop q.trace.length).any Event.is_command

/-- No descriptor of the table refers to an end of the pipe of the current
line (true of the interpreter before it creates that pipe). -/
def no_pipe (t : FdTable) : Prop :=
  ∀ fd, fd_get t fd ≠ some FileRef.pipe_read ∧ fd_get t fd ≠ some FileRef.pipe_write

/-- The vector the specification asks for when one operator at index `i` and
its filename are removed and every other token is kept. -/
def spec_remove_two (tokens : List String) (i : Nat) : List String :=
  tokens.take i ++ tokens.drop (i + 2)

/-- A world in which every file opens except `missing` (for reading) and
`readonly` (for writing), every directory can be entered except `/nope`, and
every program starts except `nonexistent-program`. -/
def demo_world : World where
  can_read := fun path => path != "missing"
  can_write := fun path => path != "readonly"
  chdir := fun _ path => if path = "/nope" then none else some path
  can_exec := fun file => file != "nonexistent-program"
  pipe_ok := true
  fork_ok := fun _ => true

/-- The three standard descriptors of an interpreter started from a terminal. -/
def demo_fds : FdTable :=
  [some (FileRef.inherited 0), some (FileRef.inherited 1), some (FileRef.inherited 2)]

/-- An interpreter process in `/home` with the standard descriptors. -/
def demo_proc : Proc := Proc.mk demo_fds "/home" []

/-- The vector `main` hands on: the line cut at its first newline (line 263)
and tokenized by `parse_line` (line 271). -/
def main_args (raw : String) : Argv :=
  (parse_line (String.mk (raw.data.takeWhile (fun c => c != Char.ofNat 10)))).2

/-- The status `main` returns once the loop is left (`return 0;`, line 289);
`none` while the loop goes on. -/
def main_return : Step → Option Nat
  | Step.leave _ => some 0
  | Step.next _ _ => none

/-- The process state a call leaves behind. -/
def Flow.proc : Flow → Proc
  | Flow.ret _ p => p
  | Flow.exit _ p => p
  | Flow.fault p => p

/-- The identifiers of the children a call created. -/
def child_pids (children : List (Int × Child)) : List Int := children.map Prod.fst

/-- The children still unreaped after a sequence of events of the parent,
starting from the live children `live`. A successful `fork` adds the child;
`waitpid(pid, NULL, 0)` blocks until child `pid` ends and collects it, and for
`pid = -1` it collects whichever live child ends first (`first`); with no
such child it fails and changes nothing. -/
def unreaped (first : List Int → Int) : List Event → List Int → List Int
  | [], live => live
  | Event.sys_fork pid :: es, live =>
    unreaped first es (if 0 < pid then live ++ [pid] else live)
  | Event.sys_waitpid pid :: es, live =>
    unreaped first es (if pid = -1 then live.erase (first live) else live.erase pid)
  | _ :: es, live => unreaped first es live

/-- The events a call added to the trace of the process `p` it started in. -/
def new_events (p q : Proc) : List Event := q.trace.drop p.trace.length

/-- The demonstration world in which the k-th `fork` of an invocation fails. -/
def fork_fails_world (k : Nat) : World where
  can_read := demo_world.can_read
  can_write := demo_world.can_write
  chdir := demo_world.chdir
  can_exec := demo_world.can_exec
  pipe_ok := true
  fork_ok := fun n => n != k

/-- A world with the directories `/`, `/a` and `/a/b`, in which the path `..`
leads to the parent directory and every other path is taken as absolute. -/
def tree_world : World where
  can_read := fun _ => true
  can_write := fun _ => true
  chdir := fun cwd path =>
    if path = ".." then
      (if cwd = "/a/b" then some "/a" else some "/")
    else if path = "/" ∨ path = "/a" ∨ path = "/a/b" then some path
    else none
  can_exec := fun _ => true
  pipe_ok := true
  fork_ok := fun _ => true

/-- An interpreter process whose standard output is closed. -/
def closed_stdout_proc : Proc :=
  Proc.mk [some (FileRef.inherited 0), none, some (FileRef.inherited 2)] "/home" []

/-- An interpreter process whose standard input is closed. -/
def closed_stdin_proc : Proc :=
  Proc.mk [none, some (FileRef.inherited 1), some (FileRef.inherited 2)] "/home" []

/-- A child that ran `exec_builtin` on a vector starting with `cd` and then
fell through to `perror("execvp"); exit(EXIT_FAILURE);`. -/
def cd_fell_through (c : Child) : Prop :=
  ∃ (q : Proc) (tokens : List String),
    c = Child.exited EXIT_FAILURE q ∧
    tokens.head? = some "cd" ∧
    Event.call_exec_builtin tokens ∈ q.trace ∧
    q.trace.getLast? = some (Event.report Report.perror_execvp)

end Minishell

/-!
The line editor, `src/editordetexto.c`: the text buffer, the undo history and
the menu cases that modify the buffer.
-/

namespace Editor

/-- The constant `MAX_LINES` of the source. -/
def MAX_LINES : Nat := 1000

/-- The constant `MAX_LINE_LENGTH` of the source. -/
def MAX_LINE_LENGTH : Nat := 256

/-- The constant `UNDO_REDO_DEPTH` of the source. -/
def UNDO_REDO_DEPTH : Nat := 100

/-- The structure `TextBuffer`: `lines i` is the string behind `lines[i]`, and
`allocated` tells whether the pointers `lines[i]` point to storage; they do
after `init_text_buffer`, a bare declaration leaves them indeterminate. -/
structure TextBuffer where
  lines : Nat → String
  line_count : Nat
  allocated : Bool

/-- The structure `UndoRedoStack`. -/
structure UndoRedoStack where
  states : Nat → TextBuffer
  top : Int
  max_state : Int

/-- The assignment of a string to `lines[i]` (`strcpy`, `strncpy` of a line
shorter than `MAX_LINE_LENGTH`, or `lines[i][0] = 0` for the empty string). -/
def set_line (lines : Nat → String) (i : Nat) (s : String) : Nat → String :=
  fun j => if j = i then s else lines j

/-- The assignment of a buffer to `states[i]`. -/
def set_state (states : Nat → TextBuffer) (i : Nat) (b : TextBuffer) : Nat → TextBuffer :=
  fun j => if j = i then b else states j

/-- The function `init_text_buffer`, every `malloc` succeeding. -/
def init_text_buffer : TextBuffer :=
  TextBuffer.mk (fun _ => "") 0 true

/-- The function `copy_text_buffer`: the first loop copies the lines below
`src->line_count`, the second empties the lines from there up to `MAX_LINES`.
Both write through the pointers of `dest`, and the first reads through those
of `src`; `none` is a write or read through a pointer without storage. -/
def copy_text_buffer (dest src : TextBuffer) : Option TextBuffer :=
  if dest.allocated = false then none
  else if src.allocated = false ∧ 0 < src.line_count then none
  else
    some (TextBuffer.mk
      (fun i =>
        if i < src.line_count then src.lines i
        else if i < MAX_LINES then ""
        else dest.lines i)
      src.line_count true)

/-- The function `init_undo_redo`: it sets the two indices and leaves the
saved states as they were declared. -/
def init_undo_redo (stack : UndoRedoStack) : UndoRedoStack :=
  UndoRedoStack.mk stack.states (-1) (-1)

/-- The loop of lines 56 to 58, `n` iterations from index `i` on:
`copy_text_buffer(&states[i], &states[i+1])`. -/
def shift_states (states : Nat → TextBuffer) : Nat → Nat → Option (Nat → TextBuffer)
  | 0, _ => some states
  | n + 1, i =>
    match copy_text_buffer (states i) (states (i + 1)) with
    | none => none
    | some b => shift_states (set_state states i b) n (i + 1)

/-- The function `save_state`. -/
def save_state (stack : UndoRedoStack) (txt : TextBuffer) : Option UndoRedoStack :=
  if stack.top < (UNDO_REDO_DEPTH : Int) - 1 then
    match copy_text_buffer (stack.states (stack.top + 1).toNat) txt with
    | none => none
    | some b =>
      some (UndoRedoStack.mk (set_state stack.states (stack.top + 1).toNat b)
        (stack.top + 1) (stack.top + 1))
  else
    match shift_states stack.states (UNDO_REDO_DEPTH - 1) 0 with
    | none => none
    | some states =>
      match copy_text_buffer (states (UNDO_REDO_DEPTH - 1)) txt with
      | none => none
      | some b =>
        some (UndoRedoStack.mk (set_state states (UNDO_REDO_DEPTH - 1) b)
          stack.top stack.max_state)

/-- The function `undo`: the returned value, the stack and the buffer. -/
def undo (stack : UndoRedoStack) (txt : TextBuffer) :
    Option (Int × UndoRedoStack × TextBuffer) :=
  if stack.top > 0 then
    match copy_text_buffer txt (stack.states (stack.top - 1).toNat) with
    | none => none
    | some b => some (1, UndoRedoStack.mk stack.states (stack.top - 1) stack.max_state, b)
  else some (0, stack, txt)

/-- The loop of lines 137 to 139, `n` iterations downwards from index `i`:
`strcpy(lines[i], lines[i - 1])`. -/
def shift_lines_down (lines : Nat → String) : Nat → Nat → Nat → String
  | 0, _ => lines
  | n + 1, i => shift_lines_down (set_line lines i (lines (i - 1))) n (i - 1)

/-- The loop of lines 159 to 161, `n` iterations upwards from index `i`:
`strcpy(lines[i], lines[i + 1])`. -/
def shift_lines_up (lines : Nat → String) : Nat → Nat → Nat → String
  | 0, _ => lines
  | n + 1, i => shift_lines_up (set_line lines i (lines (i + 1))) n (i + 1)

/-- The function `insert_line`, for a line shorter than `MAX_LINE_LENGTH`. -/
def insert_line (txt : TextBuffer) (index : Int) (line : String) : TextBuffer :=
  if txt.line_count ≥ MAX_LINES then txt
  else if index < 1 ∨ index > (txt.line_count : Int) + 1 then txt
  else
    TextBuffer.mk
      (set_line
        (shift_lines_down txt.lines (txt.line_count + 1 - index.toNat) txt.line_count)
        (index.toNat - 1) line)
      (txt.line_count + 1) txt.allocated

/-- The function `edit_line`, for a line shorter than `MAX_LINE_LENGTH`. -/
def edit_line (txt : TextBuffer) (index : Int) (line : String) : TextBuffer :=
  if index < 1 ∨ index > (txt.line_count : Int) then txt
  else TextBuffer.mk (set_line txt.lines (index.toNat - 1) line) txt.line_count txt.allocated

/-- The function `remove_line`. -/
def remove_line (txt : TextBuffer) (index : Int) : TextBuffer :=
  if index < 1 ∨ index > (txt.line_count : Int) then txt
  else
    TextBuffer.mk
      (set_line
        (shift_lines_up txt.lines (txt.line_count - index.toNat) (index.toNat - 1))
        (txt.line_count - 1) "")
      (txt.line_count - 1) txt.allocated

/-- The visible text of a buffer: its `line_count` lines, in order. -/
def content (txt : TextBuffer) : List String :=
  (List.range txt.line_count).map txt.lines

/-- The state of the editor: the history and the buffer. -/
abbrev EditorState := UndoRedoStack × TextBuffer

/-- The start of `main`, lines 257 to 261, from the stack as declared. -/
def main_start (declared : UndoRedoStack) : Option EditorState :=
  match save_state (init_undo_redo declared) init_text_buffer with
  | none => none
  | some stack => some (stack, init_text_buffer)

/-- The case 2 of `menu`: `save_state`, then `insert_line`. -/
def menu_insert (e : EditorState) (idx : Int) (line : String) : Option EditorState :=
  match save_state e.1 e.2 with
  | none => none
  | some stack => some (stack, insert_line e.2 idx line)

/-- The case 3 of `menu`: `save_state`, then `edit_line`. -/
def menu_edit (e : EditorState) (idx : Int) (line : String) : Option EditorState :=
  match save_state e.1 e.2 with
  | none => none
  | some stack => some (stack, edit_line e.2 idx line)

/-- The case 4 of `menu`: `save_state`, then `remove_line`. -/
def menu_remove (e : EditorState) (idx : Int) : Option EditorState :=
  match save_state e.1 e.2 with
  | none => none
  | some stack => some (stack, remove_line e.2 idx)

/-- The case 5 of `menu`: `undo`. -/
def menu_undo (e : EditorState) : Option (Int × EditorState) :=
  match undo e.1 e.2 with
  | none => none
  | some r => some (r.1, (r.2.1, r.2.2))

/-- The stack as `main` declares it: nothing of it is initialised, so no
pointer of a saved state has storage. -/
def declared_stack : UndoRedoStack :=
  UndoRedoStack.mk (fun _ => TextBuffer.mk (fun _ => "") 0 false) 0 0

/-- A stack whose saved states all have storage for their lines, as if each
`states[i]` had been passed to `init_text_buffer`. -/
def prepared_stack : UndoRedoStack :=
  UndoRedoStack.mk (fun _ => init_text_buffer) 0 0

/-- The editor after `main` has started on the prepared stack and the user
has inserted `a` as line 1 and `b` as line 2. -/
def two_inserts : Option EditorState :=
  (main_start prepared_stack).bind fun e0 =>
    (menu_insert e0 1 "a").bind fun e1 => menu_insert e1 2 "b"

end Editor

/-!
The chess move validator, `src/xadrez.c`. Every function returns, next to its
value, the board accesses and calls it made, in order.
-/

namespace Chess

/-- The constant `BOARD_SIZE` of the source. -/
def BOARD_SIZE : Int := 8

/-- The enumeration `PieceType`. -/
inductive PieceType
  | EMPTY | PAWN | ROOK | KNIGHT | BISHOP | QUEEN | KING
  deriving DecidableEq, Repr

/-- The enumeration `PieceColor`. -/
inductive PieceColor
  | NONE | WHITE | BLACK
  deriving DecidableEq, Repr

/-- The structure `Piece`. -/
structure Piece where
  type : PieceType
  color : PieceColor
  deriving DecidableEq, Repr

/-- The structure `ChessGame`; `board r c` is what `board[r][c]` holds, and a
read with an index outside `0..7` is not a read of the board at all, which is
why every read is recorded. -/
structure ChessGame where
  board : Int → Int → Piece
  turn : PieceColor

/-- What a validator does with the board, in program order. -/
inductive Access
  /-- A read of `board[r][c]`. -/
  | read (r c : Int)
  /-- An entry into `path_clear(game, r1, c1, r2, c2)`. -/
  | enter_path_clear (r1 c1 r2 c2 : Int)
  /-- The dispatch of the `switch` of `valid_move` to the rule of a piece. -/
  | piece_rule (t : PieceType)
  deriving DecidableEq, Repr

/-- The function `in_bounds`. -/
def in_bounds (r c : Int) : Bool :=
  decide (r ≥ 0) && decide (r < BOARD_SIZE) && decide (c ≥ 0) && decide (c < BOARD_SIZE)

/-- The library function `abs` on `int`. -/
def abs (x : Int) : Int := if x < 0 then -x else x

/-- The loop of `path_clear` from the square `(r, c)` on; the first argument
bounds the number of iterations, and `none` means the bound was reached with
the loop condition still true. -/
def path_clear_loop (game : ChessGame) (r2 c2 dr dc : Int) :
    Nat → Int → Int → Option (Int × List Access)
  | 0, r, c => if r ≠ r2 ∨ c ≠ c2 then none else some (1, [])
  | fuel + 1, r, c =>
    if r ≠ r2 ∨ c ≠ c2 then
      if (game.board r c).type ≠ PieceType.EMPTY then some (0, [Access.read r c])
      else
        match path_clear_loop game r2 c2 dr dc fuel (r + dr) (c + dc) with
        | none => none
        | some (v, log) => some (v, Access.read r c :: log)
    else some (1, [])

/-- The function `path_clear`. -/
def path_clear (fuel : Nat) (game : ChessGame) (r1 c1 r2 c2 : Int) :
    Option (Int × List Access) :=
  let dr : Int := if r2 > r1 then 1 else if r2 < r1 then -1 else 0
  let dc : Int := if c2 > c1 then 1 else if c2 < c1 then -1 else 0
  match path_clear_loop game r2 c2 dr dc fuel (r1 + dr) (c1 + dc) with
  | none => none
  | some (v, log) => some (v, Access.enter_path_clear r1 c1 r2 c2 :: log)

/-- The first condition of `valid_pawn_move` (line 120), with the reads its
short-circuit evaluation makes. -/
def pawn_single_step (game : ChessGame) (r1 c1 r2 c2 direction : Int) : Bool × List Access :=
  if c1 = c2 ∧ r2 = r1 + direction then
    (decide ((game.board r2 c2).type = PieceType.EMPTY), [Access.read r2 c2])
  else (false, [])

/-- The second condition of `valid_pawn_move` (lines 122 and 123). -/
def pawn_double_step (game : ChessGame) (r1 c1 r2 c2 direction start_row : Int) :
    Bool × List Access :=
  if c1 = c2 ∧ r1 = start_row ∧ r2 = r1 + 2 * direction then
    if (game.board (r1 + direction) c1).type = PieceType.EMPTY then
      (decide ((game.board r2 c2).type = PieceType.EMPTY),
        [Access.read (r1 + direction) c1, Access.read r2 c2])
    else (false, [Access.read (r1 + direction) c1])
  else (false, [])

/-- The third condition of `valid_pawn_move` (lines 125 and 126). -/
def pawn_capture (game : ChessGame) (r1 c1 r2 c2 direction : Int) (p : Piece) :
    Bool × List Access :=
  if abs (c2 - c1) = 1 ∧ r2 = r1 + direction then
    if (game.board r2 c2).type ≠ PieceType.EMPTY then
      (decide ((game.board r2 c2).color ≠ p.color), [Access.read r2 c2, Access.read r2 c2])
    else (false, [Access.read r2 c2])
  else (false, [])

/-- The function `valid_pawn_move`. -/
def valid_pawn_move (game : ChessGame) (r1 c1 r2 c2 : Int) : Int × List Access :=
  let p := game.board r1 c1
  let direction : Int := if p.color = PieceColor.WHITE then -1 else 1
  let start_row : Int := if p.color = PieceColor.WHITE then 6 else 1
  let s1 := pawn_single_step game r1 c1 r2 c2 direction
  if s1.1 then (1, Access.read r1 c1 :: s1.2)
  else
    let s2 := pawn_double_step game r1 c1 r2 c2 direction start_row
    if s2.1 then (1, Access.read r1 c1 :: (s1.2 ++ s2.2))
    else
      let s3 := pawn_capture game r1 c1 r2 c2 direction p
      if s3.1 then (1, Access.read r1 c1 :: (s1.2 ++ s2.2 ++ s3.2))
      else (0, Access.read r1 c1 :: (s1.2 ++ s2.2 ++ s3.2))

/-- The function `valid_knight_move`. -/
def valid_knight_move (r1 c1 r2 c2 : Int) : Int :=
  if (abs (r2 - r1) = 2 ∧ abs (c2 - c1) = 1) ∨ (abs (r2 - r1) = 1 ∧ abs (c2 - c1) = 2)
  then 1 else 0

/-- The function `valid_rook_move`. -/
def valid_rook_move (fuel : Nat) (game : ChessGame) (r1 c1 r2 c2 : Int) :
    Option (Int × List Access) :=
  if r1 ≠ r2 ∧ c1 ≠ c2 then some (0, [])
  else path_clear fuel game r1 c1 r2 c2

/-- The function `valid_bishop_move`. -/
def valid_bishop_move (fuel : Nat) (game : ChessGame) (r1 c1 r2 c2 : Int) :
    Option (Int × List Access) :=
  if abs (r2 - r1) ≠ abs (c2 - c1) then some (0, [])
  else path_clear fuel game r1 c1 r2 c2

/-- The function `valid_queen_move`. -/
def valid_queen_move (fuel : Nat) (game : ChessGame) (r1 c1 r2 c2 : Int) :
    Option (Int × List Access) :=
  if r1 = r2 ∨ c1 = c2 then valid_rook_move fuel game r1 c1 r2 c2
  else if abs (r2 - r1) = abs (c2 - c1) then valid_bishop_move fuel game r1 c1 r2 c2
  else some (0, [])

/-- The function `valid_king_move`. -/
def valid_king_move (r1 c1 r2 c2 : Int) : Int :=
  if abs (r2 - r1) ≤ 1 ∧ abs (c2 - c1) ≤ 1 then 1 else 0

/-- Put the accesses made before a call in front of those of the call. -/
def after (before : List Access) (r : Option (Int × List Access)) :
    Option (Int × List Access) :=
  match r with
  | none => none
  | some (v, log) => some (v, before ++ log)

/-- The function `valid_move`; `fuel` bounds the iterations of the loop of
`path_clear`, and `none` means that bound was reached. -/
def valid_move (fuel : Nat) (game : ChessGame) (r1 c1 r2 c2 : Int) :
    Option (Int × List Access) :=
  if in_bounds r1 c1 = false ∨ in_bounds r2 c2 = false then some (0, [])
  else
    let src := game.board r1 c1
    let dst := game.board r2 c2
    let reads := [Access.read r1 c1, Access.read r2 c2]
    if src.type = PieceType.EMPTY ∨ src.color ≠ game.turn then some (0, reads)
    else if dst.color = src.color then some (0, reads)
    else
      match src.type with
      | PieceType.PAWN =>
        some ((valid_pawn_move game r1 c1 r2 c2).1,
          reads ++ Access.piece_rule PieceType.PAWN :: (valid_pawn_move game r1 c1 r2 c2).2)
      | PieceType.KNIGHT =>
        some (valid_knight_move r1 c1 r2 c2, reads ++ [Access.piece_rule PieceType.KNIGHT])
      | PieceType.BISHOP =>
        after (reads ++ [Access.piece_rule PieceType.BISHOP])
          (valid_bishop_move fuel game r1 c1 r2 c2)
      | PieceType.ROOK =>
        after (reads ++ [Access.piece_rule PieceType.ROOK])
          (valid_rook_move fuel game r1 c1 r2 c2)
      | PieceType.QUEEN =>
        after (reads ++ [Access.piece_rule PieceType.QUEEN])
          (valid_queen_move fuel game r1 c1 r2 c2)
      | PieceType.KING =>
        some (valid_king_move r1 c1 r2 c2, reads ++ [Access.piece_rule PieceType.KING])
      | PieceType.EMPTY => some (0, reads)

/-- Whether a recorded access stays on the board: a read reads a square of the
board, and `path_clear` is entered between two different squares of the board
that lie on one rank, one file or one diagonal. -/
def Access.safe : Access → Prop
  | Access.read r c => in_bounds r c = true
  | Access.enter_path_clear r1 c1 r2 c2 =>
    in_bounds r1 c1 = true ∧ in_bounds r2 c2 = true ∧ (r1 ≠ r2 ∨ c1 ≠ c2) ∧
    (r1 = r2 ∨ c1 = c2 ∨ abs (r2 - r1) = abs (c2 - c1))
  | Access.piece_rule _ => True

/-- A validator, as a function of the iteration bound, returns: with a bound
of 8 or more it gives one and the same value, 0 or 1, and its accesses all
stay on the board. -/
def returns_safely (f : Nat → Option (Int × List Access)) : Prop :=
  ∃ (v : Int) (log : List Access),
    (∀ fuel : Nat, 8 ≤ fuel → f fuel = some (v, log)) ∧
    (v = 0 ∨ v = 1) ∧
    ∀ a ∈ log, Access.safe a

/-- The board `init_board` sets up. -/
def init_board : ChessGame :=
  ChessGame.mk
    (fun r c =>
      if r = 0 then
        (if c = 0 ∨ c = 7 then Piece.mk PieceType.ROOK PieceColor.BLACK
         else if c = 1 ∨ c = 6 then Piece.mk PieceType.KNIGHT PieceColor.BLACK
         else if c = 2 ∨ c = 5 then Piece.mk PieceType.BISHOP PieceColor.BLACK
         else if c = 3 then Piece.mk PieceType.QUEEN PieceColor.BLACK
         else Piece.mk PieceType.KING PieceColor.BLACK)
      else if r = 1 then Piece.mk PieceType.PAWN PieceColor.BLACK
      else if r = 6 then Piece.mk PieceType.PAWN PieceColor.WHITE
      else if r = 7 then
        (if c = 0 ∨ c = 7 then Piece.mk PieceType.ROOK PieceColor.WHITE
         else if c = 1 ∨ c = 6 then Piece.mk PieceType.KNIGHT PieceColor.WHITE
         else if c = 2 ∨ c = 5 then Piece.mk PieceType.BISHOP PieceColor.WHITE
         else if c = 3 then Piece.mk PieceType.QUEEN PieceColor.WHITE
         else Piece.mk PieceType.KING PieceColor.WHITE)
      else Piece.mk PieceType.EMPTY PieceColor.NONE)
    PieceColor.WHITE

end Chess

namespace Minishell

/-! ## Tokenizer: proofs -/

/-- The non-empty pieces between delimiters, on character lists. -/
theorem splitOnP_takeWhile (p : Char → Bool) (l : List Char) :
    l.splitOnP p = l.takeWhile (fun x => !p x) ::
      (match l.dropWhile (fun x => !p x) with
       | [] => []
       | _ :: r => r.splitOnP p) := by
  induction l with
  | nil => simp [List.splitOnP_nil]
  | cons x xs ih =>
    rw [List.splitOnP_cons]
    by_cases hx : p x = true
    · simp [hx, List.takeWhile, List.dropWhile]
    · simp only [Bool.not_eq_true] at hx
      rw [ih]
      simp [hx, List.takeWhile, List.dropWhile, List.modifyHead]

theorem dropWhile_head_false (p : Char → Bool) (l : List Char) (c : Char) (cs : List Char)
    (h : l.dropWhile p = c :: cs) : p c = false := by
  induction l with
  | nil => simp at h
  | cons x xs ih =>
    by_cases hx : p x = true
    · rw [List.dropWhile_cons_of_pos hx] at h
      exact ih h
    · rw [List.dropWhile_cons_of_neg hx] at h
      simp only [List.cons.injEq] at h
      rw [← h.1]
      simpa using hx

/-- The words of a character list, before conversion to strings. -/
theorem spec_words_eq (line : String) :
    spec_words line =
      ((line.data.splitOnP is_delim).filter (fun w => !w.isEmpty)).map String.mk := rfl

theorem words_dropWhile (l : List Char) :
    (l.splitOnP is_delim).filter (fun w => !w.isEmpty) =
      ((l.dropWhile is_delim).splitOnP is_delim).filter (fun w => !w.isEmpty) := by
  induction l with
  | nil => rfl
  | cons x xs ih =>
    by_cases hx : is_delim x = true
    · rw [List.dropWhile_cons_of_pos hx, List.splitOnP_cons]
      simp [hx, ih]
    · rw [List.dropWhile_cons_of_neg hx]

theorem words_cons_of_not_delim (c : Char) (cs : List Char) (hc : is_delim c = false) :
    ((c :: cs).splitOnP is_delim).filter (fun w => !w.isEmpty) =
      (c :: cs).takeWhile (fun x => !is_delim x) ::
        ((((c :: cs).dropWhile (fun x => !is_delim x)).drop 1).splitOnP is_delim).filter
          (fun w => !w.isEmpty) := by
  rw [splitOnP_takeWhile]
  have htw : (c :: cs).takeWhile (fun x => !is_delim x)
      = c :: cs.takeWhile (fun x => !is_delim x) := by
    simp [List.takeWhile, hc]
  rw [htw]
  rw [List.filter_cons_of_pos (by simp)]
  congr 1
  cases hdw : (c :: cs).dropWhile (fun x => !is_delim x) with
  | nil => simp [List.splitOnP_nil]
  | cons d r => simp

theorem parse_line_loop_eq (n : Nat) (l : List Char) :
    parse_line_loop n (strtok l).1 (strtok l).2 =
      (((l.splitOnP is_delim).filter (fun w => !w.isEmpty)).take n).map String.mk := by
  induction n generalizing l with
  | zero => simp [parse_line_loop]
  | succ n ih =>
    rw [words_dropWhile l]
    cases hdw : l.dropWhile is_delim with
    | nil => simp [strtok, hdw, parse_line_loop, List.splitOnP_nil]
    | cons c cs =>
      have hc : is_delim c = false := dropWhile_head_false is_delim l c cs hdw
      rw [words_cons_of_not_delim c cs hc]
      have hs : strtok l = (some ((c :: cs).takeWhile (fun x => !is_delim x)),
          ((c :: cs).dropWhile (fun x => !is_delim x)).drop 1) := by
        simp only [strtok, hdw]
      rw [hs]
      simp only [parse_line_loop, List.take_succ_cons, List.map_cons]
      rw [ih]

theorem parse_line_tokens_eq (line : String) :
    parse_line_tokens line = (spec_words line).take 63 := by
  unfold parse_line_tokens
  rw [parse_line_loop_eq, spec_words_eq, List.map_take]
  rfl

theorem cvec_argv_of (tokens : List String) : cvec (argv_of tokens) = tokens := by
  induction tokens with
  | nil => rfl
  | cons t ts ih =>
    have h : cvec (some t :: argv_of ts) = t :: cvec (argv_of ts) := rfl
    have h2 : argv_of (t :: ts) = some t :: argv_of ts := rfl
    rw [h2, h, ih]

theorem arg_at_argv_of_length (tokens : List String) :
    arg_at (argv_of tokens) tokens.length = none := by
  simp [arg_at, argv_of, List.getElem?_append_right]

theorem splitOnP_mem_not (p : Char → Bool) (n : Nat) :
    ∀ l : List Char, l.length ≤ n → ∀ w ∈ l.splitOnP p, ∀ c ∈ w, p c = false := by
  induction n with
  | zero =>
    intro l hl w hw c hc
    have : l = [] := List.length_eq_zero.mp (Nat.le_zero.mp hl)
    subst this
    simp [List.splitOnP_nil] at hw
    subst hw
    simp at hc
  | succ n ih =>
    intro l hl w hw c hc
    rw [splitOnP_takeWhile] at hw
    rcases List.mem_cons.mp hw with h | h
    · subst h
      have := List.mem_takeWhile_imp hc
      simpa using this
    · cases hdw : l.dropWhile (fun x => !p x) with
      | nil => rw [hdw] at h; simp at h
      | cons d r =>
        rw [hdw] at h
        simp only at h
        have hlen : (l.dropWhile (fun x => !p x)).length ≤ l.length :=
          (List.dropWhile_sublist _).length_le
        rw [hdw] at hlen
        simp only [List.length_cons] at hlen
        exact ih r (by omega) w h c hc

theorem spec_words_mem (line : String) (t : String) (ht : t ∈ spec_words line) :
    t.data ≠ [] ∧ ∀ c ∈ t.data, c ∉ DELIM := by
  rw [spec_words_eq] at ht
  simp only [List.mem_map, List.mem_filter] at ht
  obtain ⟨l, ⟨hl, hne⟩, rfl⟩ := ht
  refine ⟨by simpa using hne, ?_⟩
  intro c hc hd
  have := splitOnP_mem_not is_delim line.data.length line.data (Nat.le_refl _) l hl c hc
  simp [is_delim] at this
  exact this hd

/-- C5: `parse_line` returns `n` and fills `args[0..n-1]` with exactly the first
`min k 63` of the `k` maximal runs of non-delimiter characters of the line, in
order, with the end marker at `args[n]`; every token is non-empty and free of
delimiters, `n ≤ 63`, and a longer line is truncated to its first 63 words. -/
theorem C5_parse_line_first_63_words (line : String) :
    (parse_line line).2 = argv_of ((spec_words line).take 63) ∧
    cvec (parse_line line).2 = (spec_words line).take 63 ∧
    (parse_line line).1 = min (spec_words line).length 63 ∧
    arg_at (parse_line line).2 (parse_line line).1 = none ∧
    (parse_line line).1 ≤ 63 ∧
    (∀ t ∈ cvec (parse_line line).2, t.data ≠ [] ∧ ∀ c ∈ t.data, c ∉ DELIM) := by
  have htok := parse_line_tokens_eq line
  have h2 : (parse_line line).2 = argv_of ((spec_words line).take 63) := by
    simp only [parse_line, htok]
  have h1 : (parse_line line).1 = ((spec_words line).take 63).length := by
    simp only [parse_line, htok]
  refine ⟨h2, ?_, ?_, ?_, ?_, ?_⟩
  · rw [h2, cvec_argv_of]
  · rw [h1, List.length_take, Nat.min_comm]
  · rw [h1, h2]
    exact arg_at_argv_of_length _
  · rw [h1, List.length_take]
    exact Nat.min_le_left _ _
  · intro t ht
    rw [h2, cvec_argv_of] at ht
    exact spec_words_mem line t (List.mem_of_mem_take ht)

/-! ## Argument vectors: proofs -/

theorem arg_at_cons_succ (a : Option String) (rest : Argv) (i : Nat) :
    arg_at (a :: rest) (i + 1) = arg_at rest i := by
  simp [arg_at]

theorem arg_at_cons_zero (a : Option String) (rest : Argv) :
    arg_at (a :: rest) 0 = a := by
  simp [arg_at]

theorem arg_at_nil (i : Nat) : arg_at [] i = none := by
  simp [arg_at]

/-- Reading a slot up to and including the end marker agrees with the logical
vector. -/
theorem arg_at_eq_cvec (args : Argv) (i : Nat) (hi : i ≤ (cvec args).length) :
    arg_at args i = (cvec args)[i]? := by
  induction args generalizing i with
  | nil => simp [arg_at_nil, cvec]
  | cons a rest ih =>
    cases a with
    | none =>
      simp only [cvec, List.length_nil, Nat.le_zero] at hi
      subst hi
      simp [arg_at_cons_zero, cvec]
    | some s =>
      cases i with
      | zero => simp [arg_at_cons_zero, cvec]
      | succ i =>
        simp only [cvec, List.length_cons, Nat.add_le_add_iff_right] at hi
        rw [arg_at_cons_succ, ih i hi]
        simp [cvec]

theorem arg_at_set_none (args : Argv) (i j : Nat) :
    arg_at (args.set i none) j = if j = i then none else arg_at args j := by
  unfold arg_at
  by_cases h : j = i
  · subst h
    by_cases hj : j < args.length
    · simp [List.getElem?_set, hj]
    · simp [List.getElem?_set, hj]
  · have h2 : ¬ i = j := fun e => h e.symm
    simp [h, h2, List.getElem?_set]

theorem cvec_set_none (args : Argv) (i : Nat) :
    cvec (args.set i none) = (cvec args).take i := by
  induction args generalizing i with
  | nil => simp [cvec]
  | cons a rest ih =>
    cases i with
    | zero => cases a <;> simp [cvec]
    | succ i =>
      cases a with
      | none => simp [cvec]
      | some s => simp [cvec, ih]

theorem cvec_drop (args : Argv) (i : Nat) (hi : i ≤ (cvec args).length) :
    cvec (args.drop i) = (cvec args).drop i := by
  induction args generalizing i with
  | nil => simp [cvec]
  | cons a rest ih =>
    cases i with
    | zero => simp
    | succ i =>
      cases a with
      | none => simp [cvec] at hi
      | some s =>
        simp only [cvec, List.length_cons, Nat.add_le_add_iff_right] at hi
        simp [cvec, ih i hi]

/-! ## Descriptor tables: proofs -/

theorem fd_get_set (t : FdTable) (fd : Nat) (v : Option FileRef) (x : Nat) :
    fd_get (fd_set t fd v) x = if x = fd then v else fd_get t x := by
  unfold fd_get fd_set
  by_cases hlt : fd < t.length
  · simp only [hlt, if_true]
    by_cases hx : x = fd
    · subst hx
      simp [List.getElem?_set, hlt]
    · have h2 : ¬ fd = x := fun e => hx e.symm
      simp [List.getElem?_set, hx, h2]
  · simp only [hlt, if_false]
    have hle : t.length ≤ fd := Nat.le_of_not_lt hlt
    by_cases hx : x = fd
    · subst hx
      simp only [if_true]
      rw [List.get?_eq_getElem?, List.getElem?_append_right (by simp; omega)]
      have : x - (t ++ List.replicate (x - t.length) (none : Option FileRef)).length = 0 := by
        simp; omega
      rw [this]
      rfl
    · simp only [hx, if_false]
      rw [List.get?_eq_getElem?, List.get?_eq_getElem?]
      by_cases hxl : x < t.length
      · rw [List.append_assoc, List.getElem?_append_left hxl]
      · have hxl2 : t.length ≤ x := Nat.le_of_not_lt hxl
        rw [List.getElem?_eq_none hxl2]
        by_cases hxf : x < fd
        · rw [List.getElem?_append_left (by simp; omega),
            List.getElem?_append_right hxl2]
          simp [List.getElem?_replicate]
        · rw [List.getElem?_eq_none (by simp; omega)]

theorem fd_get_lowest_free (t : FdTable) : fd_get t (fd_lowest_free t) = none := by
  unfold fd_get fd_lowest_free
  rw [List.get?_eq_getElem?]
  by_cases h : List.findIdx Option.isNone t < t.length
  · rw [List.getElem?_eq_getElem h]
    have := List.findIdx_getElem (w := h)
    cases hv : t[List.findIdx Option.isNone t] with
    | none => rfl
    | some r => rw [hv] at this; simp at this
  · rw [List.getElem?_eq_none (Nat.le_of_not_lt h)]
    rfl

/-! ## Pipe detection and operator scan: proofs -/

theorem cvec_eq_cons (args : Argv) (a : String) (l : List String) (h : cvec args = a :: l) :
    ∃ rest, args = some a :: rest ∧ cvec rest = l := by
  cases args with
  | nil => simp [cvec] at h
  | cons x rest =>
    cases x with
    | none => simp [cvec] at h
    | some s =>
      simp only [cvec, List.cons.injEq] at h
      exact ⟨rest, by rw [h.1], h.2⟩

theorem find_pipe_loop_spec (args : Argv) (i : Nat) :
    (find_pipe_loop args i = -1 ∧ "|" ∉ cvec args) ∨
    (∃ k : Nat, find_pipe_loop args i = ((i + k : Nat) : Int) ∧ (cvec args)[k]? = some "|" ∧
      ∀ j, j < k → (cvec args)[j]? ≠ some "|") := by
  induction args generalizing i with
  | nil => left; simp [find_pipe_loop, cvec]
  | cons a rest ih =>
    cases a with
    | none => left; simp [find_pipe_loop, cvec]
    | some s =>
      by_cases hs : s = "|"
      · right
        refine ⟨0, ?_, ?_, ?_⟩
        · simp [find_pipe_loop, hs]
        · simp [cvec, hs]
        · intro j hj; omega
      · rcases ih (i + 1) with ⟨h1, h2⟩ | ⟨k, h1, h2, h3⟩
        · left
          refine ⟨by simp [find_pipe_loop, hs, h1], ?_⟩
          simp only [cvec, List.mem_cons, not_or]
          exact ⟨fun e => hs e.symm, h2⟩
        · right
          refine ⟨k + 1, ?_, ?_, ?_⟩
          · simp only [find_pipe_loop, hs, if_false, h1]
            congr 1
            omega
          · simpa [cvec] using h2
          · intro j hj
            cases j with
            | zero => simpa [cvec] using hs
            | succ j =>
              have := h3 j (by omega)
              simpa [cvec] using this

theorem scan_redirect_in_none (args : Argv) (i : Nat) (r : Int × Int)
    (h : "<" ∉ cvec args) : (scan_redirect args i r).1 = r.1 := by
  induction args generalizing i r with
  | nil => simp [scan_redirect]
  | cons a rest ih =>
    obtain ⟨x, y⟩ := r
    cases a with
    | none => simp [scan_redirect]
    | some s =>
      simp only [cvec, List.mem_cons, not_or] at h
      have hs : ¬ s = "<" := fun e => h.1 e.symm
      simp only [scan_redirect, hs, if_false]
      split <;> rw [ih _ _ h.2]

theorem scan_redirect_out_none (args : Argv) (i : Nat) (r : Int × Int)
    (h : ">" ∉ cvec args) : (scan_redirect args i r).2 = r.2 := by
  induction args generalizing i r with
  | nil => simp [scan_redirect]
  | cons a rest ih =>
    obtain ⟨x, y⟩ := r
    cases a with
    | none => simp [scan_redirect]
    | some s =>
      simp only [cvec, List.mem_cons, not_or] at h
      have hs : ¬ s = ">" := fun e => h.1 e.symm
      simp only [scan_redirect, hs, if_false]
      split <;> rw [ih _ _ h.2]

/-- The scan leaves in `in_redirect` the index of the last input operator. -/
theorem scan_redirect_in_last (pre post : List String) (args : Argv) (i : Nat) (r : Int × Int)
    (h : cvec args = pre ++ "<" :: post) (hpost : "<" ∉ post) :
    (scan_redirect args i r).1 = ((i + pre.length : Nat) : Int) := by
  induction pre generalizing args i r with
  | nil =>
    obtain ⟨rest, rfl, hrest⟩ := cvec_eq_cons args "<" post h
    obtain ⟨x, y⟩ := r
    simp only [scan_redirect, if_true]
    rw [scan_redirect_in_none rest _ _ (by rw [hrest]; exact hpost)]
    simp
  | cons t pre ih =>
    obtain ⟨rest, rfl, hrest⟩ := cvec_eq_cons args t (pre ++ "<" :: post) h
    obtain ⟨x, y⟩ := r
    have hlen : i + (t :: pre).length = i + 1 + pre.length := by simp; omega
    rw [hlen]
    simp only [scan_redirect]
    split
    · exact ih rest _ _ hrest
    · split <;> exact ih rest _ _ hrest

/-- The scan leaves in `out_redirect` the index of the last output operator. -/
theorem scan_redirect_out_last (pre post : List String) (args : Argv) (i : Nat) (r : Int × Int)
    (h : cvec args = pre ++ ">" :: post) (hpost : ">" ∉ post) :
    (scan_redirect args i r).2 = ((i + pre.length : Nat) : Int) := by
  induction pre generalizing args i r with
  | nil =>
    obtain ⟨rest, rfl, hrest⟩ := cvec_eq_cons args ">" post h
    obtain ⟨x, y⟩ := r
    have hne : ¬ (">" : String) = "<" := by decide
    simp only [scan_redirect, hne, if_false, if_true]
    rw [scan_redirect_out_none rest _ _ (by rw [hrest]; exact hpost)]
    simp
  | cons t pre ih =>
    obtain ⟨rest, rfl, hrest⟩ := cvec_eq_cons args t (pre ++ ">" :: post) h
    obtain ⟨x, y⟩ := r
    have hlen : i + (t :: pre).length = i + 1 + pre.length := by simp; omega
    rw [hlen]
    simp only [scan_redirect]
    split
    · exact ih rest _ _ hrest
    · split <;> exact ih rest _ _ hrest

/-- C6: `find_pipe` returns -1 exactly when no token equals the pipe operator,
and otherwise the smallest index holding it; the left stage is then exactly
tokens `0..i-1` and the right stage, before redirection stripping, exactly the
tokens after index `i` in order, so a second pipe token stays in the right
stage as an ordinary argument. -/
theorem C6_find_pipe_first_operator (args : Argv) :
    (find_pipe args = -1 ↔ "|" ∉ cvec args) ∧
    (∀ i : Nat, find_pipe args = (i : Int) ↔
      ((cvec args)[i]? = some "|" ∧ ∀ j, j < i → (cvec args)[j]? ≠ some "|")) ∧
    (∀ i : Nat, find_pipe args = (i : Int) →
      cvec (left_cmd args i) = (cvec args).take i ∧
      cvec (right_cmd args i) = (cvec args).drop (i + 1) ∧
      ∀ j, i < j → (cvec args)[j]? = some "|" → "|" ∈ cvec (right_cmd args i)) := by
  have hspec := find_pipe_loop_spec args 0
  have hiff : ∀ i : Nat, find_pipe args = (i : Int) ↔
      ((cvec args)[i]? = some "|" ∧ ∀ j, j < i → (cvec args)[j]? ≠ some "|") := by
    intro i
    constructor
    · intro h
      rcases hspec with ⟨h1, _⟩ | ⟨k, h1, h2, h3⟩
      · unfold find_pipe at h
        rw [h1] at h
        omega
      · unfold find_pipe at h
        rw [h1] at h
        have hk : k = i := by omega
        subst hk
        exact ⟨h2, h3⟩
    · rintro ⟨hi, hmin⟩
      rcases hspec with ⟨_, h2⟩ | ⟨k, h1, h2, h3⟩
      · exact absurd (List.getElem?_mem hi) h2
      · have hk : k = i := by
          rcases Nat.lt_trichotomy k i with hlt | heq | hgt
          · exact absurd h2 (hmin k hlt)
          · exact heq
          · exact absurd hi (h3 i hgt)
        subst hk
        unfold find_pipe
        rw [h1]
        simp
  refine ⟨?_, hiff, ?_⟩
  · constructor
    · intro h
      rcases hspec with ⟨_, h2⟩ | ⟨k, h1, _, _⟩
      · exact h2
      · unfold find_pipe at h
        rw [h1] at h
        omega
    · intro h
      rcases hspec with ⟨h1, _⟩ | ⟨k, _, h2, _⟩
      · exact h1
      · exact absurd (List.getElem?_mem h2) h
  · intro i hi
    have hget := ((hiff i).mp hi).1
    have hlt : i < (cvec args).length := by
      by_contra hc
      rw [List.getElem?_eq_none (Nat.le_of_not_lt hc)] at hget
      simp at hget
    have hr : cvec (right_cmd args i) = (cvec args).drop (i + 1) :=
      cvec_drop args (i + 1) hlt
    refine ⟨cvec_set_none args i, hr, ?_⟩
    intro j hj hjp
    rw [hr]
    have hjl : j < (cvec args).length := by
      by_contra hc
      rw [List.getElem?_eq_none (Nat.le_of_not_lt hc)] at hjp
      simp at hjp
    have : ((cvec args).drop (i + 1))[j - (i + 1)]? = some "|" := by
      rw [List.getElem?_drop]
      have : i + 1 + (j - (i + 1)) = j := by omega
      rw [this]
      exact hjp
    exact List.getElem?_mem this

/-! ## System calls: proofs -/

theorem emit_fds (p : Proc) (e : Event) : (p.emit e).fds = p.fds := rfl

theorem emit_cwd (p : Proc) (e : Event) : (p.emit e).cwd = p.cwd := rfl

theorem emit_trace (p : Proc) (e : Event) : (p.emit e).trace = p.trace ++ [e] := rfl

theorem sys_close_fds (p : Proc) (fd x : Nat) :
    fd_get (sys_close p fd).fds x = if x = fd then none else fd_get p.fds x := by
  unfold sys_close
  cases h : fd_get p.fds fd with
  | none =>
    simp only [emit_fds]
    by_cases hx : x = fd
    · subst hx; simp [h]
    · simp [hx]
  | some r => simp only [emit_fds, fd_get_set]

theorem sys_close_cwd (p : Proc) (fd : Nat) : (sys_close p fd).cwd = p.cwd := by
  unfold sys_close
  cases h : fd_get p.fds fd <;> rfl

theorem sys_close_trace (p : Proc) (fd : Nat) :
    (sys_close p fd).trace = p.trace ++ [Event.sys_close fd (fd_get p.fds fd)] := by
  unfold sys_close
  cases h : fd_get p.fds fd <;> rfl

theorem sys_dup2_fds (p : Proc) (oldfd newfd x : Nat) (r : FileRef)
    (h : fd_get p.fds oldfd = some r) :
    fd_get (sys_dup2 p oldfd newfd).fds x = if x = newfd then some r else fd_get p.fds x := by
  unfold sys_dup2
  rw [h]
  simp only [emit_fds, fd_get_set]

theorem sys_dup2_cwd (p : Proc) (oldfd newfd : Nat) : (sys_dup2 p oldfd newfd).cwd = p.cwd := by
  unfold sys_dup2
  cases h : fd_get p.fds oldfd <;> rfl

theorem sys_dup2_trace (p : Proc) (oldfd newfd : Nat) :
    (sys_dup2 p oldfd newfd).trace =
      p.trace ++ [Event.sys_dup2 oldfd newfd (fd_get p.fds oldfd)] := by
  unfold sys_dup2
  cases h : fd_get p.fds oldfd <;> rfl

theorem open_dup_close_cwd (p : Proc) (ref : FileRef) (path : String) (target : Nat) :
    (open_dup_close p ref path target).cwd = p.cwd := by
  unfold open_dup_close
  rw [sys_close_cwd, sys_dup2_cwd]
  rfl

theorem open_dup_close_trace (p : Proc) (ref : FileRef) (path : String) (target : Nat) :
    (open_dup_close p ref path target).trace =
      p.trace ++ [Event.sys_open path (fd_lowest_free p.fds),
        Event.sys_dup2 (fd_lowest_free p.fds) target (some ref),
        Event.sys_close (fd_lowest_free p.fds) (some ref)] := by
  unfold open_dup_close
  have hk : fd_get (({ p with fds := fd_set p.fds (fd_lowest_free p.fds) (some ref) } : Proc).emit
      (Event.sys_open path (fd_lowest_free p.fds))).fds (fd_lowest_free p.fds) = some ref := by
    simp only [emit_fds, fd_get_set, if_true]
  rw [sys_close_trace, sys_dup2_fds _ _ _ _ ref hk, sys_dup2_trace, hk, emit_trace]
  simp

theorem open_dup_close_fds_other (p : Proc) (ref : FileRef) (path : String) (target x : Nat)
    (hx : x ≠ target) :
    fd_get (open_dup_close p ref path target).fds x = fd_get p.fds x := by
  unfold open_dup_close
  have hk : fd_get (({ p with fds := fd_set p.fds (fd_lowest_free p.fds) (some ref) } : Proc).emit
      (Event.sys_open path (fd_lowest_free p.fds))).fds (fd_lowest_free p.fds) = some ref := by
    simp only [emit_fds, fd_get_set, if_true]
  rw [sys_close_fds, sys_dup2_fds _ _ _ _ ref hk]
  simp only [emit_fds, fd_get_set, hx, if_false]
  by_cases hxk : x = fd_lowest_free p.fds
  · simp only [hxk, if_true]
    exact (fd_get_lowest_free p.fds).symm
  · simp only [hxk, if_false]

theorem open_dup_close_fds_target (p : Proc) (ref : FileRef) (path : String) (target : Nat)
    (ht : fd_get p.fds target ≠ none) :
    fd_get (open_dup_close p ref path target).fds target = some ref := by
  unfold open_dup_close
  have hk : fd_get (({ p with fds := fd_set p.fds (fd_lowest_free p.fds) (some ref) } : Proc).emit
      (Event.sys_open path (fd_lowest_free p.fds))).fds (fd_lowest_free p.fds) = some ref := by
    simp only [emit_fds, fd_get_set, if_true]
  have hne : target ≠ fd_lowest_free p.fds := by
    intro e
    rw [e] at ht
    exact ht (fd_get_lowest_free p.fds)
  rw [sys_close_fds, sys_dup2_fds _ _ _ _ ref hk]
  simp [hne]

/-- Every descriptor of `open_dup_close` keeps its binding or is bound to the
opened file or is closed. -/
theorem open_dup_close_fds_weak (p : Proc) (ref : FileRef) (path : String) (target x : Nat) :
    fd_get (open_dup_close p ref path target).fds x = fd_get p.fds x ∨
    fd_get (open_dup_close p ref path target).fds x = none ∨
    fd_get (open_dup_close p ref path target).fds x = some ref := by
  by_cases hx : x = target
  · subst hx
    unfold open_dup_close
    have hk : fd_get (({ p with fds := fd_set p.fds (fd_lowest_free p.fds) (some ref) } : Proc).emit
        (Event.sys_open path (fd_lowest_free p.fds))).fds (fd_lowest_free p.fds) = some ref := by
      simp only [emit_fds, fd_get_set, if_true]
    rw [sys_close_fds, sys_dup2_fds _ _ _ _ ref hk]
    by_cases hxk : x = fd_lowest_free p.fds
    · right; left; simp [hxk]
    · right; right; simp [hxk]
  · left
    exact open_dup_close_fds_other p ref path target x hx

theorem sys_open_rdonly_ok (w : World) (p : Proc) (path : String) (h : w.can_read path = true) :
    sys_open_rdonly w p path =
      ((({ p with fds := fd_set p.fds (fd_lowest_free p.fds) (some (FileRef.file_rdonly path)) }
        : Proc).emit (Event.sys_open path (fd_lowest_free p.fds))),
       ((fd_lowest_free p.fds : Nat) : Int)) := by
  simp [sys_open_rdonly, h]

theorem sys_open_wronly_ok (w : World) (p : Proc) (path : String) (h : w.can_write path = true) :
    sys_open_wronly w p path =
      ((({ p with fds := fd_set p.fds (fd_lowest_free p.fds) (some (FileRef.file_wronly path)) }
        : Proc).emit (Event.sys_open path (fd_lowest_free p.fds))),
       ((fd_lowest_free p.fds : Nat) : Int)) := by
  simp [sys_open_wronly, h]

theorem sys_open_rdonly_fail (w : World) (p : Proc) (path : String)
    (h : w.can_read path = false) :
    sys_open_rdonly w p path = (p.emit (Event.sys_open path (-1)), -1) := by
  simp [sys_open_rdonly, h]

theorem sys_open_wronly_fail (w : World) (p : Proc) (path : String)
    (h : w.can_write path = false) :
    sys_open_wronly w p path = (p.emit (Event.sys_open path (-1)), -1) := by
  simp [sys_open_wronly, h]

/-! ## Redirection: the branches of `handle_redirection` -/

theorem redirect_output_none (w : World) (p : Proc) (args : Argv) :
    redirect_output w p args (-1) = (p, args) := by
  simp [redirect_output]

theorem redirect_output_missing (w : World) (p : Proc) (args : Argv) (k : Nat)
    (h : arg_at args (k + 1) = none) :
    redirect_output w p args (k : Int) =
      (p.emit (Event.report Report.expected_file_after_out), args) := by
  have hk : ¬ ((k : Int) = -1) := by omega
  simp [redirect_output, hk, h]

theorem redirect_output_fail (w : World) (p : Proc) (args : Argv) (k : Nat) (f : String)
    (h : arg_at args (k + 1) = some f) (hw : w.can_write f = false) :
    redirect_output w p args (k : Int) =
      ((p.emit (Event.sys_open f (-1))).emit (Event.report Report.perror_open_output), args) := by
  have hk : ¬ ((k : Int) = -1) := by omega
  simp [redirect_output, hk, h, sys_open_wronly_fail w p f hw]

theorem redirect_output_ok (w : World) (p : Proc) (args : Argv) (k : Nat) (f : String)
    (h : arg_at args (k + 1) = some f) (hw : w.can_write f = true) :
    redirect_output w p args (k : Int) =
      (open_dup_close p (FileRef.file_wronly f) f STDOUT_FILENO, args.set k none) := by
  have hk : ¬ ((k : Int) = -1) := by omega
  have hlt : ¬ ((fd_lowest_free p.fds : Int) < 0) := by omega
  simp only [redirect_output, hk, h, sys_open_wronly_ok w p f hw, ne_eq, not_false_eq_true,
    if_true, hlt, if_false, Int.toNat_ofNat, open_dup_close]

theorem handle_redirection_in_none (w : World) (p : Proc) (args : Argv)
    (h : (scan_redirect args 0 (-1, -1)).1 = -1) :
    handle_redirection w p args = redirect_output w p args (scan_redirect args 0 (-1, -1)).2 := by
  simp [handle_redirection, h]

theorem handle_redirection_in_missing (w : World) (p : Proc) (args : Argv) (k : Nat)
    (h : (scan_redirect args 0 (-1, -1)).1 = (k : Int)) (ha : arg_at args (k + 1) = none) :
    handle_redirection w p args =
      (p.emit (Event.report Report.expected_file_after_in), args) := by
  have hk : ¬ ((k : Int) = -1) := by omega
  simp [handle_redirection, h, hk, ha]

theorem handle_redirection_in_fail (w : World) (p : Proc) (args : Argv) (k : Nat) (f : String)
    (h : (scan_redirect args 0 (-1, -1)).1 = (k : Int)) (ha : arg_at args (k + 1) = some f)
    (hr : w.can_read f = false) :
    handle_redirection w p args =
      ((p.emit (Event.sys_open f (-1))).emit (Event.report Report.perror_open_input), args) := by
  have hk : ¬ ((k : Int) = -1) := by omega
  simp [handle_redirection, h, hk, ha, sys_open_rdonly_fail w p f hr]

theorem handle_redirection_in_ok (w : World) (p : Proc) (args : Argv) (k : Nat) (f : String)
    (h : (scan_redirect args 0 (-1, -1)).1 = (k : Int)) (ha : arg_at args (k + 1) = some f)
    (hr : w.can_read f = true) :
    handle_redirection w p args =
      redirect_output w (open_dup_close p (FileRef.file_rdonly f) f STDIN_FILENO)
        (args.set k none) (scan_redirect args 0 (-1, -1)).2 := by
  have hk : ¬ ((k : Int) = -1) := by omega
  have hlt : ¬ ((fd_lowest_free p.fds : Int) < 0) := by omega
  simp only [handle_redirection, h, hk, ha, sys_open_rdonly_ok w p f hr, ne_eq,
    not_false_eq_true, if_true, hlt, if_false, Int.toNat_ofNat, open_dup_close]

/-- The scan results are -1 or an index. -/
theorem scan_redirect_range (args : Argv) (i : Nat) (r : Int × Int)
    (h1 : r.1 = -1 ∨ ∃ k : Nat, r.1 = (k : Int)) (h2 : r.2 = -1 ∨ ∃ k : Nat, r.2 = (k : Int)) :
    ((scan_redirect args i r).1 = -1 ∨ ∃ k : Nat, (scan_redirect args i r).1 = (k : Int)) ∧
    ((scan_redirect args i r).2 = -1 ∨ ∃ k : Nat, (scan_redirect args i r).2 = (k : Int)) := by
  induction args generalizing i r with
  | nil => simp only [scan_redirect]; exact ⟨h1, h2⟩
  | cons a rest ih =>
    obtain ⟨x, y⟩ := r
    cases a with
    | none => simp only [scan_redirect]; exact ⟨h1, h2⟩
    | some s =>
      simp only [scan_redirect]
      split
      · exact ih _ _ (Or.inr ⟨i, rfl⟩) h2
      · split
        · exact ih _ _ h1 (Or.inr ⟨i, rfl⟩)
        · exact ih _ _ h1 h2

/-- The four ways `redirect_output` can go. -/
theorem redirect_output_cases (w : World) (p : Proc) (args : Argv) (o : Int)
    (ho : o = -1 ∨ ∃ k : Nat, o = (k : Int)) :
    redirect_output w p args o = (p, args) ∨
    redirect_output w p args o =
      (p.emit (Event.report Report.expected_file_after_out), args) ∨
    (∃ f, redirect_output w p args o =
      ((p.emit (Event.sys_open f (-1))).emit (Event.report Report.perror_open_output), args)) ∨
    (∃ f k, redirect_output w p args o =
      (open_dup_close p (FileRef.file_wronly f) f STDOUT_FILENO, args.set k none)) := by
  rcases ho with rfl | ⟨k, rfl⟩
  · left; exact redirect_output_none w p args
  · cases ha : arg_at args (k + 1) with
    | none => right; left; exact redirect_output_missing w p args k ha
    | some f =>
      cases hw : w.can_write f with
      | false => right; right; left; exact ⟨f, redirect_output_fail w p args k f ha hw⟩
      | true => right; right; right; exact ⟨f, k, redirect_output_ok w p args k f ha hw⟩

/-! ## Redirection: what every call preserves -/

theorem redirect_output_cwd (w : World) (p : Proc) (args : Argv) (o : Int)
    (ho : o = -1 ∨ ∃ k : Nat, o = (k : Int)) :
    (redirect_output w p args o).1.cwd = p.cwd := by
  rcases redirect_output_cases w p args o ho with h | h | ⟨f, h⟩ | ⟨f, k, h⟩ <;> rw [h]
  · rfl
  · rfl
  · exact open_dup_close_cwd _ _ _ _

theorem redirect_output_trace (w : World) (p : Proc) (args : Argv) (o : Int)
    (ho : o = -1 ∨ ∃ k : Nat, o = (k : Int)) :
    ∃ ev, (redirect_output w p args o).1.trace = p.trace ++ ev ∧
      ev.all Event.quiet = true ∧ ev.any Event.is_command = false := by
  rcases redirect_output_cases w p args o ho with h | h | ⟨f, h⟩ | ⟨f, k, h⟩ <;> rw [h]
  · exact ⟨[], by simp, rfl, rfl⟩
  · exact ⟨[_], rfl, rfl, rfl⟩
  · exact ⟨[Event.sys_open f (-1), Event.report Report.perror_open_output],
      by simp [emit_trace], rfl, rfl⟩
  · exact ⟨_, open_dup_close_trace _ _ _ _, rfl, rfl⟩

theorem redirect_output_fds_other (w : World) (p : Proc) (args : Argv) (o : Int)
    (ho : o = -1 ∨ ∃ k : Nat, o = (k : Int)) (x : Nat) (hx : x ≠ 1) :
    fd_get (redirect_output w p args o).1.fds x = fd_get p.fds x := by
  rcases redirect_output_cases w p args o ho with h | h | ⟨f, h⟩ | ⟨f, k, h⟩ <;> rw [h]
  · rfl
  · rfl
  · exact open_dup_close_fds_other _ _ _ _ x hx

theorem redirect_output_fds_weak (w : World) (p : Proc) (args : Argv) (o : Int)
    (ho : o = -1 ∨ ∃ k : Nat, o = (k : Int)) (x : Nat) :
    fd_get (redirect_output w p args o).1.fds x = fd_get p.fds x ∨
    (fd_get (redirect_output w p args o).1.fds x ≠ some FileRef.pipe_read ∧
     fd_get (redirect_output w p args o).1.fds x ≠ some FileRef.pipe_write) := by
  rcases redirect_output_cases w p args o ho with h | h | ⟨f, h⟩ | ⟨f, k, h⟩ <;> rw [h]
  · left; rfl
  · left; rfl
  · left; rfl
  · rcases open_dup_close_fds_weak p (FileRef.file_wronly f) f STDOUT_FILENO x with h | h | h
    · left; exact h
    · right; simp [h]
    · right; simp [h]

/-- The branches of `handle_redirection` with the output index kept. -/
theorem handle_redirection_branches (w : World) (p : Proc) (args : Argv) :
    handle_redirection w p args =
      (p.emit (Event.report Report.expected_file_after_in), args) ∨
    (∃ f, handle_redirection w p args =
      ((p.emit (Event.sys_open f (-1))).emit (Event.report Report.perror_open_input), args)) ∨
    ((scan_redirect args 0 (-1, -1)).1 = -1 ∧ handle_redirection w p args =
      redirect_output w p args (scan_redirect args 0 (-1, -1)).2) ∨
    (∃ (f : String) (k : Nat), (scan_redirect args 0 (-1, -1)).1 = ((k : Nat) : Int) ∧
      handle_redirection w p args =
        redirect_output w (open_dup_close p (FileRef.file_rdonly f) f STDIN_FILENO)
          (args.set k none) (scan_redirect args 0 (-1, -1)).2) := by
  have hrange := scan_redirect_range args 0 (-1, -1) (Or.inl rfl) (Or.inl rfl)
  rcases hrange.1 with h | ⟨k, h⟩
  · right; right; left
    exact ⟨h, handle_redirection_in_none w p args h⟩
  · cases ha : arg_at args (k + 1) with
    | none => left; exact handle_redirection_in_missing w p args k h ha
    | some f =>
      cases hr : w.can_read f with
      | false => right; left; exact ⟨f, handle_redirection_in_fail w p args k f h ha hr⟩
      | true =>
        right; right; right
        exact ⟨f, k, h, handle_redirection_in_ok w p args k f h ha hr⟩

theorem scan_out_range (args : Argv) :
    (scan_redirect args 0 (-1, -1)).2 = -1 ∨
      ∃ k : Nat, (scan_redirect args 0 (-1, -1)).2 = (k : Int) :=
  (scan_redirect_range args 0 (-1, -1) (Or.inl rfl) (Or.inl rfl)).2

theorem handle_redirection_cwd (w : World) (p : Proc) (args : Argv) :
    (handle_redirection w p args).1.cwd = p.cwd := by
  rcases handle_redirection_branches w p args with h | ⟨f, h⟩ | ⟨_, h⟩ | ⟨f, k, _, h⟩ <;> rw [h]
  · rfl
  · rfl
  · exact redirect_output_cwd w p args _ (scan_out_range args)
  · rw [redirect_output_cwd w _ _ _ (scan_out_range args)]
    exact open_dup_close_cwd _ _ _ _

theorem handle_redirection_trace (w : World) (p : Proc) (args : Argv) :
    ∃ ev, (handle_redirection w p args).1.trace = p.trace ++ ev ∧
      ev.all Event.quiet = true ∧ ev.any Event.is_command = false := by
  rcases handle_redirection_branches w p args with h | ⟨f, h⟩ | ⟨_, h⟩ | ⟨f, k, _, h⟩ <;> rw [h]
  · exact ⟨[_], rfl, rfl, rfl⟩
  · exact ⟨[Event.sys_open f (-1), Event.report Report.perror_open_input],
      by simp [emit_trace], rfl, rfl⟩
  · exact redirect_output_trace w p args _ (scan_out_range args)
  · obtain ⟨ev, h1, h2, h3⟩ := redirect_output_trace w
      (open_dup_close p (FileRef.file_rdonly f) f STDIN_FILENO) (args.set k none) _
      (scan_out_range args)
    refine ⟨[Event.sys_open f (fd_lowest_free p.fds),
        Event.sys_dup2 (fd_lowest_free p.fds) STDIN_FILENO (some (FileRef.file_rdonly f)),
        Event.sys_close (fd_lowest_free p.fds) (some (FileRef.file_rdonly f))] ++ ev, ?_, ?_, ?_⟩
    · rw [h1, open_dup_close_trace, List.append_assoc]
    · rw [List.all_append, h2]; rfl
    · rw [List.any_append, h3]; rfl

/-- After `handle_redirection` every descriptor keeps its binding or does not
refer to the pipe. -/
theorem handle_redirection_fds_weak (w : World) (p : Proc) (args : Argv) (x : Nat) :
    fd_get (handle_redirection w p args).1.fds x = fd_get p.fds x ∨
    (fd_get (handle_redirection w p args).1.fds x ≠ some FileRef.pipe_read ∧
     fd_get (handle_redirection w p args).1.fds x ≠ some FileRef.pipe_write) := by
  rcases handle_redirection_branches w p args with h | ⟨f, h⟩ | ⟨_, h⟩ | ⟨f, k, _, h⟩ <;> rw [h]
  · left; rfl
  · left; rfl
  · exact redirect_output_fds_weak w p args _ (scan_out_range args) x
  · rcases redirect_output_fds_weak w
      (open_dup_close p (FileRef.file_rdonly f) f STDIN_FILENO) (args.set k none) _
      (scan_out_range args) x with h1 | h1
    · rcases open_dup_close_fds_weak p (FileRef.file_rdonly f) f STDIN_FILENO x with h2 | h2 | h2
      · left; rw [h1, h2]
      · right; rw [h1, h2]; simp
      · right; rw [h1, h2]; simp
    · right; exact h1

/-- Without an output operator only standard input can be rebound. -/
theorem handle_redirection_fds_no_out (w : World) (p : Proc) (args : Argv)
    (hno : ">" ∉ cvec args) (x : Nat) (hx : x ≠ 0) :
    fd_get (handle_redirection w p args).1.fds x = fd_get p.fds x := by
  have ho : (scan_redirect args 0 (-1, -1)).2 = -1 := scan_redirect_out_none args 0 _ hno
  rcases handle_redirection_branches w p args with h | ⟨f, h⟩ | ⟨_, h⟩ | ⟨f, k, _, h⟩ <;> rw [h]
  · rfl
  · rfl
  · rw [ho, redirect_output_none]
  · rw [ho, redirect_output_none]
    exact open_dup_close_fds_other _ _ _ _ x hx

/-- Without an input operator only standard output can be rebound. -/
theorem handle_redirection_fds_no_in (w : World) (p : Proc) (args : Argv)
    (hno : "<" ∉ cvec args) (x : Nat) (hx : x ≠ 1) :
    fd_get (handle_redirection w p args).1.fds x = fd_get p.fds x := by
  have hi : (scan_redirect args 0 (-1, -1)).1 = -1 := scan_redirect_in_none args 0 _ hno
  rw [handle_redirection_in_none w p args hi]
  exact redirect_output_fds_other w p args _ (scan_out_range args) x hx

/-! ## Running the command: proofs -/

theorem run_command_fds (w : World) (p : Proc) (args : Argv) :
    (run_command w p args).proc.fds = p.fds := by
  unfold run_command is_builtin
  cases h : arg_at args 0 with
  | none => rfl
  | some a =>
    by_cases h1 : a = "cd"
    · subst h1
      simp only [if_true, exec_builtin, h]
      cases arg_at args 1 with
      | none => rfl
      | some path =>
        simp only [ne_eq, one_ne_zero, not_false_eq_true, if_true]
        cases w.chdir (p.emit (Event.call_exec_builtin (cvec args))).cwd path <;> rfl
    · by_cases h2 : a = "exit"
      · subst h2
        simp only [h1, if_false, if_true, exec_builtin, h]
        rfl
      · simp only [h1, h2, if_false, sys_execvp, h, ne_eq, not_true_eq_false]
        cases w.can_exec a <;> rfl

/-- A stage whose vector is not empty reaches `exec_builtin` or `execvp`. -/
theorem run_command_runs (w : World) (p : Proc) (args : Argv) (a : String)
    (h : arg_at args 0 = some a) :
    ∃ e rest, (run_command w p args).proc.trace = p.trace ++ e :: rest ∧
      e.is_command = true ∧ (e :: rest).all Event.quiet = true := by
  unfold run_command is_builtin
  rw [h]
  by_cases h1 : a = "cd"
  · subst h1
    simp only [if_true, exec_builtin, h]
    cases arg_at args 1 with
    | none =>
      exact ⟨Event.call_exec_builtin (cvec args),
        [Event.report Report.cd_expected_argument, Event.report Report.perror_execvp],
        by simp [Child.proc, emit_trace], rfl, rfl⟩
    | some path =>
      simp only [ne_eq, one_ne_zero, not_false_eq_true, if_true]
      cases w.chdir (p.emit (Event.call_exec_builtin (cvec args))).cwd path with
      | none =>
        exact ⟨Event.call_exec_builtin (cvec args),
          [Event.sys_chdir path false, Event.report Report.perror_cd,
            Event.report Report.perror_execvp],
          by simp [Child.proc, emit_trace], rfl, rfl⟩
      | some d =>
        exact ⟨Event.call_exec_builtin (cvec args),
          [Event.sys_chdir path true, Event.report Report.perror_execvp],
          by simp [Child.proc, emit_trace], rfl, rfl⟩
  · by_cases h2 : a = "exit"
    · subst h2
      simp only [h1, if_false, if_true, exec_builtin, h]
      exact ⟨Event.call_exec_builtin (cvec args), [],
        by simp [Child.proc, emit_trace], rfl, rfl⟩
    · simp only [h1, h2, if_false, sys_execvp, h, ne_eq, not_true_eq_false]
      cases w.can_exec a with
      | false =>
        exact ⟨Event.sys_execvp a (cvec args) false, [Event.report Report.perror_execvp],
          by simp [Child.proc, emit_trace], rfl, rfl⟩
      | true =>
        exact ⟨Event.sys_execvp a (cvec args) true, [],
          by simp [Child.proc, emit_trace], rfl, rfl⟩

/-- On an empty vector the builtin check dereferences `NULL`. -/
theorem run_command_empty (w : World) (p : Proc) (args : Argv) (h : arg_at args 0 = none) :
    run_command w p args = Child.crashed p := by
  simp [run_command, is_builtin, h]

theorem run_command_trace_quiet (w : World) (p : Proc) (args : Argv) :
    ∃ ev, (run_command w p args).proc.trace = p.trace ++ ev ∧ ev.all Event.quiet = true := by
  cases h : arg_at args 0 with
  | none => rw [run_command_empty w p args h]; exact ⟨[], by simp [Child.proc], rfl⟩
  | some a =>
    obtain ⟨e, rest, h1, _, h3⟩ := run_command_runs w p args a h
    exact ⟨e :: rest, h1, h3⟩

/-! ## The claims -/

theorem getElem?_after_operator (pre post : List String) (a b : String) :
    (pre ++ a :: b :: post)[pre.length + 1]? = some b := by
  rw [List.getElem?_append_right (Nat.le_succ _)]
  simp

theorem not_mem_cons_split (a b : String) (l : List String) (h : a ∉ b :: l) :
    ¬ a = b ∧ a ∉ l := by
  simpa using h

/-- C1 (code defect): the interpreter loop hands every line to
`exec_with_redirection_and_pipe`, which forks before it looks for a builtin,
so `cd` runs in a child: on the line `cd /tmp` the child changes its own
directory to `/tmp` and exits with a failure status, and the interpreter stays
in `/home`. No invocation ever changes the interpreter's directory. -/
theorem C1_cd_runs_in_forked_child :
    demo_world.chdir "/home" "/tmp" = some "/tmp" ∧
    main_iteration demo_world demo_proc (some "cd /tmp\n") =
      Step.next (Proc.mk demo_fds "/home" [Event.sys_fork 1, Event.sys_waitpid 1])
        [(1, Child.exited 1 (Proc.mk demo_fds "/tmp"
          [Event.call_exec_builtin ["cd", "/tmp"], Event.sys_chdir "/tmp" true,
           Event.report Report.perror_execvp]))] ∧
    (∀ (w : World) (p : Proc) (args : Argv),
      (exec_with_redirection_and_pipe w p args).1.cwd = p.cwd) := by
  refine ⟨by decide, by decide, ?_⟩
  intro w p args
  unfold exec_with_redirection_and_pipe
  simp only []
  split
  · split <;> rfl
  · split
    · rfl
    · simp only [emit_cwd, sys_close_cwd, sys_pipe]

/-- C2 (counterexample): for `sort < in.txt -r` the vector left by
`handle_redirection` is `sort` alone, not `sort -r`. -/
theorem C2_tokens_after_filename_dropped :
    cvec (handle_redirection demo_world demo_proc
      (argv_of ["sort", "<", "in.txt", "-r"])).2 = ["sort"] ∧
    spec_remove_two ["sort", "<", "in.txt", "-r"] 1 = ["sort", "-r"] ∧
    cvec (handle_redirection demo_world demo_proc
      (argv_of ["sort", "<", "in.txt", "-r"])).2
      ≠ spec_remove_two ["sort", "<", "in.txt", "-r"] 1 := by
  decide

/-- C2 (amended): when a stage vector contains exactly one redirection
operator, immediately followed by a filename token whose file opens, the
vector `handle_redirection` leaves for the builtin check and `execvp` is the
tokens before the operator, in order: the operator, the filename and every
token after the filename are dropped. -/
theorem C2_vector_cut_at_operator (w : World) (p : Proc) (args : Argv)
    (pre post : List String) (op file : String)
    (hargs : cvec args = pre ++ op :: file :: post)
    (hop : op = "<" ∨ op = ">")
    (hrest : ∀ t ∈ pre ++ file :: post, t ≠ "<" ∧ t ≠ ">")
    (hin : op = "<" → w.can_read file = true)
    (hout : op = ">" → w.can_write file = true) :
    cvec (handle_redirection w p args).2 = pre ∧
    run_stage w p args = run_command w (handle_redirection w p args).1
      (handle_redirection w p args).2 := by
  refine ⟨?_, rfl⟩
  have hfile : arg_at args (pre.length + 1) = some file := by
    rw [arg_at_eq_cvec args _ (by rw [hargs]; simp), hargs]
    exact getElem?_after_operator pre post op file
  have hpre_in : "<" ∉ pre := fun h => (hrest "<" (List.mem_append_left _ h)).1 rfl
  have hpre_out : ">" ∉ pre := fun h => (hrest ">" (List.mem_append_left _ h)).2 rfl
  have hpost_in : "<" ∉ file :: post := fun h => (hrest "<" (List.mem_append_right _ h)).1 rfl
  have hpost_out : ">" ∉ file :: post := fun h => (hrest ">" (List.mem_append_right _ h)).2 rfl
  rcases hop with rfl | rfl
  · have hi : (scan_redirect args 0 (-1, -1)).1 = ((pre.length : Nat) : Int) := by
      rw [scan_redirect_in_last pre (file :: post) args 0 _ hargs hpost_in]
      simp
    have ho : (scan_redirect args 0 (-1, -1)).2 = -1 := by
      apply scan_redirect_out_none
      rw [hargs]
      simp only [List.mem_append, List.mem_cons, not_or]
      exact ⟨hpre_out, by decide, not_mem_cons_split _ _ _ hpost_out⟩
    rw [handle_redirection_in_ok w p args pre.length file hi hfile (hin rfl), ho,
      redirect_output_none, cvec_set_none, hargs]
    simp
  · have hi : (scan_redirect args 0 (-1, -1)).1 = -1 := by
      apply scan_redirect_in_none
      rw [hargs]
      simp only [List.mem_append, List.mem_cons, not_or]
      exact ⟨hpre_in, by decide, not_mem_cons_split _ _ _ hpost_in⟩
    have ho : (scan_redirect args 0 (-1, -1)).2 = ((pre.length : Nat) : Int) := by
      rw [scan_redirect_out_last pre (file :: post) args 0 _ hargs hpost_out]
      simp
    rw [handle_redirection_in_none w p args hi, ho,
      redirect_output_ok w p args pre.length file hfile (hout rfl), cvec_set_none, hargs]
    simp

/-- C2, instance: the amended statement at `sort < in.txt -r`. -/
theorem C2_vector_cut_at_operator_witness :
    cvec (handle_redirection demo_world demo_proc
      (argv_of ["sort", "<", "in.txt", "-r"])).2 = ["sort"] ∧
    run_stage demo_world demo_proc (argv_of ["sort", "<", "in.txt", "-r"]) =
      run_command demo_world
        (handle_redirection demo_world demo_proc (argv_of ["sort", "<", "in.txt", "-r"])).1
        (handle_redirection demo_world demo_proc (argv_of ["sort", "<", "in.txt", "-r"])).2 :=
  C2_vector_cut_at_operator demo_world demo_proc (argv_of ["sort", "<", "in.txt", "-r"])
    ["sort"] ["-r"] "<" "in.txt" (by decide) (by decide) (by decide) (by decide) (by decide)

/-- C3 (code defect): a redirection file that cannot be opened is reported but
is not fatal to the stage. On `cat < missing` the child reports the failure
and then calls `execvp` with the unstripped vector `cat < missing`; on
`echo hi > readonly` it calls `execvp` with `echo hi > readonly`. -/
theorem C3_open_failure_still_runs_command :
    demo_world.can_read "missing" = false ∧
    demo_world.can_write "readonly" = false ∧
    main_iteration demo_world demo_proc (some "cat < missing\n") =
      Step.next (Proc.mk demo_fds "/home" [Event.sys_fork 1, Event.sys_waitpid 1])
        [(1, Child.running "cat" ["cat", "<", "missing"] (Proc.mk demo_fds "/home"
          [Event.sys_open "missing" (-1), Event.report Report.perror_open_input,
           Event.sys_execvp "cat" ["cat", "<", "missing"] true]))] ∧
    main_iteration demo_world demo_proc (some "echo hi > readonly\n") =
      Step.next (Proc.mk demo_fds "/home" [Event.sys_fork 1, Event.sys_waitpid 1])
        [(1, Child.running "echo" ["echo", "hi", ">", "readonly"] (Proc.mk demo_fds "/home"
          [Event.sys_open "readonly" (-1), Event.report Report.perror_open_output,
           Event.sys_execvp "echo" ["echo", "hi", ">", "readonly"] true]))] := by
  decide

/-- C7 (code defect): a stage whose vector is empty after redirection
stripping is not a no-op. The children of `exec_with_redirection_and_pipe`
apply `is_builtin` to the vector without testing `args[0]`, so on the lines
`< file` (single stage), `| ls` (left stage) and `ls |` (right stage) the
builtin check reads a `NULL` first slot and the child crashes. -/
theorem C7_empty_stage_reaches_is_builtin :
    is_builtin (argv_of []) = none ∧
    (∀ (w : World) (p : Proc) (args : Argv), arg_at args 0 = none →
      run_command w p args = Child.crashed p) ∧
    main_iteration demo_world demo_proc (some "< file\n") =
      Step.next (Proc.mk demo_fds "/home" [Event.sys_fork 1, Event.sys_waitpid 1])
        [(1, Child.crashed (Proc.mk
          [some (FileRef.file_rdonly "file"), some (FileRef.inherited 1),
           some (FileRef.inherited 2), none] "/home"
          [Event.sys_open "file" 3, Event.sys_dup2 3 0 (some (FileRef.file_rdonly "file")),
           Event.sys_close 3 (some (FileRef.file_rdonly "file"))]))] ∧
    main_iteration demo_world demo_proc (some "| ls\n") =
      Step.next
        (Proc.mk [some (FileRef.inherited 0), some (FileRef.inherited 1),
            some (FileRef.inherited 2), none, none] "/home"
          [Event.sys_pipe (some (3, 4)), Event.sys_fork 1, Event.sys_fork 2,
           Event.sys_close 3 (some FileRef.pipe_read),
           Event.sys_close 4 (some FileRef.pipe_write),
           Event.sys_waitpid 1, Event.sys_waitpid 2])
        [(1, Child.crashed (Proc.mk
          [some (FileRef.inherited 0), some FileRef.pipe_write, some (FileRef.inherited 2),
           none, none] "/home"
          [Event.sys_close 3 (some FileRef.pipe_read),
           Event.sys_dup2 4 1 (some FileRef.pipe_write),
           Event.sys_close 4 (some FileRef.pipe_write)])),
         (2, Child.running "ls" ["ls"] (Proc.mk
          [some FileRef.pipe_read, some (FileRef.inherited 1), some (FileRef.inherited 2),
           none, none] "/home"
          [Event.sys_close 4 (some FileRef.pipe_write),
           Event.sys_dup2 3 0 (some FileRef.pipe_read),
           Event.sys_close 3 (some FileRef.pipe_read),
           Event.sys_execvp "ls" ["ls"] true]))] ∧
    main_iteration demo_world demo_proc (some "ls |\n") =
      Step.next
        (Proc.mk [some (FileRef.inherited 0), some (FileRef.inherited 1),
            some (FileRef.inherited 2), none, none] "/home"
          [Event.sys_pipe (some (3, 4)), Event.sys_fork 1, Event.sys_fork 2,
           Event.sys_close 3 (some FileRef.pipe_read),
           Event.sys_close 4 (some FileRef.pipe_write),
           Event.sys_waitpid 1, Event.sys_waitpid 2])
        [(1, Child.running "ls" ["ls"] (Proc.mk
          [some (FileRef.inherited 0), some FileRef.pipe_write, some (FileRef.inherited 2),
           none, none] "/home"
          [Event.sys_close 3 (some FileRef.pipe_read),
           Event.sys_dup2 4 1 (some FileRef.pipe_write),
           Event.sys_close 4 (some FileRef.pipe_write),
           Event.sys_execvp "ls" ["ls"] true])),
         (2, Child.crashed (Proc.mk
          [some FileRef.pipe_read, some (FileRef.inherited 1), some (FileRef.inherited 2),
           none, none] "/home"
          [Event.sys_close 4 (some FileRef.pipe_write),
           Event.sys_dup2 3 0 (some FileRef.pipe_read),
           Event.sys_close 3 (some FileRef.pipe_read)]))] := by
  refine ⟨by decide, run_command_empty, by decide, by decide, by decide⟩

/-! ## Pipelines: the descriptor tables of the three processes -/

theorem sys_pipe_fds (p : Proc) (x : Nat) :
    fd_get (sys_pipe p).1.fds x =
      if x = (sys_pipe p).2.2 then some FileRef.pipe_write
      else if x = (sys_pipe p).2.1 then some FileRef.pipe_read
      else fd_get p.fds x := by
  simp only [sys_pipe, emit_fds, fd_get_set]

theorem sys_pipe_trace (p : Proc) :
    (sys_pipe p).1.trace =
      p.trace ++ [Event.sys_pipe (some ((sys_pipe p).2.1, (sys_pipe p).2.2))] := rfl

theorem sys_pipe_cwd (p : Proc) : (sys_pipe p).1.cwd = p.cwd := rfl

theorem sys_pipe_fd0_closed (p : Proc) : fd_get p.fds (sys_pipe p).2.1 = none :=
  fd_get_lowest_free p.fds

theorem sys_pipe_fd1_closed (p : Proc) : fd_get p.fds (sys_pipe p).2.2 = none := by
  have h := fd_get_lowest_free (fd_set p.fds (fd_lowest_free p.fds) (some FileRef.pipe_read))
  rw [fd_get_set] at h
  by_cases hx : fd_lowest_free (fd_set p.fds (fd_lowest_free p.fds) (some FileRef.pipe_read))
      = fd_lowest_free p.fds
  · simp [hx] at h
  · simpa [hx] using h

theorem sys_pipe_distinct (p : Proc) : (sys_pipe p).2.1 ≠ (sys_pipe p).2.2 := by
  intro e
  have h := fd_get_lowest_free (fd_set p.fds (fd_lowest_free p.fds) (some FileRef.pipe_read))
  rw [fd_get_set] at h
  have e2 : fd_lowest_free (fd_set p.fds (fd_lowest_free p.fds) (some FileRef.pipe_read))
      = fd_lowest_free p.fds := e.symm
  simp [e2] at h

theorem fork_child_fds (p : Proc) : (fork_child p).fds = p.fds := rfl

theorem fork_child_trace (p : Proc) : (fork_child p).trace = [] := rfl

theorem left_wiring_fds (p : Proc)
    (h1 : 1 ≠ (sys_pipe p).2.1 ∧ 1 ≠ (sys_pipe p).2.2) (x : Nat) :
    fd_get (left_wiring (sys_pipe p).1 (sys_pipe p).2.1 (sys_pipe p).2.2).fds x =
      if x = 1 then some FileRef.pipe_write
      else if x = (sys_pipe p).2.1 ∨ x = (sys_pipe p).2.2 then none
      else fd_get p.fds x := by
  have hd := sys_pipe_distinct p
  have hsrc : fd_get (sys_close (fork_child (sys_pipe p).1) (sys_pipe p).2.1).fds
      (sys_pipe p).2.2 = some FileRef.pipe_write := by
    rw [sys_close_fds, fork_child_fds, sys_pipe_fds]
    simp [Ne.symm hd]
  unfold left_wiring
  rw [sys_close_fds, sys_dup2_fds _ _ _ _ _ hsrc, sys_close_fds, fork_child_fds, sys_pipe_fds]
  by_cases hx1 : x = 1
  · subst hx1
    simp [STDOUT_FILENO, h1.2]
  · by_cases hx2 : x = (sys_pipe p).2.2
    · simp [hx2, Ne.symm h1.2]
    · by_cases hx0 : x = (sys_pipe p).2.1
      · simp [hx0, STDOUT_FILENO, hd, Ne.symm h1.1]
      · simp [hx1, hx2, hx0, STDOUT_FILENO]

theorem left_wiring_trace (p : Proc) :
    (left_wiring (sys_pipe p).1 (sys_pipe p).2.1 (sys_pipe p).2.2).trace =
      [Event.sys_close (sys_pipe p).2.1 (some FileRef.pipe_read),
       Event.sys_dup2 (sys_pipe p).2.2 STDOUT_FILENO (some FileRef.pipe_write),
       Event.sys_close (sys_pipe p).2.2 (some FileRef.pipe_write)] := by
  have hd := sys_pipe_distinct p
  have h0 : fd_get (fork_child (sys_pipe p).1).fds (sys_pipe p).2.1
      = some FileRef.pipe_read := by
    rw [fork_child_fds, sys_pipe_fds]
    simp [hd]
  have hsrc : fd_get (sys_close (fork_child (sys_pipe p).1) (sys_pipe p).2.1).fds
      (sys_pipe p).2.2 = some FileRef.pipe_write := by
    rw [sys_close_fds, fork_child_fds, sys_pipe_fds]
    simp [Ne.symm hd]
  have hafter : fd_get (sys_dup2 (sys_close (fork_child (sys_pipe p).1) (sys_pipe p).2.1)
      (sys_pipe p).2.2 STDOUT_FILENO).fds (sys_pipe p).2.2 = some FileRef.pipe_write := by
    rw [sys_dup2_fds _ _ _ _ _ hsrc, hsrc]
    simp
  unfold left_wiring
  rw [sys_close_trace, sys_dup2_trace, sys_close_trace, fork_child_trace, h0, hsrc, hafter]
  rfl

theorem right_wiring_fds (p : Proc)
    (h0 : 0 ≠ (sys_pipe p).2.1 ∧ 0 ≠ (sys_pipe p).2.2) (x : Nat) :
    fd_get (right_wiring (sys_pipe p).1 (sys_pipe p).2.1 (sys_pipe p).2.2).fds x =
      if x = 0 then some FileRef.pipe_read
      else if x = (sys_pipe p).2.1 ∨ x = (sys_pipe p).2.2 then none
      else fd_get p.fds x := by
  have hd := sys_pipe_distinct p
  have hsrc : fd_get (sys_close (fork_child (sys_pipe p).1) (sys_pipe p).2.2).fds
      (sys_pipe p).2.1 = some FileRef.pipe_read := by
    rw [sys_close_fds, fork_child_fds, sys_pipe_fds]
    simp [hd]
  unfold right_wiring
  rw [sys_close_fds, sys_dup2_fds _ _ _ _ _ hsrc, sys_close_fds, fork_child_fds, sys_pipe_fds]
  by_cases hx1 : x = 0
  · subst hx1
    simp [STDIN_FILENO, h0.1]
  · by_cases hx2 : x = (sys_pipe p).2.2
    · simp [hx2, Ne.symm hd, STDIN_FILENO, Ne.symm h0.2]
    · by_cases hx0 : x = (sys_pipe p).2.1
      · simp [hx0, Ne.symm h0.1]
      · simp [hx1, hx2, hx0, STDIN_FILENO]

theorem right_wiring_trace (p : Proc) :
    (right_wiring (sys_pipe p).1 (sys_pipe p).2.1 (sys_pipe p).2.2).trace =
      [Event.sys_close (sys_pipe p).2.2 (some FileRef.pipe_write),
       Event.sys_dup2 (sys_pipe p).2.1 STDIN_FILENO (some FileRef.pipe_read),
       Event.sys_close (sys_pipe p).2.1 (some FileRef.pipe_read)] := by
  have hd := sys_pipe_distinct p
  have h1 : fd_get (fork_child (sys_pipe p).1).fds (sys_pipe p).2.2
      = some FileRef.pipe_write := by
    rw [fork_child_fds, sys_pipe_fds]
    simp
  have hsrc : fd_get (sys_close (fork_child (sys_pipe p).1) (sys_pipe p).2.2).fds
      (sys_pipe p).2.1 = some FileRef.pipe_read := by
    rw [sys_close_fds, fork_child_fds, sys_pipe_fds]
    simp [hd]
  have hafter : fd_get (sys_dup2 (sys_close (fork_child (sys_pipe p).1) (sys_pipe p).2.2)
      (sys_pipe p).2.1 STDIN_FILENO).fds (sys_pipe p).2.1 = some FileRef.pipe_read := by
    rw [sys_dup2_fds _ _ _ _ _ hsrc, hsrc]
    simp
  unfold right_wiring
  rw [sys_close_trace, sys_dup2_trace, sys_close_trace, fork_child_trace, h1, hsrc, hafter]
  rfl

/-- The pipeline branch of `exec_with_redirection_and_pipe` when the pipe and
both children are created. -/
theorem exec_pipeline_eq (w : World) (p : Proc) (args : Argv) (i : Nat)
    (hpipe : w.pipe_ok = true) (hf0 : w.fork_ok 0 = true) (hf1 : w.fork_ok 1 = true)
    (hidx : find_pipe args = (i : Int)) :
    exec_with_redirection_and_pipe w p args =
      ((((sys_close (sys_close (((sys_pipe p).1.emit (Event.sys_fork 1)).emit (Event.sys_fork 2))
          (sys_pipe p).2.1) (sys_pipe p).2.2).emit (Event.sys_waitpid 1)).emit
          (Event.sys_waitpid 2)),
       [(1, left_child w (sys_pipe p).1 (sys_pipe p).2.1 (sys_pipe p).2.2 args i),
        (2, right_child w (sys_pipe p).1 (sys_pipe p).2.1 (sys_pipe p).2.2 args i)]) := by
  have hne : ¬ ((i : Int) = -1) := by omega
  simp [exec_with_redirection_and_pipe, hidx, hne, hpipe, fork_result, hf0, hf1]

theorem run_stage_fds (w : World) (p : Proc) (args : Argv) :
    (run_stage w p args).proc.fds = (handle_redirection w p args).1.fds :=
  run_command_fds w _ _

theorem run_stage_trace_quiet (w : World) (p : Proc) (args : Argv) :
    ∃ ev, (run_stage w p args).proc.trace = p.trace ++ ev ∧ ev.all Event.quiet = true := by
  obtain ⟨ev1, h1, h2, _⟩ := handle_redirection_trace w p args
  obtain ⟨ev2, h3, h4⟩ := run_command_trace_quiet w (handle_redirection w p args).1
    (handle_redirection w p args).2
  refine ⟨ev1 ++ ev2, ?_, ?_⟩
  · unfold run_stage
    rw [h3, h1, List.append_assoc]
  · rw [List.all_append, h2, h4]; rfl

/-- The left child: what it closes, and where the pipe is when its command
starts. -/
theorem left_child_discipline (w : World) (p : Proc) (args : Argv) (i : Nat)
    (h1 : 1 ≠ (sys_pipe p).2.1 ∧ 1 ≠ (sys_pipe p).2.2) (hnp : no_pipe p.fds) :
    (∃ rest, (left_child w (sys_pipe p).1 (sys_pipe p).2.1 (sys_pipe p).2.2 args i).proc.trace =
        [Event.sys_close (sys_pipe p).2.1 (some FileRef.pipe_read),
         Event.sys_dup2 (sys_pipe p).2.2 STDOUT_FILENO (some FileRef.pipe_write),
         Event.sys_close (sys_pipe p).2.2 (some FileRef.pipe_write)] ++ rest ∧
      rest.all Event.quiet = true) ∧
    (∀ x, fd_get (left_child w (sys_pipe p).1 (sys_pipe p).2.1 (sys_pipe p).2.2 args i).proc.fds x
      = some FileRef.pipe_write → x = 1) ∧
    (∀ x, fd_get (left_child w (sys_pipe p).1 (sys_pipe p).2.1 (sys_pipe p).2.2 args i).proc.fds x
      ≠ some FileRef.pipe_read) ∧
    (">" ∉ cvec (left_cmd args i) →
      fd_get (left_child w (sys_pipe p).1 (sys_pipe p).2.1 (sys_pipe p).2.2 args i).proc.fds 1
        = some FileRef.pipe_write) := by
  have hw := left_wiring_fds p h1
  refine ⟨?_, ?_, ?_, ?_⟩
  · obtain ⟨ev, he1, he2⟩ := run_stage_trace_quiet w
      (left_wiring (sys_pipe p).1 (sys_pipe p).2.1 (sys_pipe p).2.2) (left_cmd args i)
    refine ⟨ev, ?_, he2⟩
    unfold left_child
    rw [he1, left_wiring_trace]
  · intro x hx
    unfold left_child at hx
    rw [run_stage_fds] at hx
    rcases handle_redirection_fds_weak w
      (left_wiring (sys_pipe p).1 (sys_pipe p).2.1 (sys_pipe p).2.2) (left_cmd args i) x
      with h | h
    · rw [h, hw] at hx
      by_contra hne
      simp only [hne, if_false] at hx
      split at hx
      · simp at hx
      · exact (hnp x).2 hx
    · exact absurd hx h.2
  · intro x hx
    unfold left_child at hx
    rw [run_stage_fds] at hx
    rcases handle_redirection_fds_weak w
      (left_wiring (sys_pipe p).1 (sys_pipe p).2.1 (sys_pipe p).2.2) (left_cmd args i) x
      with h | h
    · rw [h, hw] at hx
      split at hx
      · simp at hx
      · split at hx
        · simp at hx
        · exact (hnp x).1 hx
    · exact absurd hx h.1
  · intro hno
    unfold left_child
    rw [run_stage_fds, handle_redirection_fds_no_out w _ _ hno 1 (by decide), hw]
    simp

/-- The right child: what it closes, and where the pipe is when its command
starts. -/
theorem right_child_discipline (w : World) (p : Proc) (args : Argv) (i : Nat)
    (h0 : 0 ≠ (sys_pipe p).2.1 ∧ 0 ≠ (sys_pipe p).2.2) (hnp : no_pipe p.fds) :
    (∃ rest, (right_child w (sys_pipe p).1 (sys_pipe p).2.1 (sys_pipe p).2.2 args i).proc.trace =
        [Event.sys_close (sys_pipe p).2.2 (some FileRef.pipe_write),
         Event.sys_dup2 (sys_pipe p).2.1 STDIN_FILENO (some FileRef.pipe_read),
         Event.sys_close (sys_pipe p).2.1 (some FileRef.pipe_read)] ++ rest ∧
      rest.all Event.quiet = true) ∧
    (∀ x, fd_get (right_child w (sys_pipe p).1 (sys_pipe p).2.1 (sys_pipe p).2.2 args i).proc.fds x
      = some FileRef.pipe_read → x = 0) ∧
    (∀ x, fd_get (right_child w (sys_pipe p).1 (sys_pipe p).2.1 (sys_pipe p).2.2 args i).proc.fds x
      ≠ some FileRef.pipe_write) ∧
    ("<" ∉ cvec (right_cmd args i) →
      fd_get (right_child w (sys_pipe p).1 (sys_pipe p).2.1 (sys_pipe p).2.2 args i).proc.fds 0
        = some FileRef.pipe_read) := by
  have hw := right_wiring_fds p h0
  refine ⟨?_, ?_, ?_, ?_⟩
  · obtain ⟨ev, he1, he2⟩ := run_stage_trace_quiet w
      (right_wiring (sys_pipe p).1 (sys_pipe p).2.1 (sys_pipe p).2.2) (right_cmd args i)
    refine ⟨ev, ?_, he2⟩
    unfold right_child
    rw [he1, right_wiring_trace]
  · intro x hx
    unfold right_child at hx
    rw [run_stage_fds] at hx
    rcases handle_redirection_fds_weak w
      (right_wiring (sys_pipe p).1 (sys_pipe p).2.1 (sys_pipe p).2.2) (right_cmd args i) x
      with h | h
    · rw [h, hw] at hx
      by_contra hne
      simp only [hne, if_false] at hx
      split at hx
      · simp at hx
      · exact (hnp x).1 hx
    · exact absurd hx h.1
  · intro x hx
    unfold right_child at hx
    rw [run_stage_fds] at hx
    rcases handle_redirection_fds_weak w
      (right_wiring (sys_pipe p).1 (sys_pipe p).2.1 (sys_pipe p).2.2) (right_cmd args i) x
      with h | h
    · rw [h, hw] at hx
      split at hx
      · simp at hx
      · split at hx
        · simp at hx
        · exact (hnp x).2 hx
    · exact absurd hx h.2
  · intro hno
    unfold right_child
    rw [run_stage_fds, handle_redirection_fds_no_in w _ _ hno 0 (by decide), hw]
    simp

/-- The parent of a pipeline: its trace and its descriptor table. -/
theorem pipeline_parent (p : Proc) :
    (((sys_close (sys_close (((sys_pipe p).1.emit (Event.sys_fork 1)).emit (Event.sys_fork 2))
        (sys_pipe p).2.1) (sys_pipe p).2.2).emit (Event.sys_waitpid 1)).emit
        (Event.sys_waitpid 2)).trace =
      p.trace ++ [Event.sys_pipe (some ((sys_pipe p).2.1, (sys_pipe p).2.2)),
        Event.sys_fork 1, Event.sys_fork 2,
        Event.sys_close (sys_pipe p).2.1 (some FileRef.pipe_read),
        Event.sys_close (sys_pipe p).2.2 (some FileRef.pipe_write),
        Event.sys_waitpid 1, Event.sys_waitpid 2] ∧
    ∀ x, fd_get (((sys_close (sys_close (((sys_pipe p).1.emit (Event.sys_fork 1)).emit
        (Event.sys_fork 2)) (sys_pipe p).2.1) (sys_pipe p).2.2).emit (Event.sys_waitpid 1)).emit
        (Event.sys_waitpid 2)).fds x = fd_get p.fds x := by
  have hd := sys_pipe_distinct p
  constructor
  · simp only [emit_trace, sys_close_trace, sys_close_fds, emit_fds, sys_pipe_fds,
      sys_pipe_trace]
    simp [hd, Ne.symm hd]
  · intro x
    simp only [emit_fds, sys_close_fds, sys_pipe_fds]
    by_cases hx1 : x = (sys_pipe p).2.2
    · simp only [hx1, if_true]
      exact (sys_pipe_fd1_closed p).symm
    · by_cases hx0 : x = (sys_pipe p).2.1
      · simp only [hx0, if_true]
        simp [hd, sys_pipe_fd0_closed p]
      · simp [hx1, hx0]

/-- The demonstration interpreter holds no pipe end. -/
theorem demo_proc_no_pipe : no_pipe demo_proc.fds := by
  intro fd
  rcases fd with _ | _ | _ | fd
  · exact ⟨by decide, by decide⟩
  · exact ⟨by decide, by decide⟩
  · exact ⟨by decide, by decide⟩
  · have h : fd_get demo_proc.fds (fd + 1 + 1 + 1) = none := by
      simp [fd_get, demo_proc, demo_fds]
    rw [h]
    exact ⟨by simp, by simp⟩

/-- C10: in the pipeline case, when the pipe and both children are created
and the pipe descriptors are distinct from the three standard descriptors,
each of the parent, the left child and the right child closes each pipe
descriptor exactly once and never closes or duplicates a closed descriptor;
when the left child starts its command the write end is reachable only as
its standard output and the read end is closed, symmetrically for the right
child, and the parent returns with the descriptor table it had before. -/
theorem C10_pipe_descriptors_closed_once (w : World) (p : Proc) (args : Argv) (i : Nat)
    (hpipe : w.pipe_ok = true) (hf0 : w.fork_ok 0 = true) (hf1 : w.fork_ok 1 = true)
    (hidx : find_pipe args = (i : Int))
    (hfds : 2 < (sys_pipe p).2.1 ∧ 2 < (sys_pipe p).2.2)
    (hnew : no_pipe p.fds) :
    ∃ (fd0 fd1 : Nat) (parent : Proc) (left right : Child),
      exec_with_redirection_and_pipe w p args = (parent, [(1, left), (2, right)]) ∧
      fd0 ≠ fd1 ∧
      parent.trace = p.trace ++ [Event.sys_pipe (some (fd0, fd1)),
        Event.sys_fork 1, Event.sys_fork 2,
        Event.sys_close fd0 (some FileRef.pipe_read),
        Event.sys_close fd1 (some FileRef.pipe_write),
        Event.sys_waitpid 1, Event.sys_waitpid 2] ∧
      (∀ x, fd_get parent.fds x = fd_get p.fds x) ∧
      (∃ rest, left.proc.trace =
        [Event.sys_close fd0 (some FileRef.pipe_read),
         Event.sys_dup2 fd1 STDOUT_FILENO (some FileRef.pipe_write),
         Event.sys_close fd1 (some FileRef.pipe_write)] ++ rest ∧
        rest.all Event.quiet = true) ∧
      (∀ x, fd_get left.proc.fds x = some FileRef.pipe_write → x = STDOUT_FILENO) ∧
      (∀ x, fd_get left.proc.fds x ≠ some FileRef.pipe_read) ∧
      (">" ∉ cvec (left_cmd args i) →
        fd_get left.proc.fds STDOUT_FILENO = some FileRef.pipe_write) ∧
      (∃ rest, right.proc.trace =
        [Event.sys_close fd1 (some FileRef.pipe_write),
         Event.sys_dup2 fd0 STDIN_FILENO (some FileRef.pipe_read),
         Event.sys_close fd0 (some FileRef.pipe_read)] ++ rest ∧
        rest.all Event.quiet = true) ∧
      (∀ x, fd_get right.proc.fds x = some FileRef.pipe_read → x = STDIN_FILENO) ∧
      (∀ x, fd_get right.proc.fds x ≠ some FileRef.pipe_write) ∧
      ("<" ∉ cvec (right_cmd args i) →
        fd_get right.proc.fds STDIN_FILENO = some FileRef.pipe_read) := by
  have h1 : 1 ≠ (sys_pipe p).2.1 ∧ 1 ≠ (sys_pipe p).2.2 := ⟨by omega, by omega⟩
  have h0 : 0 ≠ (sys_pipe p).2.1 ∧ 0 ≠ (sys_pipe p).2.2 := ⟨by omega, by omega⟩
  obtain ⟨l1, l2, l3, l4⟩ := left_child_discipline w p args i h1 hnew
  obtain ⟨r1, r2, r3, r4⟩ := right_child_discipline w p args i h0 hnew
  obtain ⟨p1, p2⟩ := pipeline_parent p
  exact ⟨(sys_pipe p).2.1, (sys_pipe p).2.2, _, _, _,
    exec_pipeline_eq w p args i hpipe hf0 hf1 hidx, sys_pipe_distinct p,
    p1, p2, l1, l2, l3, l4, r1, r2, r3, r4⟩

/-- C10, instance: the pipeline `ls | wc` in the demonstration world. -/
theorem C10_pipe_descriptors_closed_once_witness :
    ∃ (fd0 fd1 : Nat) (parent : Proc) (left right : Child),
      exec_with_redirection_and_pipe demo_world demo_proc (argv_of ["ls", "|", "wc"]) =
        (parent, [(1, left), (2, right)]) ∧
      fd0 ≠ fd1 ∧
      parent.trace = demo_proc.trace ++ [Event.sys_pipe (some (fd0, fd1)),
        Event.sys_fork 1, Event.sys_fork 2,
        Event.sys_close fd0 (some FileRef.pipe_read),
        Event.sys_close fd1 (some FileRef.pipe_write),
        Event.sys_waitpid 1, Event.sys_waitpid 2] ∧
      (∀ x, fd_get parent.fds x = fd_get demo_proc.fds x) ∧
      (∃ rest, left.proc.trace =
        [Event.sys_close fd0 (some FileRef.pipe_read),
         Event.sys_dup2 fd1 STDOUT_FILENO (some FileRef.pipe_write),
         Event.sys_close fd1 (some FileRef.pipe_write)] ++ rest ∧
        rest.all Event.quiet = true) ∧
      (∀ x, fd_get left.proc.fds x = some FileRef.pipe_write → x = STDOUT_FILENO) ∧
      (∀ x, fd_get left.proc.fds x ≠ some FileRef.pipe_read) ∧
      (">" ∉ cvec (left_cmd (argv_of ["ls", "|", "wc"]) 1) →
        fd_get left.proc.fds STDOUT_FILENO = some FileRef.pipe_write) ∧
      (∃ rest, right.proc.trace =
        [Event.sys_close fd1 (some FileRef.pipe_write),
         Event.sys_dup2 fd0 STDIN_FILENO (some FileRef.pipe_read),
         Event.sys_close fd0 (some FileRef.pipe_read)] ++ rest ∧
        rest.all Event.quiet = true) ∧
      (∀ x, fd_get right.proc.fds x = some FileRef.pipe_read → x = STDIN_FILENO) ∧
      (∀ x, fd_get right.proc.fds x ≠ some FileRef.pipe_write) ∧
      ("<" ∉ cvec (right_cmd (argv_of ["ls", "|", "wc"]) 1) →
        fd_get right.proc.fds STDIN_FILENO = some FileRef.pipe_read) :=
  C10_pipe_descriptors_closed_once demo_world demo_proc (argv_of ["ls", "|", "wc"]) 1
    rfl rfl rfl (by decide) (by decide)
    demo_proc_no_pipe

/-! ## Redirection that succeeds -/

theorem arg_at_after (args : Argv) (pre post : List String) (a b : String)
    (h : cvec args = pre ++ a :: b :: post) : arg_at args (pre.length + 1) = some b := by
  rw [arg_at_eq_cvec args _ (by rw [h]; simp), h]
  exact getElem?_after_operator pre post a b

theorem arg_at_operator (args : Argv) (pre post : List String) (a : String)
    (h : cvec args = pre ++ a :: post) : arg_at args pre.length = some a := by
  rw [arg_at_eq_cvec args _ (by rw [h]; simp), h,
    List.getElem?_append_right (Nat.le_refl _)]
  simp

/-- A valid input redirection binds standard input to the file. -/
theorem handle_redirection_stdin (w : World) (p : Proc) (args : Argv)
    (pre post : List String) (f : String)
    (h : cvec args = pre ++ "<" :: f :: post) (hlast : "<" ∉ f :: post)
    (hr : w.can_read f = true) (h0 : fd_get p.fds 0 ≠ none) :
    fd_get (handle_redirection w p args).1.fds 0 = some (FileRef.file_rdonly f) := by
  have hi : (scan_redirect args 0 (-1, -1)).1 = ((pre.length : Nat) : Int) := by
    rw [scan_redirect_in_last pre (f :: post) args 0 _ h hlast]
    simp
  rw [handle_redirection_in_ok w p args pre.length f hi (arg_at_after args pre post "<" f h) hr,
    redirect_output_fds_other w _ _ _ (scan_out_range args) 0 (by decide)]
  exact open_dup_close_fds_target p _ f 0 h0

/-- A valid output redirection binds standard output to the file, provided
the handling of the input operator did not fail before. -/
theorem handle_redirection_stdout (w : World) (p : Proc) (args : Argv)
    (pre post : List String) (f : String)
    (h : cvec args = pre ++ ">" :: f :: post) (hlast : ">" ∉ f :: post) (hf : f ≠ "<")
    (hw : w.can_write f = true) (h1 : fd_get p.fds 1 ≠ none)
    (hin : "<" ∉ cvec args ∨ ∃ pre2 g post2, cvec args = pre2 ++ "<" :: g :: post2 ∧
      "<" ∉ g :: post2 ∧ w.can_read g = true) :
    fd_get (handle_redirection w p args).1.fds 1 = some (FileRef.file_wronly f) := by
  have ho : (scan_redirect args 0 (-1, -1)).2 = ((pre.length : Nat) : Int) := by
    rw [scan_redirect_out_last pre (f :: post) args 0 _ h hlast]
    simp
  have hfile := arg_at_after args pre post ">" f h
  rcases hin with hno | ⟨pre2, g, post2, h2, hlast2, hr⟩
  · have hi : (scan_redirect args 0 (-1, -1)).1 = -1 := scan_redirect_in_none args 0 _ hno
    rw [handle_redirection_in_none w p args hi, ho, redirect_output_ok w p args _ f hfile hw]
    exact open_dup_close_fds_target p _ f 1 h1
  · have hi : (scan_redirect args 0 (-1, -1)).1 = ((pre2.length : Nat) : Int) := by
      rw [scan_redirect_in_last pre2 (g :: post2) args 0 _ h2 hlast2]
      simp
    have hne : pre.length + 1 ≠ pre2.length := by
      intro e
      have ha := arg_at_operator args pre2 (g :: post2) "<" h2
      rw [← e, hfile] at ha
      exact hf (Option.some.inj ha)
    have hfile2 : arg_at (args.set pre2.length none) (pre.length + 1) = some f := by
      rw [arg_at_set_none, if_neg hne, hfile]
    rw [handle_redirection_in_ok w p args pre2.length g hi
      (arg_at_after args pre2 post2 "<" g h2) hr, ho,
      redirect_output_ok w _ _ _ f hfile2 hw]
    apply open_dup_close_fds_target
    rw [open_dup_close_fds_other p _ g STDIN_FILENO STDOUT_FILENO (by decide)]
    exact h1

/-- C4 (counterexample): in `cmd > f < | wc` the left stage has a valid
output redirection to `f`, yet the missing filename after its input operator
makes `handle_redirection` return before the output operator is applied, and
the command starts with standard output still on the pipe's write end. The
same happens in `cmd > < g | wc`, where the token after the output operator
is the input operator. And when the interpreter itself runs with standard
input closed, the pipe's read end is descriptor 0 and the right stage of
`ls | wc < in.txt` starts with standard input closed instead of on `in.txt`. -/
theorem C4_output_redirection_skipped :
    demo_world.can_write "f" = true ∧
    (exec_with_redirection_and_pipe demo_world demo_proc
      (argv_of ["cmd", ">", "f", "<", "|", "wc"])).2.head? =
      some (1, Child.running "cmd" ["cmd", ">", "f", "<"] (Proc.mk
        [some (FileRef.inherited 0), some FileRef.pipe_write, some (FileRef.inherited 2),
         none, none] "/home"
        [Event.sys_close 3 (some FileRef.pipe_read),
         Event.sys_dup2 4 1 (some FileRef.pipe_write),
         Event.sys_close 4 (some FileRef.pipe_write),
         Event.report Report.expected_file_after_in,
         Event.sys_execvp "cmd" ["cmd", ">", "f", "<"] true])) ∧
    (exec_with_redirection_and_pipe demo_world demo_proc
      (argv_of ["cmd", ">", "<", "g", "|", "wc"])).2.head? =
      some (1, Child.running "cmd" ["cmd", ">"] (Proc.mk
        [some (FileRef.file_rdonly "g"), some FileRef.pipe_write, some (FileRef.inherited 2),
         none, none] "/home"
        [Event.sys_close 3 (some FileRef.pipe_read),
         Event.sys_dup2 4 1 (some FileRef.pipe_write),
         Event.sys_close 4 (some FileRef.pipe_write),
         Event.sys_open "g" 3, Event.sys_dup2 3 0 (some (FileRef.file_rdonly "g")),
         Event.sys_close 3 (some (FileRef.file_rdonly "g")),
         Event.report Report.expected_file_after_out,
         Event.sys_execvp "cmd" ["cmd", ">"] true])) ∧
    (exec_with_redirection_and_pipe demo_world
      (Proc.mk [none, some (FileRef.inherited 1), some (FileRef.inherited 2)] "/home" [])
      (argv_of ["ls", "|", "wc", "<", "in.txt"])).2 =
      [(1, Child.running "ls" ["ls"] (Proc.mk
        [none, some FileRef.pipe_write, some (FileRef.inherited 2), none] "/home"
        [Event.sys_close 0 (some FileRef.pipe_read),
         Event.sys_dup2 3 1 (some FileRef.pipe_write),
         Event.sys_close 3 (some FileRef.pipe_write),
         Event.sys_execvp "ls" ["ls"] true])),
       (2, Child.running "wc" ["wc"] (Proc.mk
        [none, some (FileRef.inherited 1), some (FileRef.inherited 2), none] "/home"
        [Event.sys_close 3 (some FileRef.pipe_write),
         Event.sys_dup2 0 0 (some FileRef.pipe_read),
         Event.sys_close 0 (some FileRef.pipe_read),
         Event.sys_open "in.txt" 0,
         Event.sys_dup2 0 0 (some (FileRef.file_rdonly "in.txt")),
         Event.sys_close 0 (some (FileRef.file_rdonly "in.txt")),
         Event.sys_execvp "wc" ["wc"] true]))] := by
  decide

/-- C4 (amended): in the two-stage case, when the pipe and both children are
created and the pipe descriptors are distinct from the standard descriptors,
redirection is applied after the pipe wiring and overrides it. For a left
stage whose last output operator is followed by a filename token (not the
input operator) whose file opens for writing, and whose input operator, if
there is one, is handled without failure (its last occurrence is followed by
a file that opens for reading), standard output refers to that file when the
command starts and no descriptor of the child refers to the pipe's write end.
For a right stage whose last input operator is followed by a file that opens
for reading, standard input refers to that file and no descriptor refers to
the pipe's read end. -/
theorem C4_redirection_overrides_pipe (w : World) (p : Proc) (args : Argv) (i : Nat)
    (hpipe : w.pipe_ok = true) (hf0 : w.fork_ok 0 = true) (hf1 : w.fork_ok 1 = true)
    (hidx : find_pipe args = (i : Int))
    (hfds : 2 < (sys_pipe p).2.1 ∧ 2 < (sys_pipe p).2.2)
    (hnew : no_pipe p.fds) :
    ∃ (parent : Proc) (left right : Child),
      exec_with_redirection_and_pipe w p args = (parent, [(1, left), (2, right)]) ∧
      (∀ pre f post, cvec (left_cmd args i) = pre ++ ">" :: f :: post → ">" ∉ f :: post →
        f ≠ "<" → w.can_write f = true →
        ("<" ∉ cvec (left_cmd args i) ∨
          ∃ pre2 g post2, cvec (left_cmd args i) = pre2 ++ "<" :: g :: post2 ∧
            "<" ∉ g :: post2 ∧ w.can_read g = true) →
        fd_get left.proc.fds STDOUT_FILENO = some (FileRef.file_wronly f) ∧
        ∀ x, fd_get left.proc.fds x ≠ some FileRef.pipe_write) ∧
      (∀ pre f post, cvec (right_cmd args i) = pre ++ "<" :: f :: post → "<" ∉ f :: post →
        w.can_read f = true →
        fd_get right.proc.fds STDIN_FILENO = some (FileRef.file_rdonly f) ∧
        ∀ x, fd_get right.proc.fds x ≠ some FileRef.pipe_read) := by
  have h1 : 1 ≠ (sys_pipe p).2.1 ∧ 1 ≠ (sys_pipe p).2.2 := ⟨by omega, by omega⟩
  have h0 : 0 ≠ (sys_pipe p).2.1 ∧ 0 ≠ (sys_pipe p).2.2 := ⟨by omega, by omega⟩
  obtain ⟨_, l2, _, _⟩ := left_child_discipline w p args i h1 hnew
  obtain ⟨_, r2, _, _⟩ := right_child_discipline w p args i h0 hnew
  refine ⟨_, _, _, exec_pipeline_eq w p args i hpipe hf0 hf1 hidx, ?_, ?_⟩
  · intro pre f post hv hlast hf hw hin
    have hout : fd_get (left_child w (sys_pipe p).1 (sys_pipe p).2.1 (sys_pipe p).2.2
        args i).proc.fds STDOUT_FILENO = some (FileRef.file_wronly f) := by
      unfold left_child
      rw [run_stage_fds]
      apply handle_redirection_stdout w _ _ pre post f hv hlast hf hw _ hin
      rw [left_wiring_fds p h1]
      simp
    refine ⟨hout, ?_⟩
    intro x hx
    have := l2 x hx
    subst this
    rw [show (1 : Nat) = STDOUT_FILENO from rfl, hout] at hx
    simp at hx
  · intro pre f post hv hlast hr
    have hin : fd_get (right_child w (sys_pipe p).1 (sys_pipe p).2.1 (sys_pipe p).2.2
        args i).proc.fds STDIN_FILENO = some (FileRef.file_rdonly f) := by
      unfold right_child
      rw [run_stage_fds]
      apply handle_redirection_stdin w _ _ pre post f hv hlast hr
      rw [right_wiring_fds p h0]
      simp
    refine ⟨hin, ?_⟩
    intro x hx
    have := r2 x hx
    subst this
    rw [show (0 : Nat) = STDIN_FILENO from rfl, hin] at hx
    simp at hx

/-- C4, instance: `ls > out.txt | wc < in.txt` in the demonstration world. -/
theorem C4_redirection_overrides_pipe_witness :
    ∃ (parent : Proc) (left right : Child),
      exec_with_redirection_and_pipe demo_world demo_proc
        (argv_of ["ls", ">", "out.txt", "|", "wc", "<", "in.txt"]) =
        (parent, [(1, left), (2, right)]) ∧
      (fd_get left.proc.fds STDOUT_FILENO = some (FileRef.file_wronly "out.txt") ∧
        ∀ x, fd_get left.proc.fds x ≠ some FileRef.pipe_write) ∧
      (fd_get right.proc.fds STDIN_FILENO = some (FileRef.file_rdonly "in.txt") ∧
        ∀ x, fd_get right.proc.fds x ≠ some FileRef.pipe_read) := by
  obtain ⟨parent, left, right, h, hl, hr⟩ :=
    C4_redirection_overrides_pipe demo_world demo_proc
      (argv_of ["ls", ">", "out.txt", "|", "wc", "<", "in.txt"]) 3
      rfl rfl rfl (by decide) (by decide) demo_proc_no_pipe
  exact ⟨parent, left, right, h,
    hl ["ls"] "out.txt" [] (by decide) (by decide) (by decide) (by decide)
      (Or.inl (by decide)),
    hr ["wc"] "in.txt" [] (by decide) (by decide) (by decide)⟩

/-! ## Vectors in which the operators occur once -/

theorem split_at_index (l : List String) (k : Nat) (a : String) (h : l[k]? = some a) :
    l = l.take k ++ a :: l.drop (k + 1) ∧ (l.take k).length = k := by
  obtain ⟨hk, ha⟩ := List.getElem?_eq_some.mp h
  constructor
  · have h1 : l.drop k = a :: l.drop (k + 1) := by
      rw [List.drop_eq_getElem_cons hk, ha]
    rw [← h1, List.take_append_drop]
  · rw [List.length_take]
    omega

theorem not_mem_take_once (l : List String) (a : String) (k n : Nat) (hk : l[k]? = some a)
    (honce : ∀ i j : Nat, l[i]? = some a → l[j]? = some a → i = j) (hn : n ≤ k) :
    a ∉ l.take n := by
  intro hmem
  obtain ⟨i, hi⟩ := List.mem_iff_getElem?.mp hmem
  rw [List.getElem?_take] at hi
  by_cases hlt : i < n
  · rw [if_pos hlt] at hi
    have := honce i k hi hk
    omega
  · rw [if_neg hlt] at hi
    simp at hi

theorem not_mem_drop_once (l : List String) (a : String) (k : Nat) (hk : l[k]? = some a)
    (honce : ∀ i j : Nat, l[i]? = some a → l[j]? = some a → i = j) :
    a ∉ l.drop (k + 1) := by
  intro hmem
  obtain ⟨i, hi⟩ := List.mem_iff_getElem?.mp hmem
  rw [List.getElem?_drop] at hi
  have := honce (k + 1 + i) k hi hk
  omega

/-- The scan finds an input operator that occurs once. -/
theorem scan_redirect_in_once (args : Argv) (k : Nat) (hk : (cvec args)[k]? = some "<")
    (honce : ∀ i j : Nat, (cvec args)[i]? = some "<" → (cvec args)[j]? = some "<" → i = j) :
    (scan_redirect args 0 (-1, -1)).1 = ((k : Nat) : Int) := by
  obtain ⟨hsplit, hlen⟩ := split_at_index (cvec args) k "<" hk
  rw [scan_redirect_in_last _ _ args 0 _ hsplit (not_mem_drop_once _ _ k hk honce), hlen]
  simp

/-- The scan finds an output operator that occurs once. -/
theorem scan_redirect_out_once (args : Argv) (k : Nat) (hk : (cvec args)[k]? = some ">")
    (honce : ∀ i j : Nat, (cvec args)[i]? = some ">" → (cvec args)[j]? = some ">" → i = j) :
    (scan_redirect args 0 (-1, -1)).2 = ((k : Nat) : Int) := by
  obtain ⟨hsplit, hlen⟩ := split_at_index (cvec args) k ">" hk
  rw [scan_redirect_out_last _ _ args 0 _ hsplit (not_mem_drop_once _ _ k hk honce), hlen]
  simp

theorem arg_at_of_getElem? (args : Argv) (k : Nat) (f : String)
    (h : (cvec args)[k]? = some f) : arg_at args k = some f := by
  obtain ⟨hk, _⟩ := List.getElem?_eq_some.mp h
  rw [arg_at_eq_cvec args k (Nat.le_of_lt hk), h]

/-- C8 (counterexample): an operator that is the last token, an operator that
occurs twice, and an output operator directly followed by the input operator
each leave an operator in the vector that reaches the builtin check and
`execvp`. -/
theorem C8_operator_stays_in_vector :
    cvec (handle_redirection demo_world demo_proc (argv_of ["a", "<"])).2 = ["a", "<"] ∧
    cvec (handle_redirection demo_world demo_proc
      (argv_of ["a", "<", "f", "<", "g"])).2 = ["a", "<", "f"] ∧
    cvec (handle_redirection demo_world demo_proc
      (argv_of ["a", ">", "<", "f"])).2 = ["a", ">"] ∧
    run_stage demo_world demo_proc (argv_of ["a", "<", "f", "<", "g"]) =
      Child.running "a" ["a", "<", "f"] (Proc.mk
        [some (FileRef.file_rdonly "g"), some (FileRef.inherited 1),
         some (FileRef.inherited 2), none] "/home"
        [Event.sys_open "g" 3, Event.sys_dup2 3 0 (some (FileRef.file_rdonly "g")),
         Event.sys_close 3 (some (FileRef.file_rdonly "g")),
         Event.sys_execvp "a" ["a", "<", "f"] true]) := by
  decide

/-- C8 (amended): when each of the two operators occurs at most once in a
stage vector, each occurrence is immediately followed by a token, the token
after the output operator is not the input operator, and the files so named
open, the vector `handle_redirection` leaves for `is_builtin` and `execvp`
contains no token equal to either operator. -/
theorem C8_redirection_free_when_single (w : World) (p : Proc) (args : Argv)
    (hin_once : ∀ i j : Nat, (cvec args)[i]? = some "<" → (cvec args)[j]? = some "<" → i = j)
    (hout_once : ∀ i j : Nat, (cvec args)[i]? = some ">" → (cvec args)[j]? = some ">" → i = j)
    (hin_file : ∀ i : Nat, (cvec args)[i]? = some "<" →
      ∃ f, (cvec args)[i + 1]? = some f ∧ w.can_read f = true)
    (hout_file : ∀ i : Nat, (cvec args)[i]? = some ">" →
      ∃ f, (cvec args)[i + 1]? = some f ∧ f ≠ "<" ∧ w.can_write f = true) :
    "<" ∉ cvec (handle_redirection w p args).2 ∧
    ">" ∉ cvec (handle_redirection w p args).2 := by
  by_cases hI : "<" ∈ cvec args
  · obtain ⟨k, hk⟩ := List.mem_iff_getElem?.mp hI
    obtain ⟨f, hf, hr⟩ := hin_file k hk
    have hi := scan_redirect_in_once args k hk hin_once
    rw [handle_redirection_in_ok w p args k f hi (arg_at_of_getElem? args (k + 1) f hf) hr]
    by_cases hO : ">" ∈ cvec args
    · obtain ⟨m, hm⟩ := List.mem_iff_getElem?.mp hO
      obtain ⟨g, hg, hgne, hw⟩ := hout_file m hm
      have ho := scan_redirect_out_once args m hm hout_once
      have hne : m + 1 ≠ k := by
        intro e
        rw [e, hk] at hg
        exact hgne (Option.some.inj hg).symm
      have hfile : arg_at (args.set k none) (m + 1) = some g := by
        rw [arg_at_set_none, if_neg hne]
        exact arg_at_of_getElem? args (m + 1) g hg
      rw [ho, redirect_output_ok w _ _ m g hfile hw, cvec_set_none, cvec_set_none,
        List.take_take]
      exact ⟨not_mem_take_once _ _ k _ hk hin_once (Nat.min_le_right _ _),
        not_mem_take_once _ _ m _ hm hout_once (Nat.min_le_left _ _)⟩
    · have ho : (scan_redirect args 0 (-1, -1)).2 = -1 := scan_redirect_out_none args 0 _ hO
      rw [ho, redirect_output_none, cvec_set_none]
      exact ⟨not_mem_take_once _ _ k _ hk hin_once (Nat.le_refl _),
        fun h => hO (List.mem_of_mem_take h)⟩
  · have hi : (scan_redirect args 0 (-1, -1)).1 = -1 := scan_redirect_in_none args 0 _ hI
    rw [handle_redirection_in_none w p args hi]
    by_cases hO : ">" ∈ cvec args
    · obtain ⟨m, hm⟩ := List.mem_iff_getElem?.mp hO
      obtain ⟨g, hg, _, hw⟩ := hout_file m hm
      have ho := scan_redirect_out_once args m hm hout_once
      rw [ho, redirect_output_ok w _ _ m g (arg_at_of_getElem? args (m + 1) g hg) hw,
        cvec_set_none]
      exact ⟨fun h => hI (List.mem_of_mem_take h),
        not_mem_take_once _ _ m _ hm hout_once (Nat.le_refl _)⟩
    · have ho : (scan_redirect args 0 (-1, -1)).2 = -1 := scan_redirect_out_none args 0 _ hO
      rw [ho, redirect_output_none]
      exact ⟨hI, hO⟩

/-- The positions of the tokens of `sort < in.txt > out.txt`. -/
theorem demo_vector_index (i : Nat) (a : String)
    (h : (cvec (argv_of ["sort", "<", "in.txt", ">", "out.txt"]))[i]? = some a) :
    (i = 0 ∧ a = "sort") ∨ (i = 1 ∧ a = "<") ∨ (i = 2 ∧ a = "in.txt") ∨
    (i = 3 ∧ a = ">") ∨ (i = 4 ∧ a = "out.txt") := by
  rw [cvec_argv_of] at h
  rcases i with _ | _ | _ | _ | _ | i <;> simp at h <;> simp [h.symm]

/-- C8, instance: the amended statement at `sort < in.txt > out.txt`. -/
theorem C8_redirection_free_when_single_witness :
    "<" ∉ cvec (handle_redirection demo_world demo_proc
      (argv_of ["sort", "<", "in.txt", ">", "out.txt"])).2 ∧
    ">" ∉ cvec (handle_redirection demo_world demo_proc
      (argv_of ["sort", "<", "in.txt", ">", "out.txt"])).2 :=
  C8_redirection_free_when_single demo_world demo_proc
    (argv_of ["sort", "<", "in.txt", ">", "out.txt"])
    (fun i j hi hj => by
      rcases demo_vector_index i "<" hi with h | h | h | h | h <;>
      rcases demo_vector_index j "<" hj with h2 | h2 | h2 | h2 | h2 <;>
      first
        | (exact absurd h.2 (by decide))
        | (exact absurd h2.2 (by decide))
        | (rw [h.1, h2.1]))
    (fun i j hi hj => by
      rcases demo_vector_index i ">" hi with h | h | h | h | h <;>
      rcases demo_vector_index j ">" hj with h2 | h2 | h2 | h2 | h2 <;>
      first
        | (exact absurd h.2 (by decide))
        | (exact absurd h2.2 (by decide))
        | (rw [h.1, h2.1]))
    (fun i hi => by
      rcases demo_vector_index i "<" hi with h | h | h | h | h <;>
      first
        | (exact absurd h.2 (by decide))
        | (rw [h.1]; exact ⟨"in.txt", by rw [cvec_argv_of]; rfl, by decide⟩))
    (fun i hi => by
      rcases demo_vector_index i ">" hi with h | h | h | h | h <;>
      first
        | (exact absurd h.2 (by decide))
        | (rw [h.1]; exact ⟨"out.txt", by rw [cvec_argv_of]; rfl, by decide, by decide⟩))

/-! ## A missing filename -/

theorem ran_command_run_command (w : World) (p q : Proc) (args : Argv) (a : String)
    (ev : List Event) (hq : q.trace = p.trace ++ ev) (ha : arg_at args 0 = some a) :
    ran_command p (run_command w q args) = true := by
  obtain ⟨e, rest, h1, h2, _⟩ := run_command_runs w q args a ha
  unfold ran_command
  rw [h1, hq, List.append_assoc, List.drop_left]
  simp [h2]

theorem arg_at_end (args : Argv) : arg_at args (cvec args).length = none := by
  rw [arg_at_eq_cvec args _ (Nat.le_refl _)]
  simp

theorem arg_at_zero_of_cons (args : Argv) (a : String) (l : List String)
    (h : cvec args = a :: l) : arg_at args 0 = some a := by
  rw [arg_at_eq_cvec args 0 (Nat.zero_le _), h]
  simp

/-- C9 (counterexample): on `cmd < missing >` the last output operator is the
final token, but `handle_redirection` returns at the failed `open` of the
input file and never reports the missing filename; on `< f >` the missing
filename is reported but the vector is left empty and no command is run. -/
theorem C9_missing_filename_not_reported :
    handle_redirection demo_world demo_proc (argv_of ["cmd", "<", "missing", ">"]) =
      (Proc.mk demo_fds "/home"
        [Event.sys_open "missing" (-1), Event.report Report.perror_open_input],
       argv_of ["cmd", "<", "missing", ">"]) ∧
    Event.report Report.expected_file_after_out ∉
      (handle_redirection demo_world demo_proc
        (argv_of ["cmd", "<", "missing", ">"])).1.trace ∧
    run_stage demo_world demo_proc (argv_of ["<", "f", ">"]) =
      Child.crashed (Proc.mk
        [some (FileRef.file_rdonly "f"), some (FileRef.inherited 1),
         some (FileRef.inherited 2), none] "/home"
        [Event.sys_open "f" 3, Event.sys_dup2 3 0 (some (FileRef.file_rdonly "f")),
         Event.sys_close 3 (some (FileRef.file_rdonly "f")),
         Event.report Report.expected_file_after_out]) ∧
    ran_command demo_proc (run_stage demo_world demo_proc (argv_of ["<", "f", ">"])) = false := by
  decide

/-- C9 (amended): when the last input operator of a stage vector is its final
token, `handle_redirection` reports the missing filename, opens no file,
leaves every descriptor as it was and the stage's command is still run on the
unchanged vector. When the last output operator is the final token and the
vector either has no input operator, or its last input operator is not the
first token and is followed by a file that opens for reading, the missing
filename is reported, no file is opened for the output operator, standard
output keeps its binding and the stage's command is still run. -/
theorem C9_missing_filename_reported (w : World) (p : Proc) (args : Argv) :
    (∀ pre : List String, cvec args = pre ++ ["<"] →
      handle_redirection w p args =
        (p.emit (Event.report Report.expected_file_after_in), args) ∧
      ran_command p (run_stage w p args) = true) ∧
    (∀ pre : List String, cvec args = pre ++ [">"] → "<" ∉ pre →
      handle_redirection w p args =
        (p.emit (Event.report Report.expected_file_after_out), args) ∧
      ran_command p (run_stage w p args) = true) ∧
    (∀ (pre post : List String) (f : String), cvec args = pre ++ "<" :: post ++ [">"] →
      "<" ∉ post → pre ≠ [] → (cvec args)[pre.length + 1]? = some f →
      w.can_read f = true →
      handle_redirection w p args =
        ((open_dup_close p (FileRef.file_rdonly f) f STDIN_FILENO).emit
          (Event.report Report.expected_file_after_out), args.set pre.length none) ∧
      fd_get (handle_redirection w p args).1.fds STDOUT_FILENO = fd_get p.fds STDOUT_FILENO ∧
      ran_command p (run_stage w p args) = true) := by
  refine ⟨?_, ?_, ?_⟩
  · intro pre hv
    have hi : (scan_redirect args 0 (-1, -1)).1 = ((pre.length : Nat) : Int) := by
      rw [scan_redirect_in_last pre [] args 0 _ hv (by simp)]
      simp
    have hend : arg_at args (pre.length + 1) = none := by
      have := arg_at_end args
      rw [hv] at this
      simpa using this
    have hr := handle_redirection_in_missing w p args pre.length hi hend
    refine ⟨hr, ?_⟩
    have h0 : ∃ a, arg_at args 0 = some a := by
      cases pre with
      | nil => exact ⟨"<", arg_at_zero_of_cons args "<" [] hv⟩
      | cons t ts => exact ⟨t, arg_at_zero_of_cons args t (ts ++ ["<"]) hv⟩
    obtain ⟨a, ha⟩ := h0
    unfold run_stage
    rw [hr]
    exact ran_command_run_command w p _ args a _ rfl ha
  · intro pre hv hno
    have hi : (scan_redirect args 0 (-1, -1)).1 = -1 := by
      apply scan_redirect_in_none
      rw [hv]
      simp only [List.mem_append, List.mem_singleton, not_or]
      exact ⟨hno, by decide⟩
    have ho : (scan_redirect args 0 (-1, -1)).2 = ((pre.length : Nat) : Int) := by
      rw [scan_redirect_out_last pre [] args 0 _ hv (by simp)]
      simp
    have hend : arg_at args (pre.length + 1) = none := by
      have := arg_at_end args
      rw [hv] at this
      simpa using this
    have hr : handle_redirection w p args =
        (p.emit (Event.report Report.expected_file_after_out), args) := by
      rw [handle_redirection_in_none w p args hi, ho,
        redirect_output_missing w p args pre.length hend]
    refine ⟨hr, ?_⟩
    have h0 : ∃ a, arg_at args 0 = some a := by
      cases pre with
      | nil => exact ⟨">", arg_at_zero_of_cons args ">" [] hv⟩
      | cons t ts => exact ⟨t, arg_at_zero_of_cons args t (ts ++ [">"]) hv⟩
    obtain ⟨a, ha⟩ := h0
    unfold run_stage
    rw [hr]
    exact ran_command_run_command w p _ args a _ rfl ha
  · intro pre post f hv hno hpre hf hread
    have hv1 : cvec args = pre ++ "<" :: (post ++ [">"]) := by
      rw [hv]; simp
    have hv2 : cvec args = (pre ++ "<" :: post) ++ ">" :: [] := by
      rw [hv]
    have hi : (scan_redirect args 0 (-1, -1)).1 = ((pre.length : Nat) : Int) := by
      rw [scan_redirect_in_last pre (post ++ [">"]) args 0 _ hv1
        (by simp only [List.mem_append, List.mem_singleton, not_or]; exact ⟨hno, by decide⟩)]
      simp
    have ho : (scan_redirect args 0 (-1, -1)).2 = (((pre ++ "<" :: post).length : Nat) : Int) := by
      rw [scan_redirect_out_last (pre ++ "<" :: post) [] args 0 _ hv2 (by simp)]
      simp
    have hend : arg_at (args.set pre.length none) ((pre ++ "<" :: post).length + 1) = none := by
      rw [arg_at_set_none]
      split
      · rfl
      · have := arg_at_end args
        rw [hv2] at this
        simpa using this
    have hr : handle_redirection w p args =
        ((open_dup_close p (FileRef.file_rdonly f) f STDIN_FILENO).emit
          (Event.report Report.expected_file_after_out), args.set pre.length none) := by
      rw [handle_redirection_in_ok w p args pre.length f hi
        (arg_at_of_getElem? args _ f hf) hread, ho,
        redirect_output_missing w _ _ _ hend]
    refine ⟨hr, ?_, ?_⟩
    · rw [hr]
      exact open_dup_close_fds_other p _ f STDIN_FILENO STDOUT_FILENO (by decide)
    · cases pre with
      | nil => exact absurd rfl hpre
      | cons t ts =>
        have ha : arg_at (args.set (t :: ts).length none) 0 = some t := by
          rw [arg_at_set_none, if_neg (by simp)]
          exact arg_at_zero_of_cons args t _ hv1
        unfold run_stage
        rw [hr]
        refine ran_command_run_command w p _ _ t
          ([Event.sys_open f (fd_lowest_free p.fds),
            Event.sys_dup2 (fd_lowest_free p.fds) STDIN_FILENO (some (FileRef.file_rdonly f)),
            Event.sys_close (fd_lowest_free p.fds) (some (FileRef.file_rdonly f))] ++
            [Event.report Report.expected_file_after_out]) ?_ ha
        rw [emit_trace, open_dup_close_trace, List.append_assoc]

/-- C9, instance: the three cases at `cmd <`, `cmd >` and `cmd < in.txt >`. -/
theorem C9_missing_filename_reported_witness :
    (handle_redirection demo_world demo_proc (argv_of ["cmd", "<"]) =
        (demo_proc.emit (Event.report Report.expected_file_after_in), argv_of ["cmd", "<"]) ∧
      ran_command demo_proc (run_stage demo_world demo_proc (argv_of ["cmd", "<"])) = true) ∧
    (handle_redirection demo_world demo_proc (argv_of ["cmd", ">"]) =
        (demo_proc.emit (Event.report Report.expected_file_after_out), argv_of ["cmd", ">"]) ∧
      ran_command demo_proc (run_stage demo_world demo_proc (argv_of ["cmd", ">"])) = true) ∧
    (handle_redirection demo_world demo_proc (argv_of ["cmd", "<", "in.txt", ">"]) =
        ((open_dup_close demo_proc (FileRef.file_rdonly "in.txt") "in.txt" STDIN_FILENO).emit
          (Event.report Report.expected_file_after_out),
         (argv_of ["cmd", "<", "in.txt", ">"]).set 1 none) ∧
      fd_get (handle_redirection demo_world demo_proc
        (argv_of ["cmd", "<", "in.txt", ">"])).1.fds STDOUT_FILENO
        = fd_get demo_proc.fds STDOUT_FILENO ∧
      ran_command demo_proc
        (run_stage demo_world demo_proc (argv_of ["cmd", "<", "in.txt", ">"])) = true) :=
  ⟨(C9_missing_filename_reported demo_world demo_proc (argv_of ["cmd", "<"])).1
      ["cmd"] (by decide),
   (C9_missing_filename_reported demo_world demo_proc (argv_of ["cmd", ">"])).2.1
      ["cmd"] (by decide) (by decide),
   (C9_missing_filename_reported demo_world demo_proc
      (argv_of ["cmd", "<", "in.txt", ">"])).2.2
      ["cmd"] ["in.txt"] "in.txt" (by decide) (by decide) (by decide) (by decide) (by decide)⟩

/-! ## The interpreter loop: proofs -/

theorem strtok_all_delim (l : List Char) (h : ∀ c ∈ l, is_delim c = true) :
    strtok l = (none, []) := by
  have : l.dropWhile is_delim = [] := List.dropWhile_eq_nil_iff.mpr h
  simp [strtok, this]

theorem parse_line_all_delim (line : String) (h : ∀ c ∈ line.data, is_delim c = true) :
    parse_line line = (0, argv_of []) := by
  simp [parse_line, parse_line_tokens, strtok_all_delim line.data h, parse_line_loop, MAX_ARGS]

theorem main_args_all_delim (raw : String) (h : ∀ c ∈ raw.data, is_delim c = true) :
    main_args raw = argv_of [] := by
  unfold main_args
  rw [parse_line_all_delim]
  intro c hc
  exact h c ((List.takeWhile_sublist _).subset hc)

/-- A line from which `main` gets no token goes back to the prompt. -/
theorem main_iteration_blank (w : World) (p : Proc) (raw : String)
    (h : arg_at (main_args raw) 0 = none) :
    main_iteration w p (some raw) = Step.next p [] := by
  unfold main_args at h
  unfold main_iteration
  simp only []
  split
  · rfl
  · rw [h]

/-- A line with a first token is dispatched on that token. -/
theorem main_iteration_dispatch (w : World) (p : Proc) (raw : String) (a0 : String)
    (h : arg_at (main_args raw) 0 = some a0) :
    main_iteration w p (some raw) =
      if a0 = "exit" then Step.leave p
      else Step.next (exec_with_redirection_and_pipe w p (main_args raw)).1
        (exec_with_redirection_and_pipe w p (main_args raw)).2 := by
  have hlen : ¬ (String.mk (raw.data.takeWhile (fun c => c != Char.ofNat 10))).length = 0 := by
    intro h0
    have hd : raw.data.takeWhile (fun c => c != Char.ofNat 10) = [] :=
      List.length_eq_zero.mp h0
    unfold main_args at h
    rw [hd] at h
    simp [parse_line, parse_line_tokens, strtok, parse_line_loop, argv_of, arg_at] at h
  unfold main_args at h
  unfold main_iteration main_args
  simp only [hlen, if_false, h]

/-- C13: when the first token of the line is exactly `exit`, whatever follows
it, the loop of `main` is left at once, `main` returns status 0, and no
process is created (the interpreter's state and trace are unchanged); and
`exec_builtin` on any vector whose first token is `exit` ends the process
with status 0 instead of returning. -/
theorem C13_exit_terminates_with_success (w : World) (p : Proc) (raw : String)
    (rest : List String) (h : cvec (main_args raw) = "exit" :: rest) :
    main_iteration w p (some raw) = Step.leave p ∧
    main_return (main_iteration w p (some raw)) = some 0 ∧
    (∀ (q : Proc) (args : Argv), arg_at args 0 = some "exit" →
      exec_builtin w q args = Flow.exit 0 q) := by
  have h0 : arg_at (main_args raw) 0 = some "exit" := arg_at_zero_of_cons _ _ _ h
  have hm : main_iteration w p (some raw) = Step.leave p := by
    rw [main_iteration_dispatch w p raw "exit" h0]
    simp
  refine ⟨hm, by rw [hm]; rfl, ?_⟩
  intro q args ha
  have hne : ¬ ("exit" : String) = "cd" := by decide
  simp [exec_builtin, ha, hne]

/-- C13, instance: the line `exit now please`. -/
theorem C13_exit_terminates_with_success_witness :
    main_iteration demo_world demo_proc (some "exit now please\n") = Step.leave demo_proc ∧
    main_return (main_iteration demo_world demo_proc (some "exit now please\n")) = some 0 ∧
    (∀ (q : Proc) (args : Argv), arg_at args 0 = some "exit" →
      exec_builtin demo_world q args = Flow.exit 0 q) :=
  C13_exit_terminates_with_success demo_world demo_proc "exit now please\n"
    ["now", "please"] (by decide)

/-- C14: for a `cd` invocation of `exec_builtin`, a missing path argument is
reported without any `chdir` call, and a failing `chdir` is reported with the
OS error; in both cases the working directory is unchanged and the call
returns (value 1) instead of ending the process. -/
theorem C14_cd_failure_keeps_directory (w : World) (p : Proc) (args : Argv)
    (h : arg_at args 0 = some "cd") :
    (arg_at args 1 = none →
      exec_builtin w p args = Flow.ret 1 (p.emit (Event.report Report.cd_expected_argument)) ∧
      (exec_builtin w p args).proc.cwd = p.cwd) ∧
    (∀ path, arg_at args 1 = some path → w.chdir p.cwd path = none →
      exec_builtin w p args =
        Flow.ret 1 ((p.emit (Event.sys_chdir path false)).emit (Event.report Report.perror_cd)) ∧
      (exec_builtin w p args).proc.cwd = p.cwd) := by
  constructor
  · intro h1
    have he : exec_builtin w p args =
        Flow.ret 1 (p.emit (Event.report Report.cd_expected_argument)) := by
      simp [exec_builtin, h, h1]
    exact ⟨he, by rw [he]; rfl⟩
  · intro path h1 hfail
    have he : exec_builtin w p args =
        Flow.ret 1 ((p.emit (Event.sys_chdir path false)).emit
          (Event.report Report.perror_cd)) := by
      simp [exec_builtin, h, h1, hfail]
    exact ⟨he, by rw [he]; rfl⟩

/-- C14, instance: `cd` alone and `cd /nope` in the demonstration world. -/
theorem C14_cd_failure_keeps_directory_witness :
    (exec_builtin demo_world demo_proc (argv_of ["cd"]) =
        Flow.ret 1 (demo_proc.emit (Event.report Report.cd_expected_argument)) ∧
      (exec_builtin demo_world demo_proc (argv_of ["cd"])).proc.cwd = demo_proc.cwd) ∧
    (exec_builtin demo_world demo_proc (argv_of ["cd", "/nope"]) =
        Flow.ret 1 ((demo_proc.emit (Event.sys_chdir "/nope" false)).emit
          (Event.report Report.perror_cd)) ∧
      (exec_builtin demo_world demo_proc (argv_of ["cd", "/nope"])).proc.cwd = demo_proc.cwd) :=
  ⟨(C14_cd_failure_keeps_directory demo_world demo_proc (argv_of ["cd"]) (by decide)).1
      (by decide),
   (C14_cd_failure_keeps_directory demo_world demo_proc (argv_of ["cd", "/nope"])
      (by decide)).2 "/nope" (by decide) (by decide)⟩

/-- C16: for a line made only of spaces, tabs, carriage returns and newlines
(the empty line included) tokenization yields the empty sequence, and the
loop of `main` goes on to the next prompt with the interpreter unchanged: no
child, no pipe, no report. -/
theorem C16_blank_line_does_nothing (w : World) (p : Proc) (raw : String)
    (h : ∀ c ∈ raw.data, c ∈ DELIM) :
    parse_line raw = (0, argv_of []) ∧
    cvec (main_args raw) = [] ∧
    main_iteration w p (some raw) = Step.next p [] := by
  have hd : ∀ c ∈ raw.data, is_delim c = true := by
    intro c hc
    simpa [is_delim] using h c hc
  have hm := main_args_all_delim raw hd
  refine ⟨parse_line_all_delim raw hd, by rw [hm]; rfl, ?_⟩
  apply main_iteration_blank
  rw [hm]
  rfl

/-- C16, instance: a line of two spaces, a tab and a newline. -/
theorem C16_blank_line_does_nothing_witness :
    parse_line "  \t\n" = (0, argv_of []) ∧
    cvec (main_args "  \t\n") = [] ∧
    main_iteration demo_world demo_proc (some "  \t\n") = Step.next demo_proc [] :=
  C16_blank_line_does_nothing demo_world demo_proc "  \t\n" (by decide)

/-- C17: on a vector with a first token, `is_builtin` returns 1 exactly when
that token equals `cd` or `exit` as a whole string, case-sensitively, and 0
otherwise, whatever the later tokens are; for every other first token
`exec_builtin` returns 0 and leaves the process state as it was. -/
theorem C17_is_builtin_exact_match (args : Argv) (a : String) (h : arg_at args 0 = some a) :
    (is_builtin args = some 1 ↔ (a = "cd" ∨ a = "exit")) ∧
    (is_builtin args = some 0 ↔ ¬ (a = "cd" ∨ a = "exit")) ∧
    (∀ args' : Argv, arg_at args' 0 = some a → is_builtin args' = is_builtin args) ∧
    (a ≠ "cd" → a ≠ "exit" → ∀ (w : World) (p : Proc), exec_builtin w p args = Flow.ret 0 p) ∧
    is_builtin (argv_of ["CD", "/tmp"]) = some 0 ∧
    is_builtin (argv_of ["cdx"]) = some 0 ∧
    is_builtin (argv_of ["Exit"]) = some 0 ∧
    is_builtin (argv_of ["exit", "7"]) = some 1 := by
  refine ⟨?_, ?_, ?_, ?_, by decide, by decide, by decide, by decide⟩
  · unfold is_builtin
    rw [h]
    by_cases h1 : a = "cd"
    · simp [h1]
    · by_cases h2 : a = "exit"
      · simp [h2]
      · simp [h1, h2]
  · unfold is_builtin
    rw [h]
    by_cases h1 : a = "cd"
    · simp [h1]
    · by_cases h2 : a = "exit"
      · simp [h2]
      · simp [h1, h2]
  · intro args' h'
    unfold is_builtin
    rw [h, h']
  · intro h1 h2 w p
    simp [exec_builtin, h, h1, h2]

/-- C17, instance: the vector `ls -l cd exit`. -/
theorem C17_is_builtin_exact_match_witness :
    (is_builtin (argv_of ["ls", "-l", "cd", "exit"]) = some 1 ↔
      (("ls" : String) = "cd" ∨ ("ls" : String) = "exit")) ∧
    (is_builtin (argv_of ["ls", "-l", "cd", "exit"]) = some 0 ↔
      ¬ (("ls" : String) = "cd" ∨ ("ls" : String) = "exit")) ∧
    (∀ args' : Argv, arg_at args' 0 = some "ls" →
      is_builtin args' = is_builtin (argv_of ["ls", "-l", "cd", "exit"])) ∧
    (("ls" : String) ≠ "cd" → ("ls" : String) ≠ "exit" → ∀ (w : World) (p : Proc),
      exec_builtin w p (argv_of ["ls", "-l", "cd", "exit"]) = Flow.ret 0 p) ∧
    is_builtin (argv_of ["CD", "/tmp"]) = some 0 ∧
    is_builtin (argv_of ["cdx"]) = some 0 ∧
    is_builtin (argv_of ["Exit"]) = some 0 ∧
    is_builtin (argv_of ["exit", "7"]) = some 1 :=
  C17_is_builtin_exact_match (argv_of ["ls", "-l", "cd", "exit"]) "ls" (by decide)

/-- C19 (counterexample): with the relative path `..`, starting in `/a/b`,
one `cd ..` ends in `/a` and two end in `/`. -/
theorem C19_cd_parent_twice_differs :
    (exec_builtin tree_world (Proc.mk demo_fds "/a/b" []) (argv_of ["cd", ".."])).proc.cwd
      = "/a" ∧
    (exec_builtin tree_world
      (exec_builtin tree_world (Proc.mk demo_fds "/a/b" []) (argv_of ["cd", ".."])).proc
      (argv_of ["cd", ".."])).proc.cwd = "/" ∧
    (exec_builtin tree_world
      (exec_builtin tree_world (Proc.mk demo_fds "/a/b" []) (argv_of ["cd", ".."])).proc
      (argv_of ["cd", ".."])).proc.cwd ≠
    (exec_builtin tree_world (Proc.mk demo_fds "/a/b" []) (argv_of ["cd", ".."])).proc.cwd := by
  decide

/-- C19 (amended): when the path argument, taken from the directory the first
change reaches, leads to that same directory again or cannot be entered (as
an absolute path does), running the `cd` builtin twice in a row leaves the
working directory identical to running it once; so does a `cd` whose first
change fails or whose path argument is missing. -/
theorem C19_cd_twice_same_as_once (w : World) (p : Proc) (args : Argv)
    (h0 : arg_at args 0 = some "cd")
    (hstable : ∀ path d, arg_at args 1 = some path → w.chdir p.cwd path = some d →
      w.chdir d path = some d ∨ w.chdir d path = none) :
    (exec_builtin w (exec_builtin w p args).proc args).proc.cwd =
      (exec_builtin w p args).proc.cwd := by
  cases h1 : arg_at args 1 with
  | none => simp [exec_builtin, h0, h1, Flow.proc, Proc.emit]
  | some path =>
    cases hc : w.chdir p.cwd path with
    | none => simp [exec_builtin, h0, h1, hc, Flow.proc, Proc.emit]
    | some d =>
      rcases hstable path d h1 hc with h2 | h2
      · simp [exec_builtin, h0, h1, hc, h2, Flow.proc, Proc.emit]
      · simp [exec_builtin, h0, h1, hc, h2, Flow.proc, Proc.emit]

/-- C19, instance: `cd /a` twice from `/a/b`. -/
theorem C19_cd_twice_same_as_once_witness :
    (exec_builtin tree_world
      (exec_builtin tree_world (Proc.mk demo_fds "/a/b" []) (argv_of ["cd", "/a"])).proc
      (argv_of ["cd", "/a"])).proc.cwd =
    (exec_builtin tree_world (Proc.mk demo_fds "/a/b" []) (argv_of ["cd", "/a"])).proc.cwd :=
  C19_cd_twice_same_as_once tree_world (Proc.mk demo_fds "/a/b" []) (argv_of ["cd", "/a"])
    (by decide)
    (fun path d h1 hc => by
      have hp : path = "/a" := by
        have : arg_at (argv_of ["cd", "/a"]) 1 = some "/a" := by decide
        rw [this] at h1
        exact (Option.some.inj h1).symm
      subst hp
      have hd : d = "/a" := by
        have : tree_world.chdir "/a/b" "/a" = some "/a" := by decide
        simp only [] at hc
        rw [this] at hc
        exact (Option.some.inj hc).symm
      subst hd
      exact Or.inl (by decide))

/-- C12 (counterexample): in a process whose standard output is closed,
`open` returns descriptor 1 itself, `dup2(1, 1)` changes nothing and
`close(1)` closes the file again: after `echo hi > out.txt` standard output
is closed, not bound to `out.txt`. The same happens to standard input in a
process whose standard input is closed. -/
theorem C12_closed_stream_stays_closed :
    demo_world.can_write "out.txt" = true ∧
    handle_redirection demo_world closed_stdout_proc (argv_of ["echo", "hi", ">", "out.txt"]) =
      (Proc.mk [some (FileRef.inherited 0), none, some (FileRef.inherited 2)] "/home"
        [Event.sys_open "out.txt" 1,
         Event.sys_dup2 1 1 (some (FileRef.file_wronly "out.txt")),
         Event.sys_close 1 (some (FileRef.file_wronly "out.txt"))],
       [some "echo", some "hi", none, some "out.txt", none]) ∧
    fd_get (handle_redirection demo_world closed_stdout_proc
      (argv_of ["echo", "hi", ">", "out.txt"])).1.fds STDOUT_FILENO = none ∧
    fd_get (handle_redirection demo_world closed_stdin_proc
      (argv_of ["cat", "<", "in.txt"])).1.fds STDIN_FILENO = none := by
  decide

/-- C12 (amended): for a stage whose only redirection operator is followed by
a filename whose file opens, in a process in which the standard stream
concerned is open when `handle_redirection` is called, afterwards that stream
(standard output for the output operator, standard input for the input
operator) refers to the file, opened write-only with create and truncate,
respectively read-only; every other descriptor has the binding it had, so the
table has no additional open entry; and the calls made are `open`, `dup2`
onto the stream, and `close` of the descriptor `open` returned. -/
theorem C12_single_redirection_frame (w : World) (p : Proc) (args : Argv)
    (pre post : List String) (op f : String)
    (hargs : cvec args = pre ++ op :: f :: post)
    (hop : op = "<" ∨ op = ">")
    (hrest : ∀ t ∈ pre ++ f :: post, t ≠ "<" ∧ t ≠ ">")
    (hin : op = "<" → w.can_read f = true ∧ fd_get p.fds STDIN_FILENO ≠ none)
    (hout : op = ">" → w.can_write f = true ∧ fd_get p.fds STDOUT_FILENO ≠ none) :
    (op = "<" →
      fd_get (handle_redirection w p args).1.fds STDIN_FILENO = some (FileRef.file_rdonly f) ∧
      (∀ x, x ≠ STDIN_FILENO →
        fd_get (handle_redirection w p args).1.fds x = fd_get p.fds x) ∧
      (handle_redirection w p args).1.trace = p.trace ++
        [Event.sys_open f (fd_lowest_free p.fds),
         Event.sys_dup2 (fd_lowest_free p.fds) STDIN_FILENO (some (FileRef.file_rdonly f)),
         Event.sys_close (fd_lowest_free p.fds) (some (FileRef.file_rdonly f))]) ∧
    (op = ">" →
      fd_get (handle_redirection w p args).1.fds STDOUT_FILENO = some (FileRef.file_wronly f) ∧
      (∀ x, x ≠ STDOUT_FILENO →
        fd_get (handle_redirection w p args).1.fds x = fd_get p.fds x) ∧
      (handle_redirection w p args).1.trace = p.trace ++
        [Event.sys_open f (fd_lowest_free p.fds),
         Event.sys_dup2 (fd_lowest_free p.fds) STDOUT_FILENO (some (FileRef.file_wronly f)),
         Event.sys_close (fd_lowest_free p.fds) (some (FileRef.file_wronly f))]) := by
  have hfile : arg_at args (pre.length + 1) = some f := arg_at_after args pre post op f hargs
  have hpre_in : "<" ∉ pre := fun h => (hrest "<" (List.mem_append_left _ h)).1 rfl
  have hpre_out : ">" ∉ pre := fun h => (hrest ">" (List.mem_append_left _ h)).2 rfl
  have hpost_in : "<" ∉ f :: post := fun h => (hrest "<" (List.mem_append_right _ h)).1 rfl
  have hpost_out : ">" ∉ f :: post := fun h => (hrest ">" (List.mem_append_right _ h)).2 rfl
  constructor
  · intro e
    subst e
    have hi : (scan_redirect args 0 (-1, -1)).1 = ((pre.length : Nat) : Int) := by
      rw [scan_redirect_in_last pre (f :: post) args 0 _ hargs hpost_in]
      simp
    have ho : (scan_redirect args 0 (-1, -1)).2 = -1 := by
      apply scan_redirect_out_none
      rw [hargs]
      simp only [List.mem_append, List.mem_cons, not_or]
      exact ⟨hpre_out, by decide, not_mem_cons_split _ _ _ hpost_out⟩
    rw [handle_redirection_in_ok w p args pre.length f hi hfile (hin rfl).1, ho,
      redirect_output_none]
    exact ⟨open_dup_close_fds_target p _ f _ (hin rfl).2,
      fun x hx => open_dup_close_fds_other p _ f _ x hx,
      open_dup_close_trace p _ f _⟩
  · intro e
    subst e
    have hi : (scan_redirect args 0 (-1, -1)).1 = -1 := by
      apply scan_redirect_in_none
      rw [hargs]
      simp only [List.mem_append, List.mem_cons, not_or]
      exact ⟨hpre_in, by decide, not_mem_cons_split _ _ _ hpost_in⟩
    have ho : (scan_redirect args 0 (-1, -1)).2 = ((pre.length : Nat) : Int) := by
      rw [scan_redirect_out_last pre (f :: post) args 0 _ hargs hpost_out]
      simp
    rw [handle_redirection_in_none w p args hi, ho,
      redirect_output_ok w p args pre.length f hfile (hout rfl).1]
    exact ⟨open_dup_close_fds_target p _ f _ (hout rfl).2,
      fun x hx => open_dup_close_fds_other p _ f _ x hx,
      open_dup_close_trace p _ f _⟩

/-- C12, instance: `echo hi > out.txt` in the demonstration process. -/
theorem C12_single_redirection_frame_witness :
    fd_get (handle_redirection demo_world demo_proc
      (argv_of ["echo", "hi", ">", "out.txt"])).1.fds STDOUT_FILENO
      = some (FileRef.file_wronly "out.txt") ∧
    (∀ x, x ≠ STDOUT_FILENO →
      fd_get (handle_redirection demo_world demo_proc
        (argv_of ["echo", "hi", ">", "out.txt"])).1.fds x = fd_get demo_proc.fds x) ∧
    (handle_redirection demo_world demo_proc
      (argv_of ["echo", "hi", ">", "out.txt"])).1.trace = demo_proc.trace ++
      [Event.sys_open "out.txt" (fd_lowest_free demo_proc.fds),
       Event.sys_dup2 (fd_lowest_free demo_proc.fds) STDOUT_FILENO
         (some (FileRef.file_wronly "out.txt")),
       Event.sys_close (fd_lowest_free demo_proc.fds)
         (some (FileRef.file_wronly "out.txt"))] :=
  (C12_single_redirection_frame demo_world demo_proc (argv_of ["echo", "hi", ">", "out.txt"])
    ["echo", "hi"] [] ">" "out.txt" (by decide) (by decide) (by decide)
    (fun h => absurd h (by decide)) (fun _ => ⟨by decide, by decide⟩)).2 rfl

/-! ## The first slot of a stage vector -/

theorem scan_redirect_points (args : Argv) (i : Nat) (r : Int × Int) :
    ((scan_redirect args i r).1 = r.1 ∨
      ∃ j : Nat, (scan_redirect args i r).1 = ((i + j : Nat) : Int) ∧
        arg_at args j = some "<") ∧
    ((scan_redirect args i r).2 = r.2 ∨
      ∃ j : Nat, (scan_redirect args i r).2 = ((i + j : Nat) : Int) ∧
        arg_at args j = some ">") := by
  induction args generalizing i r with
  | nil => simp [scan_redirect]
  | cons a rest ih =>
    obtain ⟨x, y⟩ := r
    cases a with
    | none => simp [scan_redirect]
    | some s =>
      simp only [scan_redirect]
      by_cases h1 : s = "<"
      · subst h1
        simp only [if_true]
        obtain ⟨ha, hb⟩ := ih (i + 1) ((i : Int), y)
        constructor
        · right
          rcases ha with ha | ⟨j, ha, hj⟩
          · exact ⟨0, by rw [ha]; simp, by simp [arg_at_cons_zero]⟩
          · exact ⟨j + 1, by rw [ha]; congr 1; omega, by rw [arg_at_cons_succ]; exact hj⟩
        · rcases hb with hb | ⟨j, hb, hj⟩
          · left; exact hb
          · right
            exact ⟨j + 1, by rw [hb]; congr 1; omega, by rw [arg_at_cons_succ]; exact hj⟩
      · simp only [h1, if_false]
        by_cases h2 : s = ">"
        · subst h2
          simp only [if_true]
          obtain ⟨ha, hb⟩ := ih (i + 1) (x, (i : Int))
          constructor
          · rcases ha with ha | ⟨j, ha, hj⟩
            · left; exact ha
            · right
              exact ⟨j + 1, by rw [ha]; congr 1; omega, by rw [arg_at_cons_succ]; exact hj⟩
          · right
            rcases hb with hb | ⟨j, hb, hj⟩
            · exact ⟨0, by rw [hb]; simp, by simp [arg_at_cons_zero]⟩
            · exact ⟨j + 1, by rw [hb]; congr 1; omega, by rw [arg_at_cons_succ]; exact hj⟩
        · simp only [h2, if_false]
          obtain ⟨ha, hb⟩ := ih (i + 1) (x, y)
          constructor
          · rcases ha with ha | ⟨j, ha, hj⟩
            · left; exact ha
            · right
              exact ⟨j + 1, by rw [ha]; congr 1; omega, by rw [arg_at_cons_succ]; exact hj⟩
          · rcases hb with hb | ⟨j, hb, hj⟩
            · left; exact hb
            · right
              exact ⟨j + 1, by rw [hb]; congr 1; omega, by rw [arg_at_cons_succ]; exact hj⟩

/-- The index the scan leaves for the input operator holds that operator. -/
theorem scan_redirect_in_slot (args : Argv) (k : Nat)
    (h : (scan_redirect args 0 (-1, -1)).1 = ((k : Nat) : Int)) :
    arg_at args k = some "<" := by
  rcases (scan_redirect_points args 0 (-1, -1)).1 with h1 | ⟨j, h1, hj⟩
  · rw [h] at h1
    simp only [] at h1
    omega
  · rw [h] at h1
    have : k = j := by omega
    rw [this]
    exact hj

/-- The index the scan leaves for the output operator holds that operator. -/
theorem scan_redirect_out_slot (args : Argv) (k : Nat)
    (h : (scan_redirect args 0 (-1, -1)).2 = ((k : Nat) : Int)) :
    arg_at args k = some ">" := by
  rcases (scan_redirect_points args 0 (-1, -1)).2 with h1 | ⟨j, h1, hj⟩
  · rw [h] at h1
    simp only [] at h1
    omega
  · rw [h] at h1
    have : k = j := by omega
    rw [this]
    exact hj

/-- The vector `redirect_output` leaves: unchanged, or cut at the index. -/
theorem redirect_output_args (w : World) (p : Proc) (args : Argv) (o : Int)
    (ho : o = -1 ∨ ∃ k : Nat, o = (k : Int)) :
    (redirect_output w p args o).2 = args ∨
    ∃ k : Nat, o = (k : Int) ∧ (redirect_output w p args o).2 = args.set k none := by
  rcases ho with rfl | ⟨k, rfl⟩
  · left; rw [redirect_output_none]
  · cases ha : arg_at args (k + 1) with
    | none => left; rw [redirect_output_missing w p args k ha]
    | some f =>
      cases hw : w.can_write f with
      | false => left; rw [redirect_output_fail w p args k f ha hw]
      | true => right; exact ⟨k, rfl, by rw [redirect_output_ok w p args k f ha hw]⟩

/-- The vector `handle_redirection` leaves is the original with `NULL` written
over the input operator, the output operator, both or neither. -/
theorem handle_redirection_args (w : World) (p : Proc) (args : Argv) :
    (handle_redirection w p args).2 = args ∨
    (∃ k : Nat, (arg_at args k = some "<" ∨ arg_at args k = some ">") ∧
      (handle_redirection w p args).2 = args.set k none) ∨
    (∃ k m : Nat, arg_at args k = some "<" ∧ arg_at args m = some ">" ∧
      (handle_redirection w p args).2 = (args.set k none).set m none) := by
  rcases handle_redirection_branches w p args with h | ⟨f, h⟩ | ⟨_, h⟩ | ⟨f, k, hk, h⟩
  · left; rw [h]
  · left; rw [h]
  · rcases redirect_output_args w p args _ (scan_out_range args) with h2 | ⟨m, hm, h2⟩
    · left; rw [h, h2]
    · right; left
      exact ⟨m, Or.inr (scan_redirect_out_slot args m hm), by rw [h, h2]⟩
  · have hks := scan_redirect_in_slot args k hk
    rcases redirect_output_args w (open_dup_close p (FileRef.file_rdonly f) f STDIN_FILENO)
      (args.set k none) _ (scan_out_range args) with h2 | ⟨m, hm, h2⟩
    · right; left
      exact ⟨k, Or.inl hks, by rw [h, h2]⟩
    · right; right
      exact ⟨k, m, hks, scan_redirect_out_slot args m hm, by rw [h, h2]⟩

/-- A first token that is not an operator is still the first token after
`handle_redirection`. -/
theorem handle_redirection_first_slot (w : World) (p : Proc) (args : Argv) (a : String)
    (h : arg_at args 0 = some a) (h1 : a ≠ "<") (h2 : a ≠ ">") :
    arg_at (handle_redirection w p args).2 0 = some a := by
  have hk : ∀ k : Nat, (arg_at args k = some "<" ∨ arg_at args k = some ">") → 0 ≠ k := by
    intro k hop e
    rw [← e, h] at hop
    rcases hop with hop | hop
    · exact h1 (Option.some.inj hop)
    · exact h2 (Option.some.inj hop)
  rcases handle_redirection_args w p args with e | ⟨k, hop, e⟩ | ⟨k, m, hop1, hop2, e⟩
  · rw [e]; exact h
  · rw [e, arg_at_set_none, if_neg (hk k hop)]; exact h
  · rw [e, arg_at_set_none, if_neg (hk m (Or.inr hop2)), arg_at_set_none,
      if_neg (hk k (Or.inl hop1))]
    exact h

/-- The first token after `handle_redirection` was the first token before. -/
theorem handle_redirection_first_slot_inv (w : World) (p : Proc) (args : Argv) (a : String)
    (h : arg_at (handle_redirection w p args).2 0 = some a) :
    arg_at args 0 = some a := by
  rcases handle_redirection_args w p args with e | ⟨k, _, e⟩ | ⟨k, m, _, _, e⟩
  · rw [e] at h; exact h
  · rw [e, arg_at_set_none] at h
    split at h
    · simp at h
    · exact h
  · rw [e, arg_at_set_none] at h
    split at h
    · simp at h
    · rw [arg_at_set_none] at h
      split at h
      · simp at h
      · exact h

/-- The single-stage branch of `exec_with_redirection_and_pipe` when the
child is created. -/
theorem exec_single_eq (w : World) (p : Proc) (args : Argv)
    (hidx : find_pipe args = -1) (hfork : w.fork_ok 0 = true) :
    exec_with_redirection_and_pipe w p args =
      ((p.emit (Event.sys_fork 1)).emit (Event.sys_waitpid 1),
       [(1, run_stage w (fork_child p) args)]) := by
  simp [exec_with_redirection_and_pipe, hidx, fork_result, hfork]

/-- C15: for a single-stage line whose command, after redirection stripping,
is an external program that cannot be started, the one child reports the
`execvp` error and exits with the nonzero status `EXIT_FAILURE`, and the
parent, having waited for that child, goes on to the next prompt: the loop of
`main` is not left. -/
theorem C15_exec_failure_stays_in_child (w : World) (p : Proc) (raw : String) (a : String)
    (hidx : find_pipe (main_args raw) = -1) (hfork : w.fork_ok 0 = true)
    (hcmd : arg_at (handle_redirection w (fork_child p) (main_args raw)).2 0 = some a)
    (h1 : a ≠ "cd") (h2 : a ≠ "exit") (hfail : w.can_exec a = false) :
    main_iteration w p (some raw) =
      Step.next ((p.emit (Event.sys_fork 1)).emit (Event.sys_waitpid 1))
        [(1, Child.exited EXIT_FAILURE
          (((handle_redirection w (fork_child p) (main_args raw)).1.emit
            (Event.sys_execvp a
              (cvec (handle_redirection w (fork_child p) (main_args raw)).2) false)).emit
            (Event.report Report.perror_execvp)))] ∧
    EXIT_FAILURE ≠ 0 ∧
    main_return (main_iteration w p (some raw)) = none := by
  have h0 := handle_redirection_first_slot_inv w (fork_child p) (main_args raw) a hcmd
  have hrun : run_stage w (fork_child p) (main_args raw) =
      Child.exited EXIT_FAILURE
        (((handle_redirection w (fork_child p) (main_args raw)).1.emit
          (Event.sys_execvp a
            (cvec (handle_redirection w (fork_child p) (main_args raw)).2) false)).emit
          (Event.report Report.perror_execvp)) := by
    simp [run_stage, run_command, is_builtin, hcmd, h1, h2, sys_execvp, hfail]
  have hm : main_iteration w p (some raw) =
      Step.next ((p.emit (Event.sys_fork 1)).emit (Event.sys_waitpid 1))
        [(1, Child.exited EXIT_FAILURE
          (((handle_redirection w (fork_child p) (main_args raw)).1.emit
            (Event.sys_execvp a
              (cvec (handle_redirection w (fork_child p) (main_args raw)).2) false)).emit
            (Event.report Report.perror_execvp)))] := by
    rw [main_iteration_dispatch w p raw a h0, if_neg h2,
      exec_single_eq w p (main_args raw) hidx hfork, hrun]
  refine ⟨hm, by decide, ?_⟩
  rw [hm]
  rfl

/-- C15, instance: the line `nonexistent-program`. -/
theorem C15_exec_failure_stays_in_child_witness :
    main_iteration demo_world demo_proc (some "nonexistent-program\n") =
      Step.next ((demo_proc.emit (Event.sys_fork 1)).emit (Event.sys_waitpid 1))
        [(1, Child.exited EXIT_FAILURE
          (((handle_redirection demo_world (fork_child demo_proc)
              (main_args "nonexistent-program\n")).1.emit
            (Event.sys_execvp "nonexistent-program"
              (cvec (handle_redirection demo_world (fork_child demo_proc)
                (main_args "nonexistent-program\n")).2) false)).emit
            (Event.report Report.perror_execvp)))] ∧
    EXIT_FAILURE ≠ 0 ∧
    main_return (main_iteration demo_world demo_proc (some "nonexistent-program\n")) = none :=
  C15_exec_failure_stays_in_child demo_world demo_proc "nonexistent-program\n"
    "nonexistent-program" (by decide) (by decide) (by decide) (by decide) (by decide)
    (by decide)

/-! ## Every branch of `exec_with_redirection_and_pipe` -/

theorem exec_parent_cwd (w : World) (p : Proc) (args : Argv) :
    (exec_with_redirection_and_pipe w p args).1.cwd = p.cwd := by
  unfold exec_with_redirection_and_pipe
  simp only []
  split
  · split <;> rfl
  · split
    · rfl
    · simp only [emit_cwd, sys_close_cwd, sys_pipe]

theorem exec_single_fork_fails (w : World) (p : Proc) (args : Argv)
    (hidx : find_pipe args = -1) (hfork : w.fork_ok 0 = false) :
    exec_with_redirection_and_pipe w p args =
      ((p.emit (Event.sys_fork (-1))).emit (Event.report Report.perror_fork), []) := by
  simp [exec_with_redirection_and_pipe, hidx, fork_result, hfork]

theorem exec_pipe_fails (w : World) (p : Proc) (args : Argv) (i : Nat)
    (hidx : find_pipe args = (i : Int)) (hpipe : w.pipe_ok = false) :
    exec_with_redirection_and_pipe w p args =
      ((p.emit (Event.sys_pipe none)).emit (Event.report Report.perror_pipe), []) := by
  have hne : ¬ ((i : Int) = -1) := by omega
  simp [exec_with_redirection_and_pipe, hidx, hne, hpipe]

/-- The pipeline branch once the pipe exists, whatever the two `fork` calls
return. -/
theorem exec_pipeline_general (w : World) (p : Proc) (args : Argv) (i : Nat)
    (hidx : find_pipe args = (i : Int)) (hpipe : w.pipe_ok = true) :
    exec_with_redirection_and_pipe w p args =
      ((((sys_close (sys_close (((sys_pipe p).1.emit (Event.sys_fork (fork_result w 0))).emit
          (Event.sys_fork (fork_result w 1))) (sys_pipe p).2.1) (sys_pipe p).2.2).emit
          (Event.sys_waitpid (fork_result w 0))).emit (Event.sys_waitpid (fork_result w 1))),
       (if fork_result w 0 < 0 then []
        else [(fork_result w 0,
          left_child w (sys_pipe p).1 (sys_pipe p).2.1 (sys_pipe p).2.2 args i)]) ++
       (if fork_result w 1 < 0 then []
        else [(fork_result w 1,
          right_child w (sys_pipe p).1 (sys_pipe p).2.1 (sys_pipe p).2.2 args i)])) := by
  have hne : ¬ ((i : Int) = -1) := by omega
  simp [exec_with_redirection_and_pipe, hidx, hne, hpipe]

theorem pipeline_parent_trace (p : Proc) (a b : Int) :
    (((sys_close (sys_close (((sys_pipe p).1.emit (Event.sys_fork a)).emit (Event.sys_fork b))
        (sys_pipe p).2.1) (sys_pipe p).2.2).emit (Event.sys_waitpid a)).emit
        (Event.sys_waitpid b)).trace =
      p.trace ++ [Event.sys_pipe (some ((sys_pipe p).2.1, (sys_pipe p).2.2)),
        Event.sys_fork a, Event.sys_fork b,
        Event.sys_close (sys_pipe p).2.1 (some FileRef.pipe_read),
        Event.sys_close (sys_pipe p).2.2 (some FileRef.pipe_write),
        Event.sys_waitpid a, Event.sys_waitpid b] := by
  have hd := sys_pipe_distinct p
  simp only [emit_trace, sys_close_trace, sys_close_fds, emit_fds, sys_pipe_fds,
    sys_pipe_trace]
  simp [hd, Ne.symm hd]

theorem find_pipe_range (args : Argv) :
    find_pipe args = -1 ∨ ∃ i : Nat, find_pipe args = (i : Int) := by
  rcases find_pipe_loop_spec args 0 with ⟨h, _⟩ | ⟨k, h, _, _⟩
  · left; exact h
  · right; exact ⟨0 + k, h⟩

theorem cvec_head (args : Argv) (a : String) (h : arg_at args 0 = some a) :
    (cvec args).head? = some a := by
  cases args with
  | nil => simp [arg_at_nil] at h
  | cons x rest =>
    rw [arg_at_cons_zero] at h
    subst h
    rfl

/-- A stage whose first token is `cd` runs the builtin and falls through. -/
theorem run_stage_cd (w : World) (q : Proc) (stage : Argv)
    (h : arg_at stage 0 = some "cd") : cd_fell_through (run_stage w q stage) := by
  have h0 : arg_at (handle_redirection w q stage).2 0 = some "cd" :=
    handle_redirection_first_slot w q stage "cd" h (by decide) (by decide)
  have hh := cvec_head _ _ h0
  unfold cd_fell_through run_stage run_command
  simp only [is_builtin, h0, if_true, exec_builtin, ne_eq, one_ne_zero, not_false_eq_true]
  cases arg_at (handle_redirection w q stage).2 1 with
  | none =>
    exact ⟨_, _, rfl, hh, by simp [Proc.emit], by simp [Proc.emit]⟩
  | some path =>
    simp only []
    cases w.chdir ((handle_redirection w q stage).1.emit
      (Event.call_exec_builtin (cvec (handle_redirection w q stage).2))).cwd path with
    | none => exact ⟨_, _, rfl, hh, by simp [Proc.emit], by simp [Proc.emit]⟩
    | some d => exact ⟨_, _, rfl, hh, by simp [Proc.emit], by simp [Proc.emit]⟩

/-- C20: whenever `exec_with_redirection_and_pipe` runs a stage whose first
token is `cd`, as the single stage or on either side of a pipe, the builtin is
called in the forked child, and after `exec_builtin` has returned the child
reports an `execvp` error and exits with the failure status, whether or not
the directory change succeeded; the directory of the parent is never
changed. -/
theorem C20_cd_stage_falls_through (w : World) (p : Proc) (args : Argv) :
    (find_pipe args = -1 → w.fork_ok 0 = true → arg_at args 0 = some "cd" →
      ∃ c, (exec_with_redirection_and_pipe w p args).2 = [(1, c)] ∧ cd_fell_through c) ∧
    (∀ i : Nat, find_pipe args = (i : Int) → w.pipe_ok = true → w.fork_ok 0 = true →
      arg_at (left_cmd args i) 0 = some "cd" →
      ∃ c, (1, c) ∈ (exec_with_redirection_and_pipe w p args).2 ∧ cd_fell_through c) ∧
    (∀ i : Nat, find_pipe args = (i : Int) → w.pipe_ok = true → w.fork_ok 1 = true →
      arg_at (right_cmd args i) 0 = some "cd" →
      ∃ c, (2, c) ∈ (exec_with_redirection_and_pipe w p args).2 ∧ cd_fell_through c) ∧
    (exec_with_redirection_and_pipe w p args).1.cwd = p.cwd := by
  refine ⟨?_, ?_, ?_, exec_parent_cwd w p args⟩
  · intro hidx hfork h
    exact ⟨_, by rw [exec_single_eq w p args hidx hfork], run_stage_cd w _ args h⟩
  · intro i hidx hpipe hfork h
    refine ⟨left_child w (sys_pipe p).1 (sys_pipe p).2.1 (sys_pipe p).2.2 args i, ?_,
      run_stage_cd w _ _ h⟩
    rw [exec_pipeline_general w p args i hidx hpipe]
    simp [fork_result, hfork]
  · intro i hidx hpipe hfork h
    refine ⟨right_child w (sys_pipe p).1 (sys_pipe p).2.1 (sys_pipe p).2.2 args i, ?_,
      run_stage_cd w _ _ h⟩
    rw [exec_pipeline_general w p args i hidx hpipe]
    simp [fork_result, hfork]

/-- C20, instance: `cd /tmp` alone and the pipeline `cd /nope | cd /tmp`. -/
theorem C20_cd_stage_falls_through_witness :
    (∃ c, (exec_with_redirection_and_pipe demo_world demo_proc
        (argv_of ["cd", "/tmp"])).2 = [(1, c)] ∧ cd_fell_through c) ∧
    (∃ c, (1, c) ∈ (exec_with_redirection_and_pipe demo_world demo_proc
        (argv_of ["cd", "/nope", "|", "cd", "/tmp"])).2 ∧ cd_fell_through c) ∧
    (∃ c, (2, c) ∈ (exec_with_redirection_and_pipe demo_world demo_proc
        (argv_of ["cd", "/nope", "|", "cd", "/tmp"])).2 ∧ cd_fell_through c) :=
  ⟨(C20_cd_stage_falls_through demo_world demo_proc (argv_of ["cd", "/tmp"])).1
      (by decide) rfl (by decide),
   (C20_cd_stage_falls_through demo_world demo_proc
      (argv_of ["cd", "/nope", "|", "cd", "/tmp"])).2.1 2 (by decide) rfl rfl (by decide),
   (C20_cd_stage_falls_through demo_world demo_proc
      (argv_of ["cd", "/nope", "|", "cd", "/tmp"])).2.2.1 2 (by decide) rfl rfl (by decide)⟩

/-- C11 (code defect): a failing `pipe` and a failing `fork` of the single
stage are reported and end the invocation, but the two `fork` calls of a
pipeline are never checked. When the first fails on `ls | wc`, nothing is
reported, the second child is still created, and `waitpid(-1, ...)` is issued
for the child that was never created; when the second fails, nothing is
reported either and `waitpid(-1, ...)` is issued after the first child has
been collected. -/
theorem C11_pipeline_fork_failure_unreported :
    (∀ (w : World) (p : Proc) (args : Argv), find_pipe args = -1 → w.fork_ok 0 = false →
      exec_with_redirection_and_pipe w p args =
        ((p.emit (Event.sys_fork (-1))).emit (Event.report Report.perror_fork), [])) ∧
    (∀ (w : World) (p : Proc) (args : Argv) (i : Nat), find_pipe args = (i : Int) →
      w.pipe_ok = false →
      exec_with_redirection_and_pipe w p args =
        ((p.emit (Event.sys_pipe none)).emit (Event.report Report.perror_pipe), [])) ∧
    exec_with_redirection_and_pipe (fork_fails_world 0) demo_proc (argv_of ["ls", "|", "wc"]) =
      (Proc.mk [some (FileRef.inherited 0), some (FileRef.inherited 1),
          some (FileRef.inherited 2), none, none] "/home"
        [Event.sys_pipe (some (3, 4)), Event.sys_fork (-1), Event.sys_fork 2,
         Event.sys_close 3 (some FileRef.pipe_read),
         Event.sys_close 4 (some FileRef.pipe_write),
         Event.sys_waitpid (-1), Event.sys_waitpid 2],
       [(2, Child.running "wc" ["wc"] (Proc.mk
          [some FileRef.pipe_read, some (FileRef.inherited 1), some (FileRef.inherited 2),
           none, none] "/home"
          [Event.sys_close 4 (some FileRef.pipe_write),
           Event.sys_dup2 3 0 (some FileRef.pipe_read),
           Event.sys_close 3 (some FileRef.pipe_read),
           Event.sys_execvp "wc" ["wc"] true]))]) ∧
    exec_with_redirection_and_pipe (fork_fails_world 1) demo_proc (argv_of ["ls", "|", "wc"]) =
      (Proc.mk [some (FileRef.inherited 0), some (FileRef.inherited 1),
          some (FileRef.inherited 2), none, none] "/home"
        [Event.sys_pipe (some (3, 4)), Event.sys_fork 1, Event.sys_fork (-1),
         Event.sys_close 3 (some FileRef.pipe_read),
         Event.sys_close 4 (some FileRef.pipe_write),
         Event.sys_waitpid 1, Event.sys_waitpid (-1)],
       [(1, Child.running "ls" ["ls"] (Proc.mk
          [some (FileRef.inherited 0), some FileRef.pipe_write, some (FileRef.inherited 2),
           none, none] "/home"
          [Event.sys_close 3 (some FileRef.pipe_read),
           Event.sys_dup2 4 1 (some FileRef.pipe_write),
           Event.sys_close 4 (some FileRef.pipe_write),
           Event.sys_execvp "ls" ["ls"] true]))]) := by
  exact ⟨exec_single_fork_fails, exec_pipe_fails, by decide, by decide⟩

/-! ## Reaping -/

theorem new_events_of_append (p q : Proc) (ev : List Event) (h : q.trace = p.trace ++ ev) :
    new_events p q = ev := by
  unfold new_events
  rw [h, List.drop_left]

theorem first_singleton (first : List Int → Int)
    (hfirst : ∀ live : List Int, live ≠ [] → first live ∈ live) (a : Int) :
    first [a] = a := by
  have := hfirst [a] (by simp)
  simpa using this

/-- C18: when `exec_with_redirection_and_pipe` returns, no child it created
is left unreaped, whichever live child a wait for any child collects first;
every child it created was created by a `fork` the parent recorded and has a
`waitpid` on its own identifier among the parent's calls, and every
successful `fork` produced one of the children. -/
theorem C18_every_child_reaped (w : World) (p : Proc) (args : Argv)
    (first : List Int → Int)
    (hfirst : ∀ live : List Int, live ≠ [] → first live ∈ live) :
    unreaped first (new_events p (exec_with_redirection_and_pipe w p args).1) [] = [] ∧
    (∀ pid ∈ child_pids (exec_with_redirection_and_pipe w p args).2,
      Event.sys_fork pid ∈ new_events p (exec_with_redirection_and_pipe w p args).1 ∧
      Event.sys_waitpid pid ∈ new_events p (exec_with_redirection_and_pipe w p args).1) ∧
    (∀ pid : Int, 0 < pid →
      Event.sys_fork pid ∈ new_events p (exec_with_redirection_and_pipe w p args).1 →
      pid ∈ child_pids (exec_with_redirection_and_pipe w p args).2) := by
  rcases find_pipe_range args with hidx | ⟨i, hidx⟩
  · cases hfork : w.fork_ok 0 with
    | false =>
      rw [exec_single_fork_fails w p args hidx hfork,
        new_events_of_append p _ [Event.sys_fork (-1), Event.report Report.perror_fork]
          (by simp [emit_trace])]
      refine ⟨by simp [unreaped], by simp [child_pids], ?_⟩
      intro pid hpos hmem
      simp at hmem
      omega
    | true =>
      rw [exec_single_eq w p args hidx hfork,
        new_events_of_append p _ [Event.sys_fork 1, Event.sys_waitpid 1]
          (by simp [emit_trace])]
      refine ⟨by simp [unreaped], by simp [child_pids], ?_⟩
      intro pid _ hmem
      simp at hmem
      simp [child_pids, hmem]
  · cases hpipe : w.pipe_ok with
    | false =>
      rw [exec_pipe_fails w p args i hidx hpipe,
        new_events_of_append p _ [Event.sys_pipe none, Event.report Report.perror_pipe]
          (by simp [emit_trace])]
      refine ⟨by simp [unreaped], by simp [child_pids], ?_⟩
      intro pid _ hmem
      simp at hmem
    | true =>
      rw [exec_pipeline_general w p args i hidx hpipe]
      simp only []
      rw [new_events_of_append p _ _ (pipeline_parent_trace p _ _)]
      cases hf0 : w.fork_ok 0 with
      | false =>
        cases hf1 : w.fork_ok 1 with
        | false =>
          refine ⟨by simp [unreaped, fork_result, hf0, hf1],
            by simp [child_pids, fork_result, hf0, hf1], ?_⟩
          intro pid hpos hmem
          simp [fork_result, hf0, hf1] at hmem
          omega
        | true =>
          refine ⟨by simp [unreaped, fork_result, hf0, hf1, first_singleton first hfirst],
            by simp [child_pids, fork_result, hf0, hf1], ?_⟩
          intro pid hpos hmem
          simp [fork_result, hf0, hf1] at hmem
          rcases hmem with hmem | hmem
          · omega
          · simp [child_pids, fork_result, hf0, hf1, hmem]
      | true =>
        cases hf1 : w.fork_ok 1 with
        | false =>
          refine ⟨by simp [unreaped, fork_result, hf0, hf1],
            by simp [child_pids, fork_result, hf0, hf1], ?_⟩
          intro pid hpos hmem
          simp [fork_result, hf0, hf1] at hmem
          rcases hmem with hmem | hmem
          · simp [child_pids, fork_result, hf0, hf1, hmem]
          · omega
        | true =>
          refine ⟨by simp [unreaped, fork_result, hf0, hf1],
            by simp [child_pids, fork_result, hf0, hf1], ?_⟩
          intro pid _ hmem
          simp [fork_result, hf0, hf1] at hmem
          rcases hmem with hmem | hmem
          · simp [child_pids, fork_result, hf0, hf1, hmem]
          · simp [child_pids, fork_result, hf0, hf1, hmem]

/-- The head of a non-empty list of live children is one of them. -/
theorem headD_mem_live (live : List Int) (h : live ≠ []) : live.headD 0 ∈ live := by
  cases live with
  | nil => exact absurd rfl h
  | cons a rest => simp

/-- C18, instance: `ls | wc` when the first `fork` fails, the oldest live child
being the one a wait for any child collects. -/
theorem C18_every_child_reaped_witness :
    unreaped (fun live => live.headD 0)
      (new_events demo_proc (exec_with_redirection_and_pipe (fork_fails_world 0) demo_proc
        (argv_of ["ls", "|", "wc"])).1) [] = [] ∧
    (∀ pid ∈ child_pids (exec_with_redirection_and_pipe (fork_fails_world 0) demo_proc
        (argv_of ["ls", "|", "wc"])).2,
      Event.sys_fork pid ∈ new_events demo_proc
        (exec_with_redirection_and_pipe (fork_fails_world 0) demo_proc
          (argv_of ["ls", "|", "wc"])).1 ∧
      Event.sys_waitpid pid ∈ new_events demo_proc
        (exec_with_redirection_and_pipe (fork_fails_world 0) demo_proc
          (argv_of ["ls", "|", "wc"])).1) ∧
    (∀ pid : Int, 0 < pid →
      Event.sys_fork pid ∈ new_events demo_proc
        (exec_with_redirection_and_pipe (fork_fails_world 0) demo_proc
          (argv_of ["ls", "|", "wc"])).1 →
      pid ∈ child_pids (exec_with_redirection_and_pipe (fork_fails_world 0) demo_proc
        (argv_of ["ls", "|", "wc"])).2) :=
  C18_every_child_reaped (fork_fails_world 0) demo_proc (argv_of ["ls", "|", "wc"])
    (fun live => live.headD 0) headD_mem_live

end Minishell

namespace Editor

/-! The undo history: proofs. -/

theorem content_copy (dest src b : TextBuffer) (h : copy_text_buffer dest src = some b) :
    content b = content src := by
  unfold copy_text_buffer at h
  split at h
  · simp at h
  · split at h
    · simp at h
    · simp only [Option.some.injEq] at h
      subst h
      unfold content
      apply List.map_congr_left
      intro i hi
      simp only [List.mem_range] at hi
      simp [hi]

theorem copy_some (dest src : TextBuffer) (hd : dest.allocated = true)
    (hs : src.allocated = true) : ∃ b, copy_text_buffer dest src = some b := by
  unfold copy_text_buffer
  simp [hd, hs]

theorem copy_allocated (dest src b : TextBuffer) (h : copy_text_buffer dest src = some b) :
    b.allocated = true := by
  unfold copy_text_buffer at h
  split at h
  · simp at h
  · split at h
    · simp at h
    · simp only [Option.some.injEq] at h
      subst h
      rfl

/-- After `save_state` and any change of the buffer, `undo` restores the
state that the save before this one stored, not the one this save stored. -/
theorem undo_after_save (stack : UndoRedoStack) (txt changed : TextBuffer)
    (h0 : 0 ≤ stack.top) (h1 : stack.top < 99)
    (hprev : (stack.states stack.top.toNat).allocated = true)
    (hnext : (stack.states (stack.top + 1).toNat).allocated = true)
    (htxt : txt.allocated = true) (hchanged : changed.allocated = true) :
    ∃ saved restored b,
      save_state stack txt = some saved ∧
      saved.top = stack.top + 1 ∧
      content (saved.states saved.top.toNat) = content txt ∧
      undo saved changed = some (1, restored, b) ∧
      restored.top = stack.top ∧
      content b = content (stack.states stack.top.toNat) := by
  obtain ⟨b1, hb1⟩ := copy_some (stack.states (stack.top + 1).toNat) txt hnext htxt
  have hlt : stack.top < (UNDO_REDO_DEPTH : Int) - 1 := by
    simp only [UNDO_REDO_DEPTH]
    omega
  have hsave : save_state stack txt =
      some (UndoRedoStack.mk (set_state stack.states (stack.top + 1).toNat b1)
        (stack.top + 1) (stack.top + 1)) := by
    simp [save_state, hlt, hb1]
  have hne : ¬ stack.top.toNat = (stack.top + 1).toNat := by omega
  have hprev_state : set_state stack.states (stack.top + 1).toNat b1 stack.top.toNat
      = stack.states stack.top.toNat := by
    simp [set_state, hne]
  obtain ⟨b2, hb2⟩ := copy_some changed (stack.states stack.top.toNat) hchanged hprev
  refine ⟨_, UndoRedoStack.mk (set_state stack.states (stack.top + 1).toNat b1)
    stack.top (stack.top + 1), b2, hsave, rfl, ?_, ?_, rfl, content_copy _ _ _ hb2⟩
  · simp only [set_state, if_true]
    exact content_copy _ _ _ hb1
  · have hpos : stack.top + 1 > 0 := by omega
    simp only [undo, hpos, if_true, Int.add_sub_cancel, hprev_state, hb2]

/-- C21 (code defect): `save_state` is called before each modification and
stores the buffer as it is then, while `undo` first steps `top` back and then
restores `states[top]`, which is the state stored by the save before. After
the inserts of `a` and `b` the state before the most recent modification
(the single line `a`) sits in `states[2]`, and a single `undo` returns 1 but
leaves the buffer empty. On the stack as `main` declares it, the first
`save_state` already writes through pointers that have no storage. -/
theorem C21_undo_restores_older_state :
    (two_inserts.map fun e => (content e.2, e.1.top)) = some (["a", "b"], 2) ∧
    (two_inserts.map fun e => content (e.1.states 2)) = some ["a"] ∧
    ((two_inserts.bind menu_undo).map fun r => (r.1, content r.2.2, r.2.1.top))
      = some (1, [], 1) ∧
    main_start declared_stack = none ∧
    (∀ (stack : UndoRedoStack) (txt changed : TextBuffer),
      0 ≤ stack.top → stack.top < 99 →
      (stack.states stack.top.toNat).allocated = true →
      (stack.states (stack.top + 1).toNat).allocated = true →
      txt.allocated = true → changed.allocated = true →
      ∃ saved restored b,
        save_state stack txt = some saved ∧
        saved.top = stack.top + 1 ∧
        content (saved.states saved.top.toNat) = content txt ∧
        undo saved changed = some (1, restored, b) ∧
        restored.top = stack.top ∧
        content b = content (stack.states stack.top.toNat)) := by
  refine ⟨by decide, by decide, by decide, ?_, undo_after_save⟩
  simp [main_start, save_state, init_undo_redo, declared_stack, copy_text_buffer,
    UNDO_REDO_DEPTH]

end Editor

namespace Chess

/-! The move validator: proofs. -/

theorem in_bounds_iff (r c : Int) :
    in_bounds r c = true ↔ (0 ≤ r ∧ r < 8 ∧ 0 ≤ c ∧ c < 8) := by
  simp only [in_bounds, BOARD_SIZE, Bool.and_eq_true, decide_eq_true_eq, ge_iff_le]
  constructor
  · rintro ⟨⟨⟨a, b⟩, c⟩, d⟩
    exact ⟨a, b, c, d⟩
  · rintro ⟨a, b, c, d⟩
    exact ⟨⟨⟨a, b⟩, c⟩, d⟩

theorem in_bounds_false_iff (r c : Int) :
    in_bounds r c = false ↔ ¬ (0 ≤ r ∧ r < 8 ∧ 0 ≤ c ∧ c < 8) := by
  rw [← in_bounds_iff]
  simp

/-- The loop of `path_clear`, started on a square of the board at `k` steps
from the destination in the stepping direction, ends within `k` iterations
and reads only squares of the board. -/
theorem path_clear_loop_total (game : ChessGame) (r2 c2 dr dc : Int)
    (h2 : 0 ≤ r2 ∧ r2 < 8 ∧ 0 ≤ c2 ∧ c2 < 8) (hd : dr ≠ 0 ∨ dc ≠ 0) :
    ∀ (k : Nat) (r c : Int), (0 ≤ r ∧ r < 8 ∧ 0 ≤ c ∧ c < 8) →
      ((dr = 0 ∧ r = r2) ∨ (dr = 1 ∧ r2 = r + k) ∨ (dr = -1 ∧ r2 = r - k)) →
      ((dc = 0 ∧ c = c2) ∨ (dc = 1 ∧ c2 = c + k) ∨ (dc = -1 ∧ c2 = c - k)) →
      ∃ (v : Int) (log : List Access),
        (∀ fuel : Nat, k ≤ fuel →
          path_clear_loop game r2 c2 dr dc fuel r c = some (v, log)) ∧
        (v = 0 ∨ v = 1) ∧ ∀ a ∈ log, Access.safe a := by
  intro k
  induction k with
  | zero =>
    intro r c _ hr hc
    have hr2 : r = r2 := by omega
    have hc2 : c = c2 := by omega
    refine ⟨1, [], ?_, Or.inr rfl, by simp⟩
    intro fuel _
    cases fuel with
    | zero => simp [path_clear_loop, hr2, hc2]
    | succ f => simp [path_clear_loop, hr2, hc2]
  | succ k ih =>
    intro r c hb hr hc
    have hne : r ≠ r2 ∨ c ≠ c2 := by omega
    have hsafe : Access.safe (Access.read r c) := (in_bounds_iff r c).mpr hb
    by_cases hocc : (game.board r c).type ≠ PieceType.EMPTY
    · refine ⟨0, [Access.read r c], ?_, Or.inl rfl, ?_⟩
      · intro fuel hfuel
        cases fuel with
        | zero => omega
        | succ f => simp [path_clear_loop, hne, hocc]
      · intro a ha
        simp only [List.mem_singleton] at ha
        subst ha
        exact hsafe
    · obtain ⟨v, log, hrun, hv, hlog⟩ := ih (r + dr) (c + dc) (by omega) (by omega) (by omega)
      refine ⟨v, Access.read r c :: log, ?_, hv, ?_⟩
      · intro fuel hfuel
        cases fuel with
        | zero => omega
        | succ f =>
          have := hrun f (by omega)
          simp only [path_clear_loop, hne, if_true, hocc, if_false, this]
      · intro a ha
        rcases List.mem_cons.mp ha with ha | ha
        · subst ha; exact hsafe
        · exact hlog a ha

theorem abs_cases (x : Int) : (x < 0 ∧ abs x = -x) ∨ (0 ≤ x ∧ abs x = x) := by
  unfold abs
  by_cases h : x < 0
  · left; simp [h]
  · right; simp [h]; omega

/-- Between two different squares of the board on one rank, file or diagonal,
`path_clear` returns and reads only squares of the board. -/
theorem path_clear_safe (game : ChessGame) (r1 c1 r2 c2 : Int)
    (h1 : 0 ≤ r1 ∧ r1 < 8 ∧ 0 ≤ c1 ∧ c1 < 8) (h2 : 0 ≤ r2 ∧ r2 < 8 ∧ 0 ≤ c2 ∧ c2 < 8)
    (hne : r1 ≠ r2 ∨ c1 ≠ c2)
    (hal : r1 = r2 ∨ c1 = c2 ∨ abs (r2 - r1) = abs (c2 - c1)) :
    returns_safely (fun fuel => path_clear fuel game r1 c1 r2 c2) := by
  have hdr : ∃ dr : Int, (if r2 > r1 then (1 : Int) else if r2 < r1 then -1 else 0) = dr ∧
      ((dr = 0 ∧ r1 = r2) ∨ (dr = 1 ∧ r1 < r2) ∨ (dr = -1 ∧ r2 < r1)) := by
    refine ⟨_, rfl, ?_⟩
    by_cases ha : r2 > r1
    · simp [ha]
    · by_cases hb : r2 < r1
      · simp [ha, hb]
      · simp [ha, hb]; omega
  have hdc : ∃ dc : Int, (if c2 > c1 then (1 : Int) else if c2 < c1 then -1 else 0) = dc ∧
      ((dc = 0 ∧ c1 = c2) ∨ (dc = 1 ∧ c1 < c2) ∨ (dc = -1 ∧ c2 < c1)) := by
    refine ⟨_, rfl, ?_⟩
    by_cases ha : c2 > c1
    · simp [ha]
    · by_cases hb : c2 < c1
      · simp [ha, hb]
      · simp [ha, hb]; omega
  obtain ⟨dr, hdr_eq, hdr⟩ := hdr
  obtain ⟨dc, hdc_eq, hdc⟩ := hdc
  have hsafe_enter : Access.safe (Access.enter_path_clear r1 c1 r2 c2) :=
    ⟨(in_bounds_iff r1 c1).mpr h1, (in_bounds_iff r2 c2).mpr h2, hne, hal⟩
  have habs_r := abs_cases (r2 - r1)
  have habs_c := abs_cases (c2 - c1)
  have hk : ∃ k : Nat, k ≤ 8 ∧
      ((dr = 0 ∧ r1 + dr = r2) ∨ (dr = 1 ∧ r2 = r1 + dr + k) ∨ (dr = -1 ∧ r2 = r1 + dr - k)) ∧
      ((dc = 0 ∧ c1 + dc = c2) ∨ (dc = 1 ∧ c2 = c1 + dc + k) ∨ (dc = -1 ∧ c2 = c1 + dc - k)) := by
    rcases hdr with ⟨e, h⟩ | ⟨e, h⟩ | ⟨e, h⟩ <;> rcases hdc with ⟨e', h'⟩ | ⟨e', h'⟩ | ⟨e', h'⟩
    · omega
    · exact ⟨(c2 - c1 - 1).toNat, by omega, by omega, by omega⟩
    · exact ⟨(c1 - c2 - 1).toNat, by omega, by omega, by omega⟩
    · exact ⟨(r2 - r1 - 1).toNat, by omega, by omega, by omega⟩
    · exact ⟨(r2 - r1 - 1).toNat, by omega, by omega, by omega⟩
    · exact ⟨(r2 - r1 - 1).toNat, by omega, by omega, by omega⟩
    · exact ⟨(r1 - r2 - 1).toNat, by omega, by omega, by omega⟩
    · exact ⟨(r1 - r2 - 1).toNat, by omega, by omega, by omega⟩
    · exact ⟨(r1 - r2 - 1).toNat, by omega, by omega, by omega⟩
  obtain ⟨k, hk8, hkr, hkc⟩ := hk
  have hdir : dr ≠ 0 ∨ dc ≠ 0 := by omega
  have hstart : 0 ≤ r1 + dr ∧ r1 + dr < 8 ∧ 0 ≤ c1 + dc ∧ c1 + dc < 8 := by omega
  obtain ⟨v, log, hrun, hv, hlog⟩ :=
    path_clear_loop_total game r2 c2 dr dc h2 hdir k (r1 + dr) (c1 + dc) hstart hkr hkc
  refine ⟨v, Access.enter_path_clear r1 c1 r2 c2 :: log, ?_, hv, ?_⟩
  · intro fuel hfuel
    have := hrun fuel (by omega)
    simp only [path_clear, hdr_eq, hdc_eq, this]
  · intro a ha
    rcases List.mem_cons.mp ha with ha | ha
    · subst ha; exact hsafe_enter
    · exact hlog a ha

theorem returns_safely_const (v : Int) (log : List Access) (hv : v = 0 ∨ v = 1)
    (hlog : ∀ a ∈ log, Access.safe a) :
    returns_safely (fun _ => some (v, log)) :=
  ⟨v, log, fun _ _ => rfl, hv, hlog⟩

theorem returns_safely_congr (f g : Nat → Option (Int × List Access))
    (h : ∀ fuel, f fuel = g fuel) (hg : returns_safely g) : returns_safely f := by
  obtain ⟨v, log, hrun, hv, hlog⟩ := hg
  exact ⟨v, log, fun fuel hf => by rw [h fuel]; exact hrun fuel hf, hv, hlog⟩

theorem valid_rook_move_safe (game : ChessGame) (r1 c1 r2 c2 : Int)
    (h1 : 0 ≤ r1 ∧ r1 < 8 ∧ 0 ≤ c1 ∧ c1 < 8) (h2 : 0 ≤ r2 ∧ r2 < 8 ∧ 0 ≤ c2 ∧ c2 < 8)
    (hne : r1 ≠ r2 ∨ c1 ≠ c2) :
    returns_safely (fun fuel => valid_rook_move fuel game r1 c1 r2 c2) := by
  by_cases h : r1 ≠ r2 ∧ c1 ≠ c2
  · exact returns_safely_congr _ _ (fun fuel => by unfold valid_rook_move; rw [if_pos h])
      (returns_safely_const 0 [] (Or.inl rfl) (by simp))
  · exact returns_safely_congr _ _ (fun fuel => by unfold valid_rook_move; rw [if_neg h])
      (path_clear_safe game r1 c1 r2 c2 h1 h2 hne (by omega))

theorem valid_bishop_move_safe (game : ChessGame) (r1 c1 r2 c2 : Int)
    (h1 : 0 ≤ r1 ∧ r1 < 8 ∧ 0 ≤ c1 ∧ c1 < 8) (h2 : 0 ≤ r2 ∧ r2 < 8 ∧ 0 ≤ c2 ∧ c2 < 8)
    (hne : r1 ≠ r2 ∨ c1 ≠ c2) :
    returns_safely (fun fuel => valid_bishop_move fuel game r1 c1 r2 c2) := by
  by_cases h : abs (r2 - r1) ≠ abs (c2 - c1)
  · exact returns_safely_congr _ _ (fun fuel => by unfold valid_bishop_move; rw [if_pos h])
      (returns_safely_const 0 [] (Or.inl rfl) (by simp))
  · exact returns_safely_congr _ _ (fun fuel => by unfold valid_bishop_move; rw [if_neg h])
      (path_clear_safe game r1 c1 r2 c2 h1 h2 hne (Or.inr (Or.inr (not_not.mp h))))

theorem valid_queen_move_safe (game : ChessGame) (r1 c1 r2 c2 : Int)
    (h1 : 0 ≤ r1 ∧ r1 < 8 ∧ 0 ≤ c1 ∧ c1 < 8) (h2 : 0 ≤ r2 ∧ r2 < 8 ∧ 0 ≤ c2 ∧ c2 < 8)
    (hne : r1 ≠ r2 ∨ c1 ≠ c2) :
    returns_safely (fun fuel => valid_queen_move fuel game r1 c1 r2 c2) := by
  by_cases h : r1 = r2 ∨ c1 = c2
  · exact returns_safely_congr _ _ (fun fuel => by unfold valid_queen_move; rw [if_pos h])
      (valid_rook_move_safe game r1 c1 r2 c2 h1 h2 hne)
  · by_cases hd : abs (r2 - r1) = abs (c2 - c1)
    · exact returns_safely_congr _ _
        (fun fuel => by unfold valid_queen_move; rw [if_neg h, if_pos hd])
        (valid_bishop_move_safe game r1 c1 r2 c2 h1 h2 hne)
    · exact returns_safely_congr _ _
        (fun fuel => by unfold valid_queen_move; rw [if_neg h, if_neg hd])
        (returns_safely_const 0 [] (Or.inl rfl) (by simp))

theorem pawn_single_step_reads (game : ChessGame) (r1 c1 r2 c2 direction : Int) :
    ∀ a ∈ (pawn_single_step game r1 c1 r2 c2 direction).2, a = Access.read r2 c2 := by
  unfold pawn_single_step
  split <;> simp

theorem pawn_capture_reads (game : ChessGame) (r1 c1 r2 c2 direction : Int) (p : Piece) :
    ∀ a ∈ (pawn_capture game r1 c1 r2 c2 direction p).2, a = Access.read r2 c2 := by
  unfold pawn_capture
  split
  · split <;> simp
  · simp

/-- The double-step rule reads the intermediate square only from the start
row. -/
theorem pawn_double_step_reads (game : ChessGame)
    (r1 c1 r2 c2 direction start_row : Int) :
    ∀ a ∈ (pawn_double_step game r1 c1 r2 c2 direction start_row).2,
      a = Access.read r2 c2 ∨ (a = Access.read (r1 + direction) c1 ∧ r1 = start_row) := by
  unfold pawn_double_step
  split
  · rename_i h
    split
    · intro a ha
      simp only [List.mem_cons, List.mem_singleton, List.not_mem_nil, or_false] at ha
      rcases ha with ha | ha
      · right; exact ⟨ha, h.2.1⟩
      · left; exact ha
    · intro a ha
      simp only [List.mem_singleton] at ha
      right; exact ⟨ha, h.2.1⟩
  · simp

theorem valid_pawn_move_safe (game : ChessGame) (r1 c1 r2 c2 : Int)
    (h1 : 0 ≤ r1 ∧ r1 < 8 ∧ 0 ≤ c1 ∧ c1 < 8) (h2 : 0 ≤ r2 ∧ r2 < 8 ∧ 0 ≤ c2 ∧ c2 < 8) :
    ((valid_pawn_move game r1 c1 r2 c2).1 = 0 ∨ (valid_pawn_move game r1 c1 r2 c2).1 = 1) ∧
    ∀ a ∈ (valid_pawn_move game r1 c1 r2 c2).2, Access.safe a := by
  have hs1 : Access.safe (Access.read r1 c1) := (in_bounds_iff r1 c1).mpr h1
  have hs2 : Access.safe (Access.read r2 c2) := (in_bounds_iff r2 c2).mpr h2
  have hrel : r1 = (if (game.board r1 c1).color = PieceColor.WHITE then (6 : Int) else 1) →
      (0 ≤ r1 + (if (game.board r1 c1).color = PieceColor.WHITE then (-1 : Int) else 1) ∧
       r1 + (if (game.board r1 c1).color = PieceColor.WHITE then (-1 : Int) else 1) < 8) := by
    intro hrow
    by_cases hw : (game.board r1 c1).color = PieceColor.WHITE
    · simp only [hw, if_true] at hrow ⊢
      omega
    · simp only [hw, if_false] at hrow ⊢
      omega
  unfold valid_pawn_move
  simp only []
  generalize (if (game.board r1 c1).color = PieceColor.WHITE then (-1 : Int) else 1)
    = direction at hrel ⊢
  generalize (if (game.board r1 c1).color = PieceColor.WHITE then (6 : Int) else 1)
    = start_row at hrel ⊢
  have hall : ∀ a, a ∈ Access.read r1 c1 ::
      ((pawn_single_step game r1 c1 r2 c2 direction).2 ++
        (pawn_double_step game r1 c1 r2 c2 direction start_row).2 ++
        (pawn_capture game r1 c1 r2 c2 direction (game.board r1 c1)).2) → Access.safe a := by
    intro a ha
    simp only [List.mem_cons, List.mem_append] at ha
    rcases ha with ha | (ha | ha) | ha
    · subst ha; exact hs1
    · rw [pawn_single_step_reads _ _ _ _ _ _ a ha]; exact hs2
    · rcases pawn_double_step_reads _ _ _ _ _ _ _ a ha with hb | ⟨hb, hrow⟩
      · subst hb; exact hs2
      · subst hb
        have := hrel hrow
        exact (in_bounds_iff _ _).mpr ⟨this.1, this.2, h1.2.2.1, h1.2.2.2⟩
    · rw [pawn_capture_reads _ _ _ _ _ _ _ a ha]; exact hs2
  split
  · refine ⟨Or.inr rfl, ?_⟩
    intro a ha
    apply hall
    simp only [List.mem_cons, List.mem_append] at ha ⊢
    tauto
  · split
    · refine ⟨Or.inr rfl, ?_⟩
      intro a ha
      apply hall
      simp only [List.mem_cons, List.mem_append] at ha ⊢
      tauto
    · split
      · exact ⟨Or.inr rfl, hall⟩
      · exact ⟨Or.inl rfl, hall⟩


/-- Past the bounds test and the two rejections of `valid_move`, the source
and destination squares differ: one square has one colour. -/
theorem squares_differ (game : ChessGame) (r1 c1 r2 c2 : Int)
    (hc : ¬ (game.board r2 c2).color = (game.board r1 c1).color) : r1 ≠ r2 ∨ c1 ≠ c2 := by
  by_contra h
  push_neg at h
  obtain ⟨hr, hcc⟩ := h
  subst hr
  subst hcc
  exact hc rfl

/-- The `switch` of `valid_move`, reached past the bounds test and the two
rejections. -/
theorem valid_move_dispatch (fuel : Nat) (game : ChessGame) (r1 c1 r2 c2 : Int)
    (hb : ¬ (in_bounds r1 c1 = false ∨ in_bounds r2 c2 = false))
    (he : ¬ ((game.board r1 c1).type = PieceType.EMPTY ∨
      (game.board r1 c1).color ≠ game.turn))
    (hc : ¬ (game.board r2 c2).color = (game.board r1 c1).color) :
    valid_move fuel game r1 c1 r2 c2 =
      match (game.board r1 c1).type with
      | PieceType.PAWN =>
        some ((valid_pawn_move game r1 c1 r2 c2).1,
          [Access.read r1 c1, Access.read r2 c2] ++
            Access.piece_rule PieceType.PAWN :: (valid_pawn_move game r1 c1 r2 c2).2)
      | PieceType.KNIGHT =>
        some (valid_knight_move r1 c1 r2 c2,
          [Access.read r1 c1, Access.read r2 c2] ++ [Access.piece_rule PieceType.KNIGHT])
      | PieceType.BISHOP =>
        after ([Access.read r1 c1, Access.read r2 c2] ++ [Access.piece_rule PieceType.BISHOP])
          (valid_bishop_move fuel game r1 c1 r2 c2)
      | PieceType.ROOK =>
        after ([Access.read r1 c1, Access.read r2 c2] ++ [Access.piece_rule PieceType.ROOK])
          (valid_rook_move fuel game r1 c1 r2 c2)
      | PieceType.QUEEN =>
        after ([Access.read r1 c1, Access.read r2 c2] ++ [Access.piece_rule PieceType.QUEEN])
          (valid_queen_move fuel game r1 c1 r2 c2)
      | PieceType.KING =>
        some (valid_king_move r1 c1 r2 c2,
          [Access.read r1 c1, Access.read r2 c2] ++ [Access.piece_rule PieceType.KING])
      | PieceType.EMPTY => some (0, [Access.read r1 c1, Access.read r2 c2]) := by
  unfold valid_move
  simp only []
  rw [if_neg hb, if_neg he, if_neg hc]

/-- A validator that returns safely still does so with the reads of
`valid_move` and the dispatch put in front of its accesses. -/
theorem after_returns_safely (before : List Access) (f : Nat → Option (Int × List Access))
    (hbefore : ∀ a ∈ before, Access.safe a) (hf : returns_safely f) :
    returns_safely (fun fuel => after before (f fuel)) := by
  obtain ⟨v, log, hrun, hv, hlog⟩ := hf
  refine ⟨v, before ++ log, ?_, hv, ?_⟩
  · intro fuel hfuel
    simp only [hrun fuel hfuel, after]
  · intro a ha
    rcases List.mem_append.mp ha with ha | ha
    · exact hbefore a ha
    · exact hlog a ha


/-- The outcome of `valid_move` past the bounds test and the two rejections:
it returns 0 or 1 and every access stays on the board. -/
theorem valid_move_rules_safe (game : ChessGame) (r1 c1 r2 c2 : Int)
    (hb : ¬ (in_bounds r1 c1 = false ∨ in_bounds r2 c2 = false))
    (he : ¬ ((game.board r1 c1).type = PieceType.EMPTY ∨
      (game.board r1 c1).color ≠ game.turn))
    (hc : ¬ (game.board r2 c2).color = (game.board r1 c1).color) :
    returns_safely (fun fuel => valid_move fuel game r1 c1 r2 c2) := by
  have hb1 : in_bounds r1 c1 = true := by
    cases h : in_bounds r1 c1
    · exact absurd (Or.inl h) hb
    · rfl
  have hb2 : in_bounds r2 c2 = true := by
    cases h : in_bounds r2 c2
    · exact absurd (Or.inr h) hb
    · rfl
  have h1 := (in_bounds_iff r1 c1).mp hb1
  have h2 := (in_bounds_iff r2 c2).mp hb2
  have hne := squares_differ game r1 c1 r2 c2 hc
  have hreads : ∀ (t : PieceType), ∀ a ∈ [Access.read r1 c1, Access.read r2 c2] ++
      [Access.piece_rule t], Access.safe a := by
    intro t a ha
    simp only [List.cons_append, List.nil_append, List.mem_cons, List.mem_singleton,
      List.not_mem_nil, or_false] at ha
    rcases ha with ha | ha | ha
    · subst ha; exact hb1
    · subst ha; exact hb2
    · subst ha; exact trivial
  cases htype : (game.board r1 c1).type
  · exact absurd (Or.inl htype) he
  · obtain ⟨hv, hlog⟩ := valid_pawn_move_safe game r1 c1 r2 c2 h1 h2
    refine ⟨(valid_pawn_move game r1 c1 r2 c2).1,
      [Access.read r1 c1, Access.read r2 c2] ++
        Access.piece_rule PieceType.PAWN :: (valid_pawn_move game r1 c1 r2 c2).2,
      fun fuel _ => ?_, hv, ?_⟩
    · show valid_move fuel game r1 c1 r2 c2 = _
      rw [valid_move_dispatch fuel game r1 c1 r2 c2 hb he hc, htype]
    · intro a ha
      simp only [List.cons_append, List.nil_append, List.mem_cons] at ha
      rcases ha with ha | ha | ha | ha
      · subst ha; exact hb1
      · subst ha; exact hb2
      · subst ha; exact trivial
      · exact hlog a ha
  · exact returns_safely_congr _ _
      (fun fuel => by rw [valid_move_dispatch fuel game r1 c1 r2 c2 hb he hc, htype])
      (after_returns_safely _ _ (hreads PieceType.ROOK)
        (valid_rook_move_safe game r1 c1 r2 c2 h1 h2 hne))
  · refine ⟨valid_knight_move r1 c1 r2 c2,
      [Access.read r1 c1, Access.read r2 c2] ++ [Access.piece_rule PieceType.KNIGHT], fun fuel _ => ?_, ?_, hreads PieceType.KNIGHT⟩
    · show valid_move fuel game r1 c1 r2 c2 = _
      rw [valid_move_dispatch fuel game r1 c1 r2 c2 hb he hc, htype]
    · unfold valid_knight_move
      split
      · exact Or.inr rfl
      · exact Or.inl rfl
  · exact returns_safely_congr _ _
      (fun fuel => by rw [valid_move_dispatch fuel game r1 c1 r2 c2 hb he hc, htype])
      (after_returns_safely _ _ (hreads PieceType.BISHOP)
        (valid_bishop_move_safe game r1 c1 r2 c2 h1 h2 hne))
  · exact returns_safely_congr _ _
      (fun fuel => by rw [valid_move_dispatch fuel game r1 c1 r2 c2 hb he hc, htype])
      (after_returns_safely _ _ (hreads PieceType.QUEEN)
        (valid_queen_move_safe game r1 c1 r2 c2 h1 h2 hne))
  · refine ⟨valid_king_move r1 c1 r2 c2,
      [Access.read r1 c1, Access.read r2 c2] ++ [Access.piece_rule PieceType.KING], fun fuel _ => ?_, ?_, hreads PieceType.KING⟩
    · show valid_move fuel game r1 c1 r2 c2 = _
      rw [valid_move_dispatch fuel game r1 c1 r2 c2 hb he hc, htype]
    · unfold valid_king_move
      split
      · exact Or.inr rfl
      · exact Or.inl rfl


/-- C22: for every board state (whatever its turn) and every four integers,
`valid_move` returns 0 or 1 once the loop of `path_clear` is allowed 8
iterations or more, and every square it reads lies inside the 8x8 board;
`path_clear` is entered only between two different squares of the board on
one rank, file or diagonal. Coordinates out of range are rejected before any
access to the board, and a move onto the own square or onto a piece of the
own colour is rejected after the reads of the two squares, before any piece
rule. On the opening position, the double step of the pawn from e2 reads the
square between, and the rook from a1 stops at the pawn on a2. -/
theorem C22_valid_move_reads_inside_board (game : ChessGame) (r1 c1 r2 c2 : Int) :
    (∃ (v : Int) (log : List Access),
      (∀ fuel : Nat, 8 ≤ fuel → valid_move fuel game r1 c1 r2 c2 = some (v, log)) ∧
      (v = 0 ∨ v = 1) ∧
      (∀ a ∈ log, Access.safe a) ∧
      ((in_bounds r1 c1 = false ∨ in_bounds r2 c2 = false) → v = 0 ∧ log = []) ∧
      (in_bounds r1 c1 = true → in_bounds r2 c2 = true →
        ((r1 = r2 ∧ c1 = c2) ∨ (game.board r2 c2).color = (game.board r1 c1).color) →
        v = 0 ∧ log = [Access.read r1 c1, Access.read r2 c2])) ∧
    valid_move 8 init_board 6 4 4 4 = some (1, [Access.read 6 4, Access.read 4 4,
      Access.piece_rule PieceType.PAWN, Access.read 6 4, Access.read 5 4,
      Access.read 4 4]) ∧
    valid_move 8 init_board 7 0 3 0 = some (0, [Access.read 7 0, Access.read 3 0,
      Access.piece_rule PieceType.ROOK, Access.enter_path_clear 7 0 3 0,
      Access.read 6 0]) := by
  refine ⟨?_, by decide, by decide⟩
  by_cases hb : in_bounds r1 c1 = false ∨ in_bounds r2 c2 = false
  · refine ⟨0, [], fun fuel _ => ?_, Or.inl rfl, ?_, fun _ => ⟨rfl, rfl⟩, ?_⟩
    · unfold valid_move
      rw [if_pos hb]
    · intro a ha
      cases ha
    · intro hb1 hb2 _
      rcases hb with h | h
      · rw [hb1] at h
        cases h
      · rw [hb2] at h
        cases h
  · have hb1 : in_bounds r1 c1 = true := by
      cases h : in_bounds r1 c1
      · exact absurd (Or.inl h) hb
      · rfl
    have hb2 : in_bounds r2 c2 = true := by
      cases h : in_bounds r2 c2
      · exact absurd (Or.inr h) hb
      · rfl
    have hreads : ∀ a ∈ [Access.read r1 c1, Access.read r2 c2], Access.safe a := by
      intro a ha
      simp only [List.mem_cons, List.not_mem_nil, or_false] at ha
      rcases ha with ha | ha
      · subst ha; exact hb1
      · subst ha; exact hb2
    by_cases he : (game.board r1 c1).type = PieceType.EMPTY ∨
        (game.board r1 c1).color ≠ game.turn
    · refine ⟨0, [Access.read r1 c1, Access.read r2 c2], fun fuel _ => ?_, Or.inl rfl,
        hreads, fun h => absurd h hb, fun _ _ _ => ⟨rfl, rfl⟩⟩
      unfold valid_move
      simp only []
      rw [if_neg hb, if_pos he]
    · by_cases hc : (game.board r2 c2).color = (game.board r1 c1).color
      · refine ⟨0, [Access.read r1 c1, Access.read r2 c2], fun fuel _ => ?_, Or.inl rfl,
          hreads, fun h => absurd h hb, fun _ _ _ => ⟨rfl, rfl⟩⟩
        unfold valid_move
        simp only []
        rw [if_neg hb, if_neg he, if_pos hc]
      · obtain ⟨v, log, hrun, hv, hlog⟩ := valid_move_rules_safe game r1 c1 r2 c2 hb he hc
        refine ⟨v, log, hrun, hv, hlog, fun h => absurd h hb, ?_⟩
        intro _ _ h
        rcases h with ⟨hr, hcc⟩ | h
        · rcases squares_differ game r1 c1 r2 c2 hc with hd | hd
          · exact absurd hr hd
          · exact absurd hcc hd
        · exact absurd h hc

end Chess
